import Mathlib

/-!
# Brontide: the Noise_XK handshake and record layer of `brontide/noise.go`

A shallow embedding of `src/brontide/noise.go`.  Mutable receivers become explicit
state passing: a Go method `func (c *T) m(args) r` becomes a function returning the
new `T` together with `r`.

* Bytes are natural numbers (values `0..255`), byte slices are lists.
* `uint64` arithmetic is written with an explicit `% 2 ^ 64`.
* The cryptographic libraries the file imports (SHA-256, HKDF, ChaCha20-Poly1305,
  secp256k1) are collaborators outside the repository.  They are the fields of
  `Primitives`; what a theorem assumes about them is a named hypothesis of that
  theorem (`SealOverhead`, `OpenInvertsSeal`, `EcdhSymmetric`, ...).  `toy` is a small
  executable instance satisfying all of them.
* A Go run-time panic (a nil pointer dereference, an out-of-range index) is the
  result `none` of a function returning `Option`.

The fee-rate conversions of `src/lnwallet/chainfee/rates.go` are in namespace `Chainfee`.
-/

namespace Chainfee

/-! ## Fee rates (`lnwallet/chainfee/rates.go`)

`SatPerKWeight` and `SatPerKVByte` are `int64` types (`acmutil.Amount`); their values are
integers and the result of an arithmetic operation is wrapped to 64 bits. -/

/-- The value of a mathematical integer stored in a Go `int64`: two's complement
wrap-around. -/
def wrapInt64 (x : Int) : Int := (x + 2 ^ 63) % 2 ^ 64 - 2 ^ 63

/-- Go `SatPerKWeight.FeeForWeight`: `acmutil.Amount(s) * acmutil.Amount(wu) / 1000` on
`int64` values; Go's `/` truncates toward zero. -/
def FeeForWeight (s wu : Int) : Int := Int.tdiv (wrapInt64 (s * wu)) 1000

/-- The constant `blockchain.WitnessScaleFactor` of the imported package
`acmd/blockchain`: the weight of a non-witness byte. -/
def WitnessScaleFactor : Int := 4

/-- Go `SatPerKVByte.FeePerKWeight`: `SatPerKWeight(s / blockchain.WitnessScaleFactor)`,
a division of `int64` values. -/
def FeePerKWeight (s : Int) : Int := Int.tdiv s WitnessScaleFactor

/-- Go `SatPerKWeight.FeePerKVByte`: `SatPerKVByte(s * blockchain.WitnessScaleFactor)`,
a product of `int64` values. -/
def FeePerKVByte (s : Int) : Int := wrapInt64 (s * WitnessScaleFactor)

end Chainfee

namespace Brontide

/-- A byte slice. -/
abbrev Bytes := List Nat

/-- Errors returned by the package.  `collaborator` stands for an error value produced
outside the file (AEAD authentication failure, public-key parsing, the ephemeral key
generator, the underlying stream); it is passed through unchanged. -/
inductive Error where
  | ErrMaxMessageLengthExceeded
  | invalidVersion (act : String) (version : Nat) (msg : Bytes)
  | collaborator (code : Nat)
  deriving DecidableEq, Repr

deriving instance DecidableEq for Except

/-! ## Constants -/

/-- The ASCII bytes of a string constant. -/
def asciiBytes (s : String) : Bytes := s.toList.map Char.toNat

def protocolName : Bytes := asciiBytes "Noise_XK_secp256k1_ChaChaPoly_SHA256"

def macSize : Nat := 16

def lengthHeaderSize : Nat := 2

def keyRotationInterval : Nat := 1000

def lightningPrologue : Bytes := asciiBytes "lightning"

def HandshakeVersion : Nat := 0

def ActOneSize : Nat := 50

def ActTwoSize : Nat := 50

def ActThreeSize : Nat := 66

/-- Go constant `math.MaxUint16`. -/
def MaxUint16 : Nat := 65535

/-! ## Collaborators -/

/-- The library functions `noise.go` calls.  `Priv` and `Pub` are the types of valid
secp256k1 private and public keys (`*btcec.PrivateKey`, `*btcec.PublicKey`). -/
structure Primitives (Priv Pub : Type) where
  /-- SHA-256 of a byte string (`sha256.Sum256`, `sha256.New` + `Write` + `Sum`). -/
  sha256 : Bytes → Bytes
  /-- Output stream of `hkdf.New(sha256.New, secret, salt, info)`: arguments are
  `secret salt info` and the index of the output byte. -/
  hkdf : Bytes → Bytes → Bytes → Nat → Nat
  /-- ChaCha20-Poly1305 `Seal` of the AEAD created from `key`: arguments are
  `key nonce plaintext additionalData`; the result is ciphertext followed by tag. -/
  aeadSeal : Bytes → Bytes → Bytes → Bytes → Bytes
  /-- ChaCha20-Poly1305 `Open` of the AEAD created from `key`: arguments are
  `key nonce ciphertext additionalData`. -/
  aeadOpen : Bytes → Bytes → Bytes → Bytes → Except Error Bytes
  /-- Public key of a private key (`PrivateKey.PubKey`). -/
  pubKey : Priv → Pub
  /-- The 33-byte compressed serialization (`PublicKey.SerializeCompressed`). -/
  serializeCompressed : Pub → Bytes
  /-- Parsing of a serialized public key (`btcec.ParsePubKey`). -/
  parsePubKey : Bytes → Except Error Pub
  /-- Scalar multiplication of a point by the scalar of a private key
  (`btcec.S256().ScalarMult(pub.X, pub.Y, priv.D.Bytes())`). -/
  scalarMult : Pub → Priv → Pub

section Model

variable {Priv Pub : Type}

/-- The digest has 32 bytes. -/
def Primitives.DigestSize (P : Primitives Priv Pub) : Prop :=
  ∀ x, (P.sha256 x).length = 32

/-- A sealed message is the plaintext length plus the 16-byte tag. -/
def Primitives.SealOverhead (P : Primitives Priv Pub) : Prop :=
  ∀ k n p ad, (P.aeadSeal k n p ad).length = p.length + macSize

/-- An opened message is 16 bytes shorter than the ciphertext. -/
def Primitives.OpenOverhead (P : Primitives Priv Pub) : Prop :=
  ∀ k n c ad p, P.aeadOpen k n c ad = .ok p → p.length + macSize = c.length

/-- AEAD open inverts seal under the same key, nonce and associated data. -/
def Primitives.OpenInvertsSeal (P : Primitives Priv Pub) : Prop :=
  ∀ k n p ad, P.aeadOpen k n (P.aeadSeal k n p ad) ad = .ok p

/-- A compressed public key has 33 bytes. -/
def Primitives.SerializeSize (P : Primitives Priv Pub) : Prop :=
  ∀ p, (P.serializeCompressed p).length = 33

/-- Parsing the serialization of a valid public key returns that key. -/
def Primitives.ParseSerialize (P : Primitives Priv Pub) : Prop :=
  ∀ p, P.parsePubKey (P.serializeCompressed p) = .ok p

/-- ECDH is symmetric: `a * (b * G) = b * (a * G)`. -/
def Primitives.EcdhSymmetric (P : Primitives Priv Pub) : Prop :=
  ∀ a b, P.scalarMult (P.pubKey a) b = P.scalarMult (P.pubKey b) a

/-! ## Slices and integer encodings -/

/-- Go builtin `copy(dst, src)`: the first `min (len dst) (len src)` bytes of `dst`
are overwritten; the value is the new content of `dst`. -/
def copy (dst src : Bytes) : Bytes :=
  src.take dst.length ++ dst.drop src.length

/-- The statement `copy(a[lo:hi], src)` on an array `a`: the new content of `a`. -/
def copyAt (a : Bytes) (lo hi : Nat) (src : Bytes) : Bytes :=
  a.take lo ++ copy ((a.take hi).drop lo) src ++ a.drop hi

/-- Indexing `a[i]` of a fixed-size array (in bounds by the array type). -/
def byteAt (a : Bytes) (i : Nat) : Nat := a.getD i 0

/-- Go `binary.LittleEndian.PutUint64(b, v)`: `b[i] = byte(v >> (8*i))` for `i < 8`;
the value is the new content of `b`. -/
def PutUint64LE (b : Bytes) (v : Nat) : Bytes :=
  copy b ((List.range 8).map fun i => (v >>> (8 * i)) % 256)

/-- Go `binary.BigEndian.PutUint16(b, v)`: `b[0] = byte(v >> 8)`, `b[1] = byte(v)`. -/
def PutUint16BE (b : Bytes) (v : Nat) : Bytes :=
  copy b [(v >>> 8) % 256, v % 256]

/-- Go `binary.BigEndian.Uint16(b)`: `uint16(b[1]) | uint16(b[0])<<8`; indexing `b[1]`
panics on a slice shorter than two bytes. -/
def Uint16BE (b : Bytes) : Option Nat :=
  match b with
  | b0 :: b1 :: _ => some (b1 % 256 + (b0 % 256) * 256)
  | _ => none

/-- The 12-byte AEAD nonce built by `Encrypt` and `Decrypt`:
`var nonce [12]byte; binary.LittleEndian.PutUint64(nonce[4:], c.nonce)`. -/
def aeadNonce (counter : Nat) : Bytes :=
  let nonce := List.replicate 12 0
  nonce.take 4 ++ PutUint64LE (nonce.drop 4) counter

/-- The little-endian encoding of `n` on `len` bytes, least significant byte first
(the encoding the specification names). -/
def littleEndian : Nat → Nat → Bytes
  | 0, _ => []
  | len + 1, n => n % 256 :: littleEndian len (n / 256)

/-- The value of a little-endian byte string. -/
def littleEndianValue : Bytes → Nat
  | [] => 0
  | b :: bs => b + 256 * littleEndianValue bs

/-! ## HKDF reader -/

/-- The `io.Reader` returned by `hkdf.New`: the output stream and the read position.
`hkdf.New` runs the extract step at once, so later writes to the slices that were
passed as secret or salt do not change the stream. -/
structure hkdfReader where
  stream : Nat → Nat
  pos : Nat

/-- Go `hkdf.New(sha256.New, secret, salt, info)`. -/
def hkdfNew (P : Primitives Priv Pub) (secret salt info : Bytes) : hkdfReader :=
  { stream := P.hkdf secret salt info, pos := 0 }

/-- Reading `n` bytes: `h.Read(buf)` with `len(buf) = n`.  (HKDF-SHA256 yields up to
`255 * 32` bytes; the file never reads more than 64 from one reader.) -/
def hkdfReader.Read (h : hkdfReader) (n : Nat) : hkdfReader × Bytes :=
  ({ h with pos := h.pos + n }, (List.range' h.pos n).map h.stream)

/-! ## cipherState -/

/-- The Go struct `cipherState`.  The field `cipher` is not stored: `InitializeKey` is
the only writer of `secretKey` and of `cipher` and sets `cipher` to the AEAD created
from `secretKey`, so a value of this type is an initialised cipher state and its AEAD
is `P.aeadSeal secretKey` / `P.aeadOpen secretKey`.  The zero value `cipherState{}`
with a nil `cipher` is `none` in `Machine.sendCipher` and `Machine.recvCipher`. -/
structure cipherState where
  nonce : Nat
  secretKey : Bytes
  salt : Bytes
  deriving DecidableEq, Repr

/-- The zero value of the three stored fields. -/
def cipherState.zero : cipherState :=
  { nonce := 0, secretKey := List.replicate 32 0, salt := List.replicate 32 0 }

def cipherState.InitializeKey (c : cipherState) (key : Bytes) : cipherState :=
  { c with secretKey := key, nonce := 0 }

def cipherState.InitializeKeyWithSalt (c : cipherState) (salt key : Bytes) : cipherState :=
  ({ c with salt := salt }).InitializeKey key

def cipherState.rotateKey (P : Primitives Priv Pub) (c : cipherState) : cipherState :=
  let info : Bytes := []
  let oldKey := c.secretKey
  let h := hkdfNew P oldKey c.salt info
  let r1 := h.Read 32
  let c := { c with salt := r1.2 }
  let r2 := r1.1.Read 32
  let nextKey := r2.2
  c.InitializeKey nextKey

/-- The deferred closure of `Encrypt` and `Decrypt`:
`c.nonce++; if c.nonce == keyRotationInterval { c.rotateKey() }`. -/
def cipherState.deferred (P : Primitives Priv Pub) (c : cipherState) : cipherState :=
  let c := { c with nonce := (c.nonce + 1) % 2 ^ 64 }
  if c.nonce = keyRotationInterval then c.rotateKey P else c

/-- Go `Encrypt(associatedData, cipherText, plainText)`: the sealed message is appended
to `cipherText`; the deferred closure runs after the result is computed. -/
def cipherState.Encrypt (P : Primitives Priv Pub) (c : cipherState)
    (associatedData cipherText plainText : Bytes) : cipherState × Bytes :=
  let nonce := aeadNonce c.nonce
  let out := cipherText ++ P.aeadSeal c.secretKey nonce plainText associatedData
  (c.deferred P, out)

/-- Go `Decrypt(associatedData, plainText, cipherText)`: on success the opened message
is appended to `plainText`; the deferred closure runs on every return. -/
def cipherState.Decrypt (P : Primitives Priv Pub) (c : cipherState)
    (associatedData plainText cipherText : Bytes) : cipherState × Except Error Bytes :=
  let nonce := aeadNonce c.nonce
  let out :=
    match P.aeadOpen c.secretKey nonce cipherText associatedData with
    | .ok opened => .ok (plainText ++ opened)
    | .error err => .error err
  (c.deferred P, out)

/-! ## symmetricState -/

/-- The Go struct `symmetricState` (it embeds `cipherState`). -/
structure symmetricState extends cipherState where
  chainingKey : Bytes
  tempKey : Bytes
  handshakeDigest : Bytes
  deriving DecidableEq, Repr

def symmetricState.mixKey (P : Primitives Priv Pub) (s : symmetricState)
    (input : Bytes) : symmetricState :=
  let info : Bytes := []
  let secret := input
  let salt := s.chainingKey
  let h := hkdfNew P secret salt info
  let r1 := h.Read 32
  let s := { s with chainingKey := r1.2 }
  let r2 := r1.1.Read 32
  let s := { s with tempKey := r2.2 }
  { s with tocipherState := s.tocipherState.InitializeKey s.tempKey }

/-- Go `mixHash`: `h.Write(digest); h.Write(data); copy(digest[:], h.Sum(nil))`. -/
def symmetricState.mixHash (P : Primitives Priv Pub) (s : symmetricState)
    (data : Bytes) : symmetricState :=
  { s with handshakeDigest := copy s.handshakeDigest (P.sha256 (s.handshakeDigest ++ data)) }

def symmetricState.EncryptAndHash (P : Primitives Priv Pub) (s : symmetricState)
    (plaintext : Bytes) : symmetricState × Bytes :=
  let r := s.tocipherState.Encrypt P s.handshakeDigest [] plaintext
  let s := { s with tocipherState := r.1 }
  let ciphertext := r.2
  (s.mixHash P ciphertext, ciphertext)

def symmetricState.DecryptAndHash (P : Primitives Priv Pub) (s : symmetricState)
    (ciphertext : Bytes) : symmetricState × Except Error Bytes :=
  let r := s.tocipherState.Decrypt P s.handshakeDigest [] ciphertext
  let s := { s with tocipherState := r.1 }
  match r.2 with
  | .error err => (s, .error err)
  | .ok plaintext => (s.mixHash P ciphertext, .ok plaintext)

def symmetricState.InitializeSymmetric (P : Primitives Priv Pub) (s : symmetricState)
    (protocolName : Bytes) : symmetricState :=
  let empty := List.replicate 32 0
  let s := { s with handshakeDigest := P.sha256 protocolName }
  let s := { s with chainingKey := s.handshakeDigest }
  { s with tocipherState := s.tocipherState.InitializeKey empty }

/-- The zero value of `symmetricState`. -/
def symmetricState.zero : symmetricState :=
  { cipherState.zero with
    chainingKey := List.replicate 32 0
    tempKey := List.replicate 32 0
    handshakeDigest := List.replicate 32 0 }

/-! ## handshakeState -/

/-- Go `ecdh(pub, priv)`: SHA-256 of the compressed shared point. -/
def ecdh (P : Primitives Priv Pub) (pub : Pub) (priv : Priv) : Bytes :=
  let s := P.scalarMult pub priv
  P.sha256 (P.serializeCompressed s)

/-- The Go struct `handshakeState`.  The key pointers that may be nil are options;
`localStatic` is the key the constructor requires. -/
structure handshakeState (Priv Pub : Type) extends symmetricState where
  initiator : Bool
  localStatic : Priv
  localEphemeral : Option Priv
  remoteStatic : Option Pub
  remoteEphemeral : Option Pub
  deriving DecidableEq, Repr

/-- Go `newHandshakeState`.  An initiator created with a nil `remotePub` dereferences
it (`none`). -/
def newHandshakeState (P : Primitives Priv Pub) (initiator : Bool) (prologue : Bytes)
    (localPub : Priv) (remotePub : Option Pub) : Option (handshakeState Priv Pub) :=
  let h : handshakeState Priv Pub :=
    { symmetricState.zero with
      initiator := initiator
      localStatic := localPub
      localEphemeral := none
      remoteStatic := remotePub
      remoteEphemeral := none }
  let h := { h with tosymmetricState := h.tosymmetricState.InitializeSymmetric P protocolName }
  let h := { h with tosymmetricState := h.tosymmetricState.mixHash P prologue }
  if initiator then
    match remotePub with
    | none => none
    | some rp =>
      some { h with tosymmetricState :=
        h.tosymmetricState.mixHash P (P.serializeCompressed rp) }
  else
    some { h with tosymmetricState :=
      h.tosymmetricState.mixHash P (P.serializeCompressed (P.pubKey localPub)) }

/-! ## Machine -/

/-- The Go struct `Machine`.  `sendCipher` and `recvCipher` are `none` until `split`
installs them.  `ephemeralGen` is the outcome of the call `b.ephemeralGen()`; every act
calls it at most once and no machine of a handshake calls it twice.  The two read
buffers are scratch space (each read overwrites the prefix that is then decrypted, and
nothing else reads them); they are not part of the state. -/
structure Machine (Priv Pub : Type) extends handshakeState Priv Pub where
  sendCipher : Option cipherState
  recvCipher : Option cipherState
  ephemeralGen : Except Error Priv
  deriving DecidableEq

/-- Go `EphemeralGenerator(gen)`: the option that replaces the generator. -/
def EphemeralGenerator (gen : Except Error Priv) : Machine Priv Pub → Machine Priv Pub :=
  fun m => { m with ephemeralGen := gen }

/-- Go `NewBrontideMachine`.  The package default `ephemeralGen` draws a random key;
`defaultGen` is the outcome of that draw. -/
def NewBrontideMachine (P : Primitives Priv Pub) (defaultGen : Except Error Priv)
    (initiator : Bool) (localPub : Priv) (remotePub : Option Pub)
    (options : List (Machine Priv Pub → Machine Priv Pub)) : Option (Machine Priv Pub) :=
  match newHandshakeState P initiator lightningPrologue localPub remotePub with
  | none => none
  | some handshake =>
    let m : Machine Priv Pub :=
      { handshake with sendCipher := none, recvCipher := none, ephemeralGen := defaultGen }
    some (options.foldl (fun m option => option m) m)

/-- Assignment to the embedded `symmetricState` of a machine. -/
def Machine.withSymmetric (b : Machine Priv Pub) (s : symmetricState) : Machine Priv Pub :=
  { b with tosymmetricState := s }

def Machine.split (P : Primitives Priv Pub) (b : Machine Priv Pub) : Machine Priv Pub :=
  let empty : Bytes := []
  let h := hkdfNew P empty b.chainingKey empty
  if b.initiator then
    let r1 := h.Read 32
    let sendKey := r1.2
    let b := { b with sendCipher := some (cipherState.zero.InitializeKeyWithSalt b.chainingKey sendKey) }
    let r2 := r1.1.Read 32
    let recvKey := r2.2
    { b with recvCipher := some (cipherState.zero.InitializeKeyWithSalt b.chainingKey recvKey) }
  else
    let r1 := h.Read 32
    let recvKey := r1.2
    let b := { b with recvCipher := some (cipherState.zero.InitializeKeyWithSalt b.chainingKey recvKey) }
    let r2 := r1.1.Read 32
    let sendKey := r2.2
    { b with sendCipher := some (cipherState.zero.InitializeKeyWithSalt b.chainingKey sendKey) }

/-- Go `GenActOne`: the new machine, the array `actOne` and the error, or `none` when
`b.remoteStatic` is nil (`ecdh` dereferences it). -/
def Machine.GenActOne (P : Primitives Priv Pub) (b : Machine Priv Pub) :
    Option (Machine Priv Pub × Bytes × Option Error) :=
  let actOne := List.replicate ActOneSize 0
  match b.ephemeralGen with
  | .error err => some ({ b with localEphemeral := none }, actOne, some err)
  | .ok e =>
    let b := { b with localEphemeral := some e }
    let ephemeral := P.serializeCompressed (P.pubKey e)
    let b := b.withSymmetric (b.tosymmetricState.mixHash P ephemeral)
    match b.remoteStatic with
    | none => none
    | some remoteStatic =>
      let s := ecdh P remoteStatic e
      let b := b.withSymmetric (b.tosymmetricState.mixKey P s)
      let r := b.tosymmetricState.EncryptAndHash P []
      let b := b.withSymmetric r.1
      let authPayload := r.2
      let actOne := actOne.set 0 HandshakeVersion
      let actOne := copyAt actOne 1 34 ephemeral
      let actOne := copyAt actOne 34 ActOneSize authPayload
      some (b, actOne, none)

/-- Go `RecvActOne`: the new machine and the error. -/
def Machine.RecvActOne (P : Primitives Priv Pub) (b : Machine Priv Pub) (actOne : Bytes) :
    Machine Priv Pub × Option Error :=
  if byteAt actOne 0 ≠ HandshakeVersion then
    (b, some (Error.invalidVersion "Act One" (byteAt actOne 0) actOne))
  else
    let e := copy (List.replicate 33 0) ((actOne.take 34).drop 1)
    let p := copy (List.replicate 16 0) (actOne.drop 34)
    match P.parsePubKey e with
    | .error err => ({ b with remoteEphemeral := none }, some err)
    | .ok remoteEphemeral =>
      let b := { b with remoteEphemeral := some remoteEphemeral }
      let b := b.withSymmetric
        (b.tosymmetricState.mixHash P (P.serializeCompressed remoteEphemeral))
      let s := ecdh P remoteEphemeral b.localStatic
      let b := b.withSymmetric (b.tosymmetricState.mixKey P s)
      let r := b.tosymmetricState.DecryptAndHash P p
      let b := b.withSymmetric r.1
      match r.2 with
      | .error err => (b, some err)
      | .ok _ => (b, none)

/-- Go `GenActTwo`; `none` when `b.remoteEphemeral` is nil. -/
def Machine.GenActTwo (P : Primitives Priv Pub) (b : Machine Priv Pub) :
    Option (Machine Priv Pub × Bytes × Option Error) :=
  let actTwo := List.replicate ActTwoSize 0
  match b.ephemeralGen with
  | .error err => some ({ b with localEphemeral := none }, actTwo, some err)
  | .ok e =>
    let b := { b with localEphemeral := some e }
    let ephemeral := P.serializeCompressed (P.pubKey e)
    let b := b.withSymmetric
      (b.tosymmetricState.mixHash P (P.serializeCompressed (P.pubKey e)))
    match b.remoteEphemeral with
    | none => none
    | some remoteEphemeral =>
      let s := ecdh P remoteEphemeral e
      let b := b.withSymmetric (b.tosymmetricState.mixKey P s)
      let r := b.tosymmetricState.EncryptAndHash P []
      let b := b.withSymmetric r.1
      let authPayload := r.2
      let actTwo := actTwo.set 0 HandshakeVersion
      let actTwo := copyAt actTwo 1 34 ephemeral
      let actTwo := copyAt actTwo 34 ActTwoSize authPayload
      some (b, actTwo, none)

/-- Go `RecvActTwo`; `none` when `b.localEphemeral` is nil. -/
def Machine.RecvActTwo (P : Primitives Priv Pub) (b : Machine Priv Pub) (actTwo : Bytes) :
    Option (Machine Priv Pub × Option Error) :=
  if byteAt actTwo 0 ≠ HandshakeVersion then
    some (b, some (Error.invalidVersion "Act Two" (byteAt actTwo 0) actTwo))
  else
    let e := copy (List.replicate 33 0) ((actTwo.take 34).drop 1)
    let p := copy (List.replicate 16 0) (actTwo.drop 34)
    match P.parsePubKey e with
    | .error err => some ({ b with remoteEphemeral := none }, some err)
    | .ok remoteEphemeral =>
      let b := { b with remoteEphemeral := some remoteEphemeral }
      let b := b.withSymmetric
        (b.tosymmetricState.mixHash P (P.serializeCompressed remoteEphemeral))
      match b.localEphemeral with
      | none => none
      | some localEphemeral =>
        let s := ecdh P remoteEphemeral localEphemeral
        let b := b.withSymmetric (b.tosymmetricState.mixKey P s)
        let r := b.tosymmetricState.DecryptAndHash P p
        let b := b.withSymmetric r.1
        match r.2 with
        | .error err => some (b, some err)
        | .ok _ => some (b, none)

/-- Go `GenActThree`; `none` when `b.remoteEphemeral` is nil. -/
def Machine.GenActThree (P : Primitives Priv Pub) (b : Machine Priv Pub) :
    Option (Machine Priv Pub × Bytes × Option Error) :=
  let actThree := List.replicate ActThreeSize 0
  let ourPubkey := P.serializeCompressed (P.pubKey b.localStatic)
  let r := b.tosymmetricState.EncryptAndHash P ourPubkey
  let b := b.withSymmetric r.1
  let ciphertext := r.2
  match b.remoteEphemeral with
  | none => none
  | some remoteEphemeral =>
    let s := ecdh P remoteEphemeral b.localStatic
    let b := b.withSymmetric (b.tosymmetricState.mixKey P s)
    let r := b.tosymmetricState.EncryptAndHash P []
    let b := b.withSymmetric r.1
    let authPayload := r.2
    let actThree := actThree.set 0 HandshakeVersion
    let actThree := copyAt actThree 1 50 ciphertext
    let actThree := copyAt actThree 50 ActThreeSize authPayload
    let b := b.split P
    some (b, actThree, none)

/-- Go `RecvActThree`; `none` when `b.localEphemeral` is nil. -/
def Machine.RecvActThree (P : Primitives Priv Pub) (b : Machine Priv Pub)
    (actThree : Bytes) : Option (Machine Priv Pub × Option Error) :=
  if byteAt actThree 0 ≠ HandshakeVersion then
    some (b, some (Error.invalidVersion "Act Three" (byteAt actThree 0) actThree))
  else
    let s := copy (List.replicate (33 + 16) 0) ((actThree.take (33 + 16 + 1)).drop 1)
    let p := copy (List.replicate 16 0) (actThree.drop (33 + 16 + 1))
    let r := b.tosymmetricState.DecryptAndHash P s
    let b := b.withSymmetric r.1
    match r.2 with
    | .error err => some (b, some err)
    | .ok remotePub =>
      match P.parsePubKey remotePub with
      | .error err => some ({ b with remoteStatic := none }, some err)
      | .ok remoteStatic =>
        let b := { b with remoteStatic := some remoteStatic }
        match b.localEphemeral with
        | none => none
        | some localEphemeral =>
          let se := ecdh P remoteStatic localEphemeral
          let b := b.withSymmetric (b.tosymmetricState.mixKey P se)
          let r := b.tosymmetricState.DecryptAndHash P p
          let b := b.withSymmetric r.1
          match r.2 with
          | .error err => some (b, some err)
          | .ok _ => some (b.split P, none)

/-! ## Record layer -/

/-- Modelled from the spec: `buffer.ReadSize`, the size of the read buffer
`nextCipherText` (package `buffer` is not among the sources): a buffer "sized for the
maximum possible message", i.e. the largest payload plus the MAC. -/
def ReadSize : Nat := MaxUint16 + macSize

/-- Go `WriteMessage(w, p)`.  `write s p` is `w.Write(p)` on a writer in state `s`: the
next state and the error.  The result is the new machine, the writer state and the
error; `none` when `sendCipher` has no AEAD yet. -/
def Machine.WriteMessage {σ : Type} (P : Primitives Priv Pub) (b : Machine Priv Pub)
    (write : σ → Bytes → σ × Option Error) (w : σ) (p : Bytes) :
    Option (Machine Priv Pub × σ × Option Error) :=
  if p.length > MaxUint16 then
    some (b, w, some Error.ErrMaxMessageLengthExceeded)
  else
    let fullLength := p.length % 2 ^ 16
    let pktLen := PutUint16BE (List.replicate 2 0) fullLength
    match b.sendCipher with
    | none => none
    | some c =>
      let r := c.Encrypt P [] [] pktLen
      let b := { b with sendCipher := some r.1 }
      let cipherLen := r.2
      let wr := write w cipherLen
      match wr.2 with
      | some err => some (b, wr.1, some err)
      | none =>
        let r := r.1.Encrypt P [] [] p
        let b := { b with sendCipher := some r.1 }
        let cipherText := r.2
        let wr := write wr.1 cipherText
        some (b, wr.1, wr.2)

/-- Go `ReadMessage(r)`.  `readFull s n` is `io.ReadFull(r, buf)` with `len(buf) = n` on
a reader in state `s`: the next state, the bytes stored in `buf` and the error.  The
result is the new machine, the reader state and the payload or the error; `none` when
`recvCipher` has no AEAD yet, when the decrypted header is shorter than two bytes or
when the body length exceeds the read buffer. -/
def Machine.ReadMessage {ρ : Type} (P : Primitives Priv Pub) (b : Machine Priv Pub)
    (readFull : ρ → Nat → ρ × Bytes × Option Error) (r : ρ) :
    Option (Machine Priv Pub × ρ × Except Error Bytes) :=
  let rd := readFull r (lengthHeaderSize + macSize)
  let nextCipherHeader := copy (List.replicate (lengthHeaderSize + macSize) 0) rd.2.1
  match rd.2.2 with
  | some err => some (b, rd.1, .error err)
  | none =>
    match b.recvCipher with
    | none => none
    | some c =>
      let d := c.Decrypt P [] [] nextCipherHeader
      let b := { b with recvCipher := some d.1 }
      match d.2 with
      | .error err => some (b, rd.1, .error err)
      | .ok pktLenBytes =>
        match Uint16BE pktLenBytes with
        | none => none
        | some len =>
          let pktLen := (len + macSize) % 2 ^ 32
          if pktLen > ReadSize then none
          else
            let rd := readFull rd.1 pktLen
            let body := copy (List.replicate pktLen 0) rd.2.1
            match rd.2.2 with
            | some err => some (b, rd.1, .error err)
            | none =>
              let d := d.1.Decrypt P [] [] body
              some ({ b with recvCipher := some d.1 }, rd.1, d.2)

/-! ## Byte streams and drivers -/

/-- Go `io.EOF`. -/
def ErrEOF : Error := Error.collaborator 1

/-- Go `io.ErrUnexpectedEOF`. -/
def ErrUnexpectedEOF : Error := Error.collaborator 2

/-- An in-memory stream as `io.Writer` (`bytes.Buffer.Write`): appends, never fails. -/
def bufferWrite (w : Bytes) (p : Bytes) : Bytes × Option Error := (w ++ p, none)

/-- Go `io.ReadFull` on an in-memory stream: exactly `n` bytes, or what is left with
`io.EOF` (nothing read) or `io.ErrUnexpectedEOF`. -/
def bufferReadFull (r : Bytes) (n : Nat) : Bytes × Bytes × Option Error :=
  if n ≤ r.length then (r.drop n, r.take n, none)
  else ([], r, some (if r = [] then ErrEOF else ErrUnexpectedEOF))

/-- Writing the payloads in order with `WriteMessage` into an in-memory stream, stopping
at the first error. -/
def writeMessages (P : Primitives Priv Pub) (b : Machine Priv Pub) (w : Bytes) :
    List Bytes → Option (Machine Priv Pub × Bytes × Option Error)
  | [] => some (b, w, none)
  | p :: ps =>
    match b.WriteMessage P bufferWrite w p with
    | none => none
    | some (b, w, some err) => some (b, w, some err)
    | some (b, w, none) => writeMessages P b w ps

/-- Reading `n` messages with successive `ReadMessage` calls from an in-memory stream,
stopping at the first error. -/
def readMessages (P : Primitives Priv Pub) (b : Machine Priv Pub) (r : Bytes) :
    Nat → Option (Machine Priv Pub × Bytes × Except Error (List Bytes))
  | 0 => some (b, r, .ok [])
  | n + 1 =>
    match b.ReadMessage P bufferReadFull r with
    | none => none
    | some (b, r, .error err) => some (b, r, .error err)
    | some (b, r, .ok p) =>
      match readMessages P b r n with
      | none => none
      | some (b, r, .error err) => some (b, r, .error err)
      | some (b, r, .ok ps) => some (b, r, .ok (p :: ps))

/-! ## Handshake driver -/

/-- The record of a handshake run in lock-step. -/
structure LockStep (Priv Pub : Type) where
  actOne : Bytes
  actTwo : Bytes
  actThree : Bytes
  initiator1 : Machine Priv Pub
  responder1 : Machine Priv Pub
  responder2 : Machine Priv Pub
  initiator2 : Machine Priv Pub
  initiator3 : Machine Priv Pub
  responder3 : Machine Priv Pub
  errors : List (Option Error)

/-- The three acts run in lock-step, initiator against responder: `GenActOne`,
`RecvActOne`, `GenActTwo`, `RecvActTwo`, `GenActThree`, `RecvActThree`.  `errors` lists
the six returned errors in that order. -/
def lockStep (P : Primitives Priv Pub) (initiator responder : Machine Priv Pub) :
    Option (LockStep Priv Pub) :=
  match initiator.GenActOne P with
  | none => none
  | some (i1, actOne, e1) =>
    match responder.RecvActOne P actOne with
    | (r1, e2) =>
      match r1.GenActTwo P with
      | none => none
      | some (r2, actTwo, e3) =>
        match i1.RecvActTwo P actTwo with
        | none => none
        | some (i2, e4) =>
          match i2.GenActThree P with
          | none => none
          | some (i3, actThree, e5) =>
            match r2.RecvActThree P actThree with
            | none => none
            | some (r3, e6) =>
              some { actOne := actOne, actTwo := actTwo, actThree := actThree,
                     initiator1 := i1, responder1 := r1, responder2 := r2,
                     initiator2 := i2, initiator3 := i3, responder3 := r3,
                     errors := [e1, e2, e3, e4, e5, e6] }

/-- The symmetric state of both parties after Act One: the ephemeral key hashed, the
`es` output mixed, the empty payload sealed and hashed. -/
def symAfterActOne (P : Primitives Priv Pub) (s0 : symmetricState)
    (iEph rStatic : Priv) : symmetricState :=
  (((s0.mixHash P (P.serializeCompressed (P.pubKey iEph))).mixKey P
    (ecdh P (P.pubKey rStatic) iEph)).EncryptAndHash P []).1

/-- The symmetric state of both parties after Act Two (`ee`). -/
def symAfterActTwo (P : Primitives Priv Pub) (s0 : symmetricState)
    (iEph rStatic rEph : Priv) : symmetricState :=
  ((((symAfterActOne P s0 iEph rStatic).mixHash P
    (P.serializeCompressed (P.pubKey rEph))).mixKey P
    (ecdh P (P.pubKey iEph) rEph)).EncryptAndHash P []).1

/-- The symmetric state of both parties after Act Three (`s`, `se`). -/
def symAfterActThree (P : Primitives Priv Pub) (s0 : symmetricState)
    (iStatic iEph rStatic rEph : Priv) : symmetricState :=
  ((((symAfterActTwo P s0 iEph rStatic rEph).EncryptAndHash P
    (P.serializeCompressed (P.pubKey iStatic))).1.mixKey P
    (ecdh P (P.pubKey rEph) iStatic)).EncryptAndHash P []).1

/-- Bytes `lo .. lo + n - 1` of the output stream of HKDF-SHA256 with input keying
material `secret`, salt `salt` and info `info`. -/
def hkdfBytes (P : Primitives Priv Pub) (secret salt info : Bytes) (lo n : Nat) : Bytes :=
  (List.range' lo n).map (P.hkdf secret salt info)

/-- One operation on a cipher state: `Encrypt` or `Decrypt` with its three arguments. -/
inductive CipherOp where
  | encrypt (associatedData cipherText plainText : Bytes)
  | decrypt (associatedData plainText cipherText : Bytes)
  deriving DecidableEq, Repr

/-- The cipher state after one operation. -/
def CipherOp.apply (P : Primitives Priv Pub) (c : cipherState) : CipherOp → cipherState
  | .encrypt ad ct pt => (c.Encrypt P ad ct pt).1
  | .decrypt ad pt ct => (c.Decrypt P ad pt ct).1

/-- The cipher state after a sequence of operations. -/
def runOps (P : Primitives Priv Pub) (c : cipherState) (ops : List CipherOp) : cipherState :=
  ops.foldl (CipherOp.apply P) c

/-- The cipher state after `k` key rotations. -/
def rotations (P : Primitives Priv Pub) (c : cipherState) : Nat → cipherState
  | 0 => c
  | k + 1 => (rotations P c k).rotateKey P

/-- The record writer as the comments on `Machine` and `WriteMessage` describe it: the
encrypted and authenticated length prefix is the associated data of the AEAD operation
on the message body.  It differs from `Machine.WriteMessage` in that one argument. -/
def Machine.WriteMessageDocumented {σ : Type} (P : Primitives Priv Pub)
    (b : Machine Priv Pub) (write : σ → Bytes → σ × Option Error) (w : σ) (p : Bytes) :
    Option (Machine Priv Pub × σ × Option Error) :=
  if p.length > MaxUint16 then
    some (b, w, some Error.ErrMaxMessageLengthExceeded)
  else
    let fullLength := p.length % 2 ^ 16
    let pktLen := PutUint16BE (List.replicate 2 0) fullLength
    match b.sendCipher with
    | none => none
    | some c =>
      let r := c.Encrypt P [] [] pktLen
      let b := { b with sendCipher := some r.1 }
      let cipherLen := r.2
      let wr := write w cipherLen
      match wr.2 with
      | some err => some (b, wr.1, some err)
      | none =>
        let r := r.1.Encrypt P cipherLen [] p
        let b := { b with sendCipher := some r.1 }
        let cipherText := r.2
        let wr := write wr.1 cipherText
        some (b, wr.1, wr.2)

end Model

/-! ## A small executable instance of the collaborators -/

/-- Tag of the toy AEAD: 15 zero bytes and a checksum of key, nonce, text and data. -/
def toyTag (k n p ad : Bytes) : Bytes :=
  List.replicate 15 0 ++ [(k.sum + 3 * n.sum + 5 * p.sum + 7 * ad.sum + p.length + 1) % 256]

/-- A toy instance: keys are numbers modulo 251 under multiplication, the hash and the
KDF are checksums, the AEAD appends `toyTag` to the plaintext. -/
def toy : Primitives Nat (Fin 251) where
  sha256 x := List.replicate 31 0 ++ [(x.sum + x.length) % 256]
  hkdf secret salt info i := (secret.sum + 2 * salt.sum + 3 * info.sum + i) % 256
  aeadSeal k n p ad := p ++ toyTag k n p ad
  aeadOpen k n c ad :=
    if 16 ≤ c.length ∧ c.drop (c.length - 16) = toyTag k n (c.take (c.length - 16)) ad then
      .ok (c.take (c.length - 16))
    else .error (Error.collaborator 0)
  pubKey d := Fin.ofNat d
  serializeCompressed p := 2 :: (List.replicate 31 0 ++ [p.val])
  parsePubKey bs :=
    if h : bs.length = 33 ∧ bs.take 32 = 2 :: List.replicate 31 0 ∧ bs.getD 32 0 < 251 then
      .ok ⟨bs.getD 32 0, h.2.2⟩
    else .error (Error.collaborator 3)
  scalarMult p d := p * Fin.ofNat d

/-- A machine of the toy instance after `split`, for concrete evaluations. -/
def toyMachine : Machine Nat (Fin 251) :=
  Machine.split toy
    { symmetricState.zero with
      initiator := true
      localStatic := 3
      localEphemeral := none
      remoteStatic := none
      remoteEphemeral := none
      sendCipher := none
      recvCipher := none
      ephemeralGen := .ok 7 }

/-- The peer of `toyMachine`: the responder after `split` on the same chaining key. -/
def toyPeer : Machine Nat (Fin 251) :=
  Machine.split toy
    { symmetricState.zero with
      initiator := false
      localStatic := 5
      localEphemeral := none
      remoteStatic := none
      remoteEphemeral := none
      sendCipher := none
      recvCipher := none
      ephemeralGen := .ok 11 }

/-- An initiator of the toy instance that knows the responder's static key. -/
def toyInitiator : Machine Nat (Fin 251) :=
  { toyMachine with remoteStatic := some (toy.pubKey 5), sendCipher := none, recvCipher := none }

/-- A responder of the toy instance that has received the initiator's ephemeral key. -/
def toyResponder : Machine Nat (Fin 251) :=
  { toyPeer with remoteEphemeral := some (toy.pubKey 7), sendCipher := none,
                 recvCipher := none }

/-- An initiator of the toy instance before Act Three: both ephemeral keys are known. -/
def toyInitiatorTwo : Machine Nat (Fin 251) :=
  { toyInitiator with localEphemeral := some 7, remoteEphemeral := some (toy.pubKey 11) }

/-- The send cipher of `toyMachine`, which is the receive cipher of `toyPeer`. -/
def toyCipher : cipherState :=
  { nonce := 0, secretKey := hkdfBytes toy [] (List.replicate 32 0) [] 0 32,
    salt := List.replicate 32 0 }

/-- The length header `toyMachine` writes for a three-byte payload. -/
def toyHeader : Bytes := toy.aeadSeal toyCipher.secretKey (aeadNonce 0) [0, 3] []

/-- The body `toyMachine` writes for the payload `[1, 2, 3]`. -/
def toyBody : Bytes := toy.aeadSeal toyCipher.secretKey (aeadNonce 1) [1, 2, 3] []

/-- The Act One `toyInitiator` sends. -/
def toyActOne : Bytes := ((toyInitiator.GenActOne toy).map (fun x => x.2.1)).getD []

/-! ## Facts about the toy instance -/

theorem toyTag_length (k n p ad : Bytes) : (toyTag k n p ad).length = 16 := by
  simp [toyTag]

theorem toy_digestSize : toy.DigestSize := by
  intro x; simp [toy]

theorem toy_sealOverhead : toy.SealOverhead := by
  intro k n p ad; simp [toy, toyTag_length, macSize]

theorem toy_openInvertsSeal : toy.OpenInvertsSeal := by
  intro k n p ad
  simp [toy, toyTag_length]

theorem toy_openOverhead : toy.OpenOverhead := by
  intro k n c ad p h
  simp only [toy] at h
  split at h
  · rename_i hc
    injection h with h
    subst h
    simp [macSize]; omega
  · cases h

theorem toy_serializeSize : toy.SerializeSize := by
  intro p; simp [toy]

theorem toy_parseSerialize : toy.ParseSerialize := by
  intro p
  simp [toy, List.getD]

theorem toy_ecdhSymmetric : toy.EcdhSymmetric := by
  intro a b
  simp [toy, mul_comm]

/-! ## Lemmas -/

section Lemmas

variable {Priv Pub : Type}

theorem copy_eq_of_length_eq (dst src : Bytes) (h : src.length = dst.length) :
    copy dst src = src := by
  simp [copy, ← h]

theorem copyAt_eq (a : Bytes) (lo hi : Nat) (src : Bytes) (h1 : lo + src.length = hi)
    (h2 : hi ≤ a.length) : copyAt a lo hi src = a.take lo ++ src ++ a.drop hi := by
  unfold copyAt
  rw [copy_eq_of_length_eq]
  simp only [List.length_drop, List.length_take]
  omega

theorem act_build (N k : Nat) (x a : Bytes) (hx : x.length = k) (ha : k + 1 + a.length = N) :
    copyAt (copyAt ((List.replicate N 0).set 0 HandshakeVersion) 1 (k + 1) x) (k + 1) N a
      = 0 :: (x ++ a) := by
  have hz : (List.replicate N 0).set 0 HandshakeVersion = List.replicate N 0 := by
    apply List.ext_getElem
    · simp
    · intro i h1 h2
      simp [List.getElem_set, HandshakeVersion]
  rw [hz, copyAt_eq _ 1 (k + 1) x (by omega) (by simp; omega)]
  rw [copyAt_eq _ (k + 1) N a (by omega) (by simp; omega)]
  have h1 : List.take 1 (List.replicate N 0) = [0] := by
    have : N = 1 + (N - 1) := by omega
    rw [this, Nat.add_comm, List.replicate_succ]; rfl
  rw [h1]
  have h2 : List.drop N (0 :: (x ++ List.replicate (N - (k + 1)) 0)) = [] := by
    apply List.drop_eq_nil_of_le
    simp only [List.length_cons, List.length_append, List.length_replicate]
    omega
  have h3 : List.take k (x ++ List.replicate (N - (k + 1)) 0) = x := by
    rw [List.take_append_of_le_length (by omega), List.take_of_length_le (by omega)]
  simp [h2, h3]

theorem act_fields (k : Nat) (x a : Bytes) (hx : x.length = k) :
    (((0 :: (x ++ a)).take (k + 1)).drop 1 = x) ∧ (0 :: (x ++ a)).drop (k + 1) = a := by
  subst hx
  simp


@[simp] theorem withSymmetric_sym (b : Machine Priv Pub) (s : symmetricState) :
    (b.withSymmetric s).tosymmetricState = s := rfl

@[simp] theorem withSymmetric_withSymmetric (b : Machine Priv Pub) (s t : symmetricState) :
    (b.withSymmetric s).withSymmetric t = b.withSymmetric t := rfl

@[simp] theorem withSymmetric_localStatic (b : Machine Priv Pub) (s : symmetricState) :
    (b.withSymmetric s).localStatic = b.localStatic := rfl

@[simp] theorem withSymmetric_localEphemeral (b : Machine Priv Pub) (s : symmetricState) :
    (b.withSymmetric s).localEphemeral = b.localEphemeral := rfl

@[simp] theorem withSymmetric_remoteStatic (b : Machine Priv Pub) (s : symmetricState) :
    (b.withSymmetric s).remoteStatic = b.remoteStatic := rfl

@[simp] theorem withSymmetric_remoteEphemeral (b : Machine Priv Pub) (s : symmetricState) :
    (b.withSymmetric s).remoteEphemeral = b.remoteEphemeral := rfl

@[simp] theorem withSymmetric_initiator (b : Machine Priv Pub) (s : symmetricState) :
    (b.withSymmetric s).initiator = b.initiator := rfl

@[simp] theorem withSymmetric_sendCipher (b : Machine Priv Pub) (s : symmetricState) :
    (b.withSymmetric s).sendCipher = b.sendCipher := rfl

@[simp] theorem withSymmetric_recvCipher (b : Machine Priv Pub) (s : symmetricState) :
    (b.withSymmetric s).recvCipher = b.recvCipher := rfl

@[simp] theorem withSymmetric_ephemeralGen (b : Machine Priv Pub) (s : symmetricState) :
    (b.withSymmetric s).ephemeralGen = b.ephemeralGen := rfl

theorem encryptAndHash_length (P : Primitives Priv Pub) (hseal : P.SealOverhead)
    (s : symmetricState) (pt : Bytes) :
    (s.EncryptAndHash P pt).2.length = pt.length + 16 := by
  simp [symmetricState.EncryptAndHash, cipherState.Encrypt, hseal _ _ _ _, macSize]

theorem decryptAndHash_encryptAndHash (P : Primitives Priv Pub) (hopen : P.OpenInvertsSeal)
    (s : symmetricState) (pt : Bytes) :
    s.DecryptAndHash P (s.EncryptAndHash P pt).2 = ((s.EncryptAndHash P pt).1, .ok pt) := by
  simp [symmetricState.DecryptAndHash, symmetricState.EncryptAndHash, cipherState.Encrypt,
    cipherState.Decrypt, hopen _ _ _ _]

/-- The symmetric state and the tag after the steps shared by Act One and Act Two:
hash the ephemeral key, mix the DH output, seal the empty payload. -/
theorem genActOne_eq (P : Primitives Priv Pub) (hser : P.SerializeSize) (hseal : P.SealOverhead)
    (b : Machine Priv Pub) (e : Priv) (rs : Pub)
    (hgen : b.ephemeralGen = .ok e) (hrs : b.remoteStatic = some rs) :
    b.GenActOne P =
      some (({ b with localEphemeral := some e }).withSymmetric
          (((b.tosymmetricState.mixHash P (P.serializeCompressed (P.pubKey e))).mixKey P
            (ecdh P rs e)).EncryptAndHash P []).1,
        0 :: (P.serializeCompressed (P.pubKey e) ++
          (((b.tosymmetricState.mixHash P (P.serializeCompressed (P.pubKey e))).mixKey P
            (ecdh P rs e)).EncryptAndHash P []).2),
        none) := by
  simp only [Machine.GenActOne, hgen, withSymmetric_remoteStatic, hrs, withSymmetric_sym,
    withSymmetric_withSymmetric, ActOneSize]
  rw [act_build 50 33 _ _ (hser _) (by rw [encryptAndHash_length P hseal]; rfl)]


theorem genActTwo_eq (P : Primitives Priv Pub) (hser : P.SerializeSize) (hseal : P.SealOverhead)
    (b : Machine Priv Pub) (e : Priv) (re : Pub)
    (hgen : b.ephemeralGen = .ok e) (hre : b.remoteEphemeral = some re) :
    b.GenActTwo P =
      some (({ b with localEphemeral := some e }).withSymmetric
          (((b.tosymmetricState.mixHash P (P.serializeCompressed (P.pubKey e))).mixKey P
            (ecdh P re e)).EncryptAndHash P []).1,
        0 :: (P.serializeCompressed (P.pubKey e) ++
          (((b.tosymmetricState.mixHash P (P.serializeCompressed (P.pubKey e))).mixKey P
            (ecdh P re e)).EncryptAndHash P []).2),
        none) := by
  simp only [Machine.GenActTwo, hgen, withSymmetric_remoteEphemeral, hre, withSymmetric_sym,
    withSymmetric_withSymmetric, ActTwoSize]
  rw [act_build 50 33 _ _ (hser _) (by rw [encryptAndHash_length P hseal]; rfl)]

theorem recvActOne_eq (P : Primitives Priv Pub) (hser : P.SerializeSize)
    (hseal : P.SealOverhead) (hopen : P.OpenInvertsSeal) (hparse : P.ParseSerialize)
    (b : Machine Priv Pub) (act : Bytes) (pk : Pub) (s : symmetricState)
    (hact : act = 0 :: (P.serializeCompressed pk ++ (s.EncryptAndHash P []).2))
    (hs : s = (b.tosymmetricState.mixHash P (P.serializeCompressed pk)).mixKey P
      (ecdh P pk b.localStatic)) :
    b.RecvActOne P act =
      (({ b with remoteEphemeral := some pk }).withSymmetric (s.EncryptAndHash P []).1,
        none) := by
  subst hact
  have hf := act_fields 33 (P.serializeCompressed pk) (s.EncryptAndHash P []).2 (hser pk)
  have hl : (s.EncryptAndHash P []).2.length = 16 := by
    rw [encryptAndHash_length P hseal]; rfl
  simp only [Machine.RecvActOne, byteAt, HandshakeVersion, List.getD_cons_zero, ne_eq,
    not_true_eq_false, ↓reduceIte, hf.1, hf.2]
  rw [copy_eq_of_length_eq _ _ (by rw [hser]; simp), copy_eq_of_length_eq _ _ (by rw [hl]; simp)]
  simp only [hparse pk, withSymmetric_sym, withSymmetric_withSymmetric, withSymmetric_localStatic,
    ← hs, decryptAndHash_encryptAndHash P hopen]

theorem recvActTwo_eq (P : Primitives Priv Pub) (hser : P.SerializeSize)
    (hseal : P.SealOverhead) (hopen : P.OpenInvertsSeal) (hparse : P.ParseSerialize)
    (b : Machine Priv Pub) (act : Bytes) (pk : Pub) (le : Priv) (s : symmetricState)
    (hact : act = 0 :: (P.serializeCompressed pk ++ (s.EncryptAndHash P []).2))
    (hle : b.localEphemeral = some le)
    (hs : s = (b.tosymmetricState.mixHash P (P.serializeCompressed pk)).mixKey P
      (ecdh P pk le)) :
    b.RecvActTwo P act =
      some (({ b with remoteEphemeral := some pk }).withSymmetric (s.EncryptAndHash P []).1,
        none) := by
  subst hact
  have hf := act_fields 33 (P.serializeCompressed pk) (s.EncryptAndHash P []).2 (hser pk)
  have hl : (s.EncryptAndHash P []).2.length = 16 := by
    rw [encryptAndHash_length P hseal]; rfl
  simp only [Machine.RecvActTwo, byteAt, HandshakeVersion, List.getD_cons_zero, ne_eq,
    not_true_eq_false, ↓reduceIte, hf.1, hf.2]
  rw [copy_eq_of_length_eq _ _ (by rw [hser]; simp), copy_eq_of_length_eq _ _ (by rw [hl]; simp)]
  simp only [hparse pk, withSymmetric_sym, withSymmetric_withSymmetric,
    withSymmetric_localEphemeral, hle, ← hs, decryptAndHash_encryptAndHash P hopen]

theorem genActThree_eq (P : Primitives Priv Pub) (hser : P.SerializeSize)
    (hseal : P.SealOverhead) (b : Machine Priv Pub) (re : Pub)
    (hre : b.remoteEphemeral = some re) :
    b.GenActThree P =
      some ((b.withSymmetric
          (((b.tosymmetricState.EncryptAndHash P
              (P.serializeCompressed (P.pubKey b.localStatic))).1.mixKey P
            (ecdh P re b.localStatic)).EncryptAndHash P []).1).split P,
        0 :: ((b.tosymmetricState.EncryptAndHash P
              (P.serializeCompressed (P.pubKey b.localStatic))).2 ++
          (((b.tosymmetricState.EncryptAndHash P
              (P.serializeCompressed (P.pubKey b.localStatic))).1.mixKey P
            (ecdh P re b.localStatic)).EncryptAndHash P []).2),
        none) := by
  simp only [Machine.GenActThree, withSymmetric_remoteEphemeral, hre, withSymmetric_sym,
    withSymmetric_withSymmetric, withSymmetric_localStatic, ActThreeSize]
  rw [act_build 66 49 _ _ (by rw [encryptAndHash_length P hseal, hser])
    (by rw [encryptAndHash_length P hseal]; rfl)]

theorem recvActThree_eq (P : Primitives Priv Pub) (hser : P.SerializeSize)
    (hseal : P.SealOverhead) (hopen : P.OpenInvertsSeal) (hparse : P.ParseSerialize)
    (b : Machine Priv Pub) (act : Bytes) (pk : Pub) (le : Priv) (s : symmetricState)
    (hact : act = 0 :: ((b.tosymmetricState.EncryptAndHash P
        (P.serializeCompressed pk)).2 ++ (s.EncryptAndHash P []).2))
    (hle : b.localEphemeral = some le)
    (hs : s = (b.tosymmetricState.EncryptAndHash P (P.serializeCompressed pk)).1.mixKey P
      (ecdh P pk le)) :
    b.RecvActThree P act =
      some ((({ b with remoteStatic := some pk }).withSymmetric
        (s.EncryptAndHash P []).1).split P, none) := by
  subst hact
  have hc : (b.tosymmetricState.EncryptAndHash P (P.serializeCompressed pk)).2.length = 49 := by
    rw [encryptAndHash_length P hseal, hser]
  have hf := act_fields 49 _ (s.EncryptAndHash P []).2 hc
  have hl : (s.EncryptAndHash P []).2.length = 16 := by
    rw [encryptAndHash_length P hseal]; rfl
  simp only [Machine.RecvActThree, byteAt, HandshakeVersion, List.getD_cons_zero, ne_eq,
    not_true_eq_false, ↓reduceIte, hf.1, hf.2]
  rw [copy_eq_of_length_eq _ _ (by rw [hc]; simp), copy_eq_of_length_eq _ _ (by rw [hl]; simp)]
  simp only [decryptAndHash_encryptAndHash P hopen, hparse pk, withSymmetric_sym,
    withSymmetric_withSymmetric, withSymmetric_localEphemeral, hle, ← hs]
  rfl

theorem ecdh_symm (P : Primitives Priv Pub) (hecdh : P.EcdhSymmetric) (a b : Priv) :
    ecdh P (P.pubKey a) b = ecdh P (P.pubKey b) a := by
  simp [ecdh, hecdh a b]

theorem lockStep_spec (P : Primitives Priv Pub) (hser : P.SerializeSize)
    (hseal : P.SealOverhead) (hopen : P.OpenInvertsSeal) (hparse : P.ParseSerialize)
    (hecdh : P.EcdhSymmetric) (mi mr : Machine Priv Pub) (ei er : Priv)
    (hig : mi.ephemeralGen = .ok ei) (hrg : mr.ephemeralGen = .ok er)
    (hrs : mi.remoteStatic = some (P.pubKey mr.localStatic))
    (hsym : mi.tosymmetricState = mr.tosymmetricState) :
    ∃ t, lockStep P mi mr = some t ∧
      t.errors = [none, none, none, none, none, none] ∧
      t.initiator1 = ({ mi with localEphemeral := some ei }).withSymmetric
        (symAfterActOne P mi.tosymmetricState ei mr.localStatic) ∧
      t.responder1 = ({ mr with remoteEphemeral := some (P.pubKey ei) }).withSymmetric
        (symAfterActOne P mi.tosymmetricState ei mr.localStatic) ∧
      t.responder2 = ({ mr with remoteEphemeral := some (P.pubKey ei),
                                localEphemeral := some er }).withSymmetric
        (symAfterActTwo P mi.tosymmetricState ei mr.localStatic er) ∧
      t.initiator2 = ({ mi with localEphemeral := some ei,
                                remoteEphemeral := some (P.pubKey er) }).withSymmetric
        (symAfterActTwo P mi.tosymmetricState ei mr.localStatic er) ∧
      t.initiator3 = Machine.split P (Machine.withSymmetric
        { mi with localEphemeral := some ei, remoteEphemeral := some (P.pubKey er) }
        (symAfterActThree P mi.tosymmetricState mi.localStatic ei mr.localStatic er)) ∧
      t.responder3 = Machine.split P (Machine.withSymmetric
        { mr with remoteEphemeral := some (P.pubKey ei), localEphemeral := some er,
                  remoteStatic := some (P.pubKey mi.localStatic) }
        (symAfterActThree P mi.tosymmetricState mi.localStatic ei mr.localStatic er)) := by
  unfold lockStep
  rw [genActOne_eq P hser hseal mi ei _ hig hrs]
  simp only []
  rw [recvActOne_eq P hser hseal hopen hparse mr _ (P.pubKey ei)]
  case hact => rfl
  case hs => rw [hsym, ecdh_symm P hecdh ei mr.localStatic]
  simp only []
  rw [genActTwo_eq P hser hseal _ er (P.pubKey ei)]
  case hgen => exact hrg
  case hre => rfl
  simp only []
  rw [recvActTwo_eq P hser hseal hopen hparse _ _ (P.pubKey er) ei]
  case hact => rfl
  case hle => rfl
  case hs => simp only [withSymmetric_sym]; rw [ecdh_symm P hecdh er ei]
  simp only []
  rw [genActThree_eq P hser hseal _ (P.pubKey er)]
  rotate_left
  · rfl
  simp only []
  rw [recvActThree_eq P hser hseal hopen hparse _ _ (P.pubKey mi.localStatic) er]
  case hact => rfl
  case hle => rfl
  case hs => simp only [withSymmetric_sym]; rw [ecdh_symm P hecdh mi.localStatic er]; rfl
  refine ⟨_, rfl, rfl, ?_, ?_, ?_, ?_, ?_, ?_⟩ <;> rfl

theorem newHandshakeState_initiator (P : Primitives Priv Pub) (prologue : Bytes)
    (localPub : Priv) (rp : Pub) :
    newHandshakeState P true prologue localPub (some rp) =
      some { (((symmetricState.zero.InitializeSymmetric P protocolName).mixHash P
          prologue).mixHash P (P.serializeCompressed rp)) with
        initiator := true, localStatic := localPub, localEphemeral := none,
        remoteStatic := some rp, remoteEphemeral := none } := rfl

theorem newHandshakeState_responder (P : Primitives Priv Pub) (prologue : Bytes)
    (localPub : Priv) (rp : Option Pub) :
    newHandshakeState P false prologue localPub rp =
      some { (((symmetricState.zero.InitializeSymmetric P protocolName).mixHash P
          prologue).mixHash P (P.serializeCompressed (P.pubKey localPub))) with
        initiator := false, localStatic := localPub, localEphemeral := none,
        remoteStatic := rp, remoteEphemeral := none } := rfl

theorem split_initiator (P : Primitives Priv Pub) (b : Machine Priv Pub)
    (h : b.initiator = true) :
    (b.split P).sendCipher = some
      { nonce := 0, secretKey := hkdfBytes P [] b.chainingKey [] 0 32, salt := b.chainingKey } ∧
    (b.split P).recvCipher = some
      { nonce := 0, secretKey := hkdfBytes P [] b.chainingKey [] 32 32, salt := b.chainingKey } := by
  simp [Machine.split, h, hkdfBytes, hkdfNew, hkdfReader.Read, cipherState.InitializeKeyWithSalt,
    cipherState.InitializeKey, cipherState.zero]

theorem split_responder (P : Primitives Priv Pub) (b : Machine Priv Pub)
    (h : b.initiator = false) :
    (b.split P).recvCipher = some
      { nonce := 0, secretKey := hkdfBytes P [] b.chainingKey [] 0 32, salt := b.chainingKey } ∧
    (b.split P).sendCipher = some
      { nonce := 0, secretKey := hkdfBytes P [] b.chainingKey [] 32 32, salt := b.chainingKey } := by
  simp [Machine.split, h, hkdfBytes, hkdfNew, hkdfReader.Read, cipherState.InitializeKeyWithSalt,
    cipherState.InitializeKey, cipherState.zero]

/-- The symmetric state of a new machine whose responder has static key `pub`. -/
theorem newMachine_initiator (P : Primitives Priv Pub) (gen : Except Error Priv)
    (localPub : Priv) (rp : Pub) :
    ∃ m, NewBrontideMachine P gen true localPub (some rp) [] = some m ∧
      m.ephemeralGen = gen ∧ m.remoteStatic = some rp ∧ m.initiator = true ∧
      m.localStatic = localPub ∧
      m.tosymmetricState = ((symmetricState.zero.InitializeSymmetric P protocolName).mixHash P
          lightningPrologue).mixHash P (P.serializeCompressed rp) :=
  ⟨_, rfl, rfl, rfl, rfl, rfl, rfl⟩

theorem newMachine_responder (P : Primitives Priv Pub) (gen : Except Error Priv)
    (localPub : Priv) (rp : Option Pub) :
    ∃ m, NewBrontideMachine P gen false localPub rp [] = some m ∧
      m.ephemeralGen = gen ∧ m.remoteStatic = rp ∧ m.initiator = false ∧
      m.localStatic = localPub ∧
      m.tosymmetricState = ((symmetricState.zero.InitializeSymmetric P protocolName).mixHash P
          lightningPrologue).mixHash P (P.serializeCompressed (P.pubKey localPub)) :=
  ⟨_, rfl, rfl, rfl, rfl, rfl, rfl⟩

@[simp] theorem split_initiator_flag (P : Primitives Priv Pub) (b : Machine Priv Pub) :
    (b.split P).initiator = b.initiator := by
  unfold Machine.split; split <;> rfl

theorem deferred_nonce_ne (P : Primitives Priv Pub) (c : cipherState) (h : c.nonce < 2 ^ 64) :
    (c.deferred P).nonce ≠ c.nonce := by
  simp only [cipherState.deferred, keyRotationInterval]
  norm_num at h ⊢
  split
  · rename_i h1
    simp only [cipherState.rotateKey, cipherState.InitializeKey]
    omega
  · simp only
    omega

theorem uint16_round_trip (n : Nat) (h : n ≤ 65535) :
    Uint16BE (PutUint16BE (List.replicate 2 0) (n % 2 ^ 16)) = some n := by
  simp only [PutUint16BE, copy, Uint16BE, Nat.shiftRight_eq_div_pow]
  simp
  omega

theorem putUint16_length (n : Nat) : (PutUint16BE (List.replicate 2 0) n).length = 2 := by
  simp [PutUint16BE, copy]

/-- The bytes `WriteMessage` puts on the wire for payload `p` under send cipher `c`. -/
theorem writeMessage_buffer (P : Primitives Priv Pub) (b : Machine Priv Pub) (c : cipherState)
    (w p : Bytes) (hc : b.sendCipher = some c) (hp : p.length ≤ 65535) :
    b.WriteMessage P bufferWrite w p =
      some ({ b with sendCipher := some ((c.deferred P).deferred P) },
        w ++ P.aeadSeal c.secretKey (aeadNonce c.nonce)
            (PutUint16BE (List.replicate 2 0) (p.length % 2 ^ 16)) [] ++
          P.aeadSeal (c.deferred P).secretKey (aeadNonce (c.deferred P).nonce) p [],
        none) := by
  have : ¬ p.length > MaxUint16 := by simp [MaxUint16]; omega
  simp [Machine.WriteMessage, this, hc, bufferWrite, cipherState.Encrypt]

theorem readMessage_buffer (P : Primitives Priv Pub) (hseal : P.SealOverhead)
    (hopen : P.OpenInvertsSeal) (b : Machine Priv Pub) (c : cipherState)
    (p rest : Bytes) (hc : b.recvCipher = some c) (hp : p.length ≤ 65535) :
    b.ReadMessage P bufferReadFull
        (P.aeadSeal c.secretKey (aeadNonce c.nonce)
            (PutUint16BE (List.replicate 2 0) (p.length % 2 ^ 16)) [] ++
          P.aeadSeal (c.deferred P).secretKey (aeadNonce (c.deferred P).nonce) p [] ++ rest) =
      some ({ b with recvCipher := some ((c.deferred P).deferred P) }, rest, .ok p) := by
  have hh : (P.aeadSeal c.secretKey (aeadNonce c.nonce)
      (PutUint16BE (List.replicate 2 0) (p.length % 2 ^ 16)) []).length = 18 := by
    rw [hseal, putUint16_length]; rfl
  have hb : (P.aeadSeal (c.deferred P).secretKey (aeadNonce (c.deferred P).nonce) p []).length
      = p.length + 16 := by
    rw [hseal]; rfl
  have bufferRead : ∀ (x y : Bytes) (n : Nat), x.length = n →
      bufferReadFull (x ++ y) n = (y, x, none) := by
    intro x y n hx
    subst hx
    simp [bufferReadFull]
  have hdec : ∀ (k : cipherState) (x : Bytes),
      k.Decrypt P [] [] (P.aeadSeal k.secretKey (aeadNonce k.nonce) x []) =
        (k.deferred P, .ok x) := by
    intro k x
    simp [cipherState.Decrypt, hopen _ _ _ _]
  have hlen : ¬ p.length + 16 > ReadSize := by
    simp only [ReadSize, MaxUint16, macSize]
    omega
  have hmod : (p.length + 16) % 2 ^ 32 = p.length + 16 := by omega
  simp only [Machine.ReadMessage, lengthHeaderSize, macSize, List.append_assoc]
  rw [bufferRead _ _ (2 + 16) hh]
  simp only [copy_eq_of_length_eq _ _ (show _ = (List.replicate (2 + 16) 0).length from by
    rw [hh]; simp), hc, hdec, uint16_round_trip p.length hp, hlen, ↓reduceIte, hmod]
  rw [bufferRead _ _ (p.length + 16) hb]
  simp only [copy_eq_of_length_eq _ _ (show _ = (List.replicate (p.length + 16) 0).length from by
    rw [hb]; simp), hdec]

theorem write_read_messages (P : Primitives Priv Pub) (hseal : P.SealOverhead)
    (hopen : P.OpenInvertsSeal) (ps : List Bytes) (hps : ∀ p ∈ ps, p.length ≤ 65535) :
    ∀ (bw br : Machine Priv Pub) (c : cipherState) (w rest : Bytes),
      bw.sendCipher = some c → br.recvCipher = some c →
      ∃ bw1 br1 stream,
        writeMessages P bw w ps = some (bw1, w ++ stream, none) ∧
        readMessages P br (stream ++ rest) ps.length = some (br1, rest, .ok ps) ∧
        bw1.sendCipher = br1.recvCipher := by
  induction ps with
  | nil =>
    intro bw br c w rest hw hr
    exact ⟨bw, br, [], by simp [writeMessages], by simp [readMessages], by rw [hw, hr]⟩
  | cons p ps ih =>
    intro bw br c w rest hw hr
    have hp : p.length ≤ 65535 := hps p (List.mem_cons_self _ _)
    obtain ⟨bw1, br1, stream, h1, h2, h3⟩ :=
      ih (fun q hq => hps q (List.mem_cons_of_mem _ hq))
        { bw with sendCipher := some ((c.deferred P).deferred P) }
        { br with recvCipher := some ((c.deferred P).deferred P) }
        ((c.deferred P).deferred P)
        (w ++ P.aeadSeal c.secretKey (aeadNonce c.nonce)
            (PutUint16BE (List.replicate 2 0) (p.length % 2 ^ 16)) [] ++
          P.aeadSeal (c.deferred P).secretKey (aeadNonce (c.deferred P).nonce) p [])
        rest rfl rfl
    refine ⟨bw1, br1, P.aeadSeal c.secretKey (aeadNonce c.nonce)
            (PutUint16BE (List.replicate 2 0) (p.length % 2 ^ 16)) [] ++
          P.aeadSeal (c.deferred P).secretKey (aeadNonce (c.deferred P).nonce) p [] ++ stream,
      ?_, ?_, h3⟩
    · simp only [List.append_assoc] at h1
      simp only [writeMessages, writeMessage_buffer P bw c w p hw hp, h1, List.append_assoc]
    · simp only [readMessages, List.length_cons, List.append_assoc]
      have := readMessage_buffer P hseal hopen br c p (stream ++ rest) hr hp
      simp only [List.append_assoc] at this
      rw [this]
      simp only [h2]

theorem rotateKey_eq (P : Primitives Priv Pub) (c : cipherState) :
    c.rotateKey P =
      { nonce := 0, secretKey := hkdfBytes P c.secretKey c.salt [] 32 32,
        salt := hkdfBytes P c.secretKey c.salt [] 0 32 } := by
  simp [cipherState.rotateKey, cipherState.InitializeKey, hkdfNew, hkdfReader.Read, hkdfBytes]

theorem deferred_eq (P : Primitives Priv Pub) (c : cipherState) :
    c.deferred P =
      if (c.nonce + 1) % 2 ^ 64 = 1000 then c.rotateKey P
      else { c with nonce := (c.nonce + 1) % 2 ^ 64 } := by
  simp only [cipherState.deferred, keyRotationInterval]
  split
  · simp [rotateKey_eq]
  · rfl

theorem littleEndianValue_littleEndian (len n : Nat) :
    littleEndianValue (littleEndian len n) = n % 256 ^ len := by
  induction len generalizing n with
  | zero => simp [littleEndian, littleEndianValue, Nat.mod_one]
  | succ k ih =>
    simp only [littleEndian, littleEndianValue, ih]
    rw [pow_succ', Nat.mod_mul]

theorem putUint64_eq (n : Nat) :
    PutUint64LE (List.replicate 8 0) n = littleEndian 8 n := by
  simp [PutUint64LE, copy, littleEndian, List.range, List.range.loop, Nat.shiftRight_eq_div_pow,
    Nat.div_div_eq_div_mul]

theorem apply_eq_deferred (P : Primitives Priv Pub) (c : cipherState) (op : CipherOp) :
    op.apply P c = c.deferred P := by
  cases op <;> rfl

theorem rotations_nonce (P : Primitives Priv Pub) (c : cipherState) (h : c.nonce = 0) (k : Nat) :
    (rotations P c k).nonce = 0 := by
  cases k with
  | zero => exact h
  | succ k => simp [rotations, rotateKey_eq]

/-- The state `k` rotations after the installation with the counter at `m`. -/
theorem deferred_epoch (P : Primitives Priv Pub) (c0 : cipherState) (k m : Nat) (hm : m < 1000) :
    ({ rotations P c0 k with nonce := m } : cipherState).deferred P =
      { rotations P c0 ((1000 * k + m + 1) / 1000) with nonce := (m + 1) % 1000 } := by
  rw [deferred_eq]
  have h64 : (m + 1) % 2 ^ 64 = m + 1 := Nat.mod_eq_of_lt (by norm_num; omega)
  simp only [h64]
  by_cases h : m + 1 = 1000
  · have hk : (1000 * k + m + 1) / 1000 = k + 1 := by omega
    rw [if_pos h, hk, h]
    simp [rotations, rotateKey_eq]
  · have hk : (1000 * k + m + 1) / 1000 = k := by omega
    have hm1 : (m + 1) % 1000 = m + 1 := by omega
    rw [if_neg h, hk, hm1]

theorem runOps_epoch (P : Primitives Priv Pub) (c0 : cipherState) (ops : List CipherOp) :
    ∀ k m, m < 1000 →
      runOps P { rotations P c0 k with nonce := m } ops =
        { rotations P c0 ((1000 * k + m + ops.length) / 1000) with
          nonce := (m + ops.length) % 1000 } := by
  induction ops with
  | nil =>
    intro k m hm
    have hk : (1000 * k + m + 0) / 1000 = k := by omega
    have hm1 : (m + 0) % 1000 = m := by omega
    simp only [runOps, List.foldl_nil, List.length_nil, hk, hm1]
  | cons op ops ih =>
    intro k m hm
    simp only [runOps, List.foldl_cons, List.length_cons] at ih ⊢
    rw [apply_eq_deferred, deferred_epoch P c0 k m hm, ih _ _ (Nat.mod_lt _ (by norm_num))]
    have e1 : (1000 * ((1000 * k + m + 1) / 1000) + (m + 1) % 1000 + ops.length) / 1000
        = (1000 * k + m + (ops.length + 1)) / 1000 := by omega
    have e2 : ((m + 1) % 1000 + ops.length) % 1000 = (m + (ops.length + 1)) % 1000 := by omega
    rw [e1, e2]

theorem runOps_fresh (P : Primitives Priv Pub) (c0 : cipherState) (h0 : c0.nonce = 0)
    (ops : List CipherOp) :
    runOps P c0 ops =
      { rotations P c0 (ops.length / 1000) with nonce := ops.length % 1000 } := by
  have h := runOps_epoch P c0 ops 0 0 (by norm_num)
  have e : ({ rotations P c0 0 with nonce := 0 } : cipherState) = c0 := by
    cases c0; simp only [rotations] at *; simp_all
  rw [e] at h
  rw [h]
  simp

theorem mixHash_eq (P : Primitives Priv Pub) (hsha : P.DigestSize) (s : symmetricState)
    (data : Bytes) (hd : s.handshakeDigest.length = 32) :
    s.mixHash P data = { s with handshakeDigest := P.sha256 (s.handshakeDigest ++ data) } := by
  simp only [symmetricState.mixHash]
  rw [copy_eq_of_length_eq _ _ (by rw [hsha, hd])]

theorem initial_symmetric (P : Primitives Priv Pub) (hsha : P.DigestSize) (data : Bytes) :
    ((symmetricState.zero.InitializeSymmetric P protocolName).mixHash P
        lightningPrologue).mixHash P data =
      { nonce := 0, secretKey := List.replicate 32 0, salt := List.replicate 32 0,
        chainingKey := P.sha256 protocolName, tempKey := List.replicate 32 0,
        handshakeDigest := P.sha256 (P.sha256 (P.sha256 protocolName ++ lightningPrologue)
          ++ data) } := by
  simp only [symmetricState.mixHash, symmetricState.InitializeSymmetric,
    cipherState.InitializeKey, symmetricState.zero, cipherState.zero]
  have h1 : copy (P.sha256 protocolName)
      (P.sha256 (P.sha256 protocolName ++ lightningPrologue)) =
      P.sha256 (P.sha256 protocolName ++ lightningPrologue) :=
    copy_eq_of_length_eq _ _ (by rw [hsha, hsha])
  simp only [h1]
  rw [copy_eq_of_length_eq _ _ (by rw [hsha, hsha])]

theorem act_length (k : Nat) (x a : Bytes) (hx : x.length = k) (n : Nat) (ha : a.length = n) :
    (0 :: (x ++ a)).length = k + 1 + n := by
  simp [hx, ha]; omega

theorem encryptAndHash_after_mixKey (P : Primitives Priv Pub) (s : symmetricState)
    (d p : Bytes) :
    ((s.mixKey P d).EncryptAndHash P p).2 =
      P.aeadSeal (s.mixKey P d).tempKey (aeadNonce 0) p s.handshakeDigest := by
  simp [symmetricState.EncryptAndHash, cipherState.Encrypt, symmetricState.mixKey,
    cipherState.InitializeKey]

theorem encryptAndHash_ciphertext (P : Primitives Priv Pub) (s : symmetricState) (p : Bytes) :
    (s.EncryptAndHash P p).2 = P.aeadSeal s.secretKey (aeadNonce s.nonce) p s.handshakeDigest := by
  simp [symmetricState.EncryptAndHash, cipherState.Encrypt]

theorem bufferReadFull_append (x y : Bytes) (n : Nat) (hx : x.length = n) :
    bufferReadFull (x ++ y) n = (y, x, none) := by
  subst hx
  simp [bufferReadFull]

theorem uint16BE_of_length_two (l : Bytes) (h : l.length = 2) :
    ∃ L, Uint16BE l = some L ∧ L ≤ 65535 ∧ L = (l.getD 1 0) % 256 + ((l.getD 0 0) % 256) * 256 := by
  match l, h with
  | [b0, b1], _ =>
    refine ⟨_, rfl, ?_, rfl⟩
    have h0 := Nat.mod_lt b0 (show 256 > 0 by norm_num)
    have h1 := Nat.mod_lt b1 (show 256 > 0 by norm_num)
    omega

theorem putUint16_bytes (n : Nat) (h : n ≤ 65535) :
    PutUint16BE (List.replicate 2 0) (n % 2 ^ 16) = [n / 256, n % 256] := by
  simp only [PutUint16BE, copy, Nat.shiftRight_eq_div_pow]
  simp
  omega

/-- What `WriteMessage` hands to a writer that does not fail. -/
theorem writeMessage_eq {σ : Type} (P : Primitives Priv Pub) (b : Machine Priv Pub)
    (c : cipherState) (write : σ → Bytes → σ × Option Error) (w : σ) (p : Bytes)
    (hc : b.sendCipher = some c) (hp : p.length ≤ 65535)
    (hw : ∀ s x, (write s x).2 = none) :
    b.WriteMessage P write w p =
      some ({ b with sendCipher := some ((c.deferred P).deferred P) },
        (write (write w (P.aeadSeal c.secretKey (aeadNonce c.nonce)
            (PutUint16BE (List.replicate 2 0) (p.length % 2 ^ 16)) [])).1
          (P.aeadSeal (c.deferred P).secretKey (aeadNonce (c.deferred P).nonce) p [])).1,
        none) := by
  have : ¬ p.length > MaxUint16 := by simp [MaxUint16]; omega
  simp [Machine.WriteMessage, this, hc, hw, cipherState.Encrypt]

/-- `ReadMessage` on an in-memory stream whose header does not authenticate. -/
theorem readMessage_header_error (P : Primitives Priv Pub) (b : Machine Priv Pub)
    (c : cipherState) (hdr rest : Bytes) (err : Error)
    (hc : b.recvCipher = some c) (hh : hdr.length = 18)
    (ho : P.aeadOpen c.secretKey (aeadNonce c.nonce) hdr [] = .error err) :
    b.ReadMessage P bufferReadFull (hdr ++ rest) =
      some ({ b with recvCipher := some (c.deferred P) }, rest, .error err) := by
  simp only [Machine.ReadMessage, lengthHeaderSize, macSize]
  rw [bufferReadFull_append _ _ (2 + 16) hh]
  simp only [copy_eq_of_length_eq _ _ (show _ = (List.replicate (2 + 16) 0).length from by
    rw [hh]; simp), hc, cipherState.Decrypt, ho]

/-- `ReadMessage` on an in-memory stream whose header authenticates and decodes to
`L`, followed by `L + 16` bytes of body. -/
theorem readMessage_body (P : Primitives Priv Pub) (b : Machine Priv Pub)
    (c : cipherState) (hdr body rest lenBytes : Bytes) (L : Nat)
    (hc : b.recvCipher = some c) (hh : hdr.length = 18)
    (ho : P.aeadOpen c.secretKey (aeadNonce c.nonce) hdr [] = .ok lenBytes)
    (hL : Uint16BE lenBytes = some L) (hL2 : L ≤ 65535) (hb : body.length = L + 16) :
    b.ReadMessage P bufferReadFull (hdr ++ (body ++ rest)) =
      some ({ b with recvCipher := some ((c.deferred P).deferred P) }, rest,
        ((c.deferred P).Decrypt P [] [] body).2) := by
  have hlen : ¬ L + 16 > ReadSize := by
    simp only [ReadSize, MaxUint16, macSize]
    omega
  have hmod : (L + 16) % 2 ^ 32 = L + 16 := by omega
  simp only [Machine.ReadMessage, lengthHeaderSize, macSize]
  rw [bufferReadFull_append _ _ (2 + 16) hh]
  simp only [copy_eq_of_length_eq _ _ (show _ = (List.replicate (2 + 16) 0).length from by
    rw [hh]; simp), hc, cipherState.Decrypt, ho, List.nil_append, hL, hmod, hlen, ↓reduceIte]
  rw [bufferReadFull_append _ _ (L + 16) hb]
  simp only [copy_eq_of_length_eq _ _ (show _ = (List.replicate (L + 16) 0).length from by
    rw [hb]; simp)]

theorem split_handshakeState (P : Primitives Priv Pub) (b : Machine Priv Pub) :
    (b.split P).tohandshakeState = b.tohandshakeState := by
  unfold Machine.split
  split <;> rfl

/-- What `GenActOne` returns depends on the symmetric state, the remote static key and
the generator only. -/
theorem genActOne_congr (P : Primitives Priv Pub) (m m1 : Machine Priv Pub)
    (hs : m.tosymmetricState = m1.tosymmetricState) (hr : m.remoteStatic = m1.remoteStatic)
    (hg : m.ephemeralGen = m1.ephemeralGen) :
    (m.GenActOne P).map (fun x => (x.1.tosymmetricState, x.2)) =
      (m1.GenActOne P).map (fun x => (x.1.tosymmetricState, x.2)) := by
  unfold Machine.GenActOne
  rw [← hg]
  cases m.ephemeralGen with
  | error err => simp [hs]
  | ok e =>
    simp only [withSymmetric_remoteStatic, ← hr, withSymmetric_sym, ← hs]
    cases m.remoteStatic with
    | none => rfl
    | some rs => simp only [Option.map_some', withSymmetric_sym]

/-- What `GenActTwo` returns depends on the symmetric state, the remote ephemeral key
and the generator only. -/
theorem genActTwo_congr (P : Primitives Priv Pub) (m m1 : Machine Priv Pub)
    (hs : m.tosymmetricState = m1.tosymmetricState)
    (hr : m.remoteEphemeral = m1.remoteEphemeral)
    (hg : m.ephemeralGen = m1.ephemeralGen) :
    (m.GenActTwo P).map (fun x => (x.1.tosymmetricState, x.2)) =
      (m1.GenActTwo P).map (fun x => (x.1.tosymmetricState, x.2)) := by
  unfold Machine.GenActTwo
  rw [← hg]
  cases m.ephemeralGen with
  | error err => simp [hs]
  | ok e =>
    simp only [withSymmetric_remoteEphemeral, ← hr, withSymmetric_sym, ← hs]
    cases m.remoteEphemeral with
    | none => rfl
    | some rs => simp only [Option.map_some', withSymmetric_sym]

/-- What `RecvActOne` returns and leaves in the symmetric state and the remote ephemeral
key depends on the symmetric state and the local static key only. -/
theorem recvActOne_congr (P : Primitives Priv Pub) (m m1 : Machine Priv Pub) (actOne : Bytes)
    (hs : m.tosymmetricState = m1.tosymmetricState) (hl : m.localStatic = m1.localStatic)
    (hr : m.remoteEphemeral = m1.remoteEphemeral)
    (hg : m.ephemeralGen = m1.ephemeralGen) :
    (m.RecvActOne P actOne).2 = (m1.RecvActOne P actOne).2 ∧
    (m.RecvActOne P actOne).1.tosymmetricState = (m1.RecvActOne P actOne).1.tosymmetricState ∧
    (m.RecvActOne P actOne).1.remoteEphemeral = (m1.RecvActOne P actOne).1.remoteEphemeral ∧
    (m.RecvActOne P actOne).1.ephemeralGen = (m1.RecvActOne P actOne).1.ephemeralGen := by
  unfold Machine.RecvActOne
  split
  · exact ⟨rfl, hs, hr, hg⟩
  · simp only []
    cases P.parsePubKey (copy (List.replicate 33 0) (List.drop 1 (List.take 34 actOne))) with
    | error err => exact ⟨rfl, hs, rfl, hg⟩
    | ok E =>
      simp only [withSymmetric_sym, withSymmetric_localStatic, ← hs, ← hl]
      cases ((m.tosymmetricState.mixHash P (P.serializeCompressed E)).mixKey P
          (ecdh P E m.localStatic)).DecryptAndHash P
          (copy (List.replicate 16 0) (List.drop 34 actOne)) with
      | mk s1 res =>
        cases res with
        | error err => exact ⟨rfl, rfl, rfl, hg⟩
        | ok x => exact ⟨rfl, rfl, rfl, hg⟩

@[simp] theorem mixHash_chainingKey (P : Primitives Priv Pub) (s : symmetricState) (d : Bytes) :
    (s.mixHash P d).chainingKey = s.chainingKey := rfl

@[simp] theorem encryptAndHash_chainingKey (P : Primitives Priv Pub) (s : symmetricState)
    (p : Bytes) : (s.EncryptAndHash P p).1.chainingKey = s.chainingKey := rfl

@[simp] theorem mixKey_chainingKey (P : Primitives Priv Pub) (s : symmetricState) (d : Bytes) :
    (s.mixKey P d).chainingKey = hkdfBytes P d s.chainingKey [] 0 32 := rfl

theorem symAfterActThree_chainingKey (P : Primitives Priv Pub) (s0 : symmetricState)
    (iStatic iEph rStatic rEph : Priv) :
    (symAfterActThree P s0 iStatic iEph rStatic rEph).chainingKey =
      hkdfBytes P (ecdh P (P.pubKey rEph) iStatic)
        (hkdfBytes P (ecdh P (P.pubKey iEph) rEph)
          (hkdfBytes P (ecdh P (P.pubKey rStatic) iEph) s0.chainingKey [] 0 32) [] 0 32)
        [] 0 32 := by
  simp only [symAfterActThree, symAfterActTwo, symAfterActOne, encryptAndHash_chainingKey,
    mixKey_chainingKey, mixHash_chainingKey]

theorem encryptAndHash_digest (P : Primitives Priv Pub) (hsha : P.DigestSize)
    (s : symmetricState) (p : Bytes) (hd : s.handshakeDigest.length = 32) :
    (s.EncryptAndHash P p).1.handshakeDigest =
      P.sha256 (s.handshakeDigest ++ (s.EncryptAndHash P p).2) := by
  simp only [symmetricState.EncryptAndHash]
  rw [mixHash_eq P hsha]
  exact hd

theorem slice_lengths (act : Bytes) (k n : Nat) (h : act.length = k + 1 + n) :
    ((act.take (k + 1)).drop 1).length = k ∧ (act.drop (k + 1)).length = n := by
  simp only [List.length_drop, List.length_take]
  omega

/-- The error `RecvActOne` returns on a 50-byte payload with version byte 0, by cases on
key parsing and on the tag check. -/
theorem recvActOne_error (P : Primitives Priv Pub) (b : Machine Priv Pub) (act : Bytes)
    (hlen : act.length = 50) (hv : byteAt act 0 = 0) :
    (b.RecvActOne P act).2 =
      match P.parsePubKey ((act.take 34).drop 1) with
      | .error err => some err
      | .ok E =>
        match P.aeadOpen (hkdfBytes P (ecdh P E b.localStatic) b.chainingKey [] 32 32)
            (aeadNonce 0) (act.drop 34)
            (b.tosymmetricState.mixHash P (P.serializeCompressed E)).handshakeDigest with
        | .error err => some err
        | .ok _ => none := by
  have hs := slice_lengths act 33 16 hlen
  simp only [Machine.RecvActOne, hv, HandshakeVersion, ne_eq, not_true_eq_false, ↓reduceIte]
  rw [copy_eq_of_length_eq _ _ (by rw [hs.1]; simp), copy_eq_of_length_eq _ _ (by rw [hs.2]; simp)]
  cases P.parsePubKey ((act.take 34).drop 1) with
  | error err => rfl
  | ok E =>
    simp only [withSymmetric_sym, withSymmetric_localStatic, symmetricState.DecryptAndHash,
      cipherState.Decrypt, List.nil_append]
    have hk : ((b.tosymmetricState.mixHash P (P.serializeCompressed E)).mixKey P
        (ecdh P E b.localStatic)).secretKey =
        hkdfBytes P (ecdh P E b.localStatic) b.chainingKey [] 32 32 := rfl
    have hn : ((b.tosymmetricState.mixHash P (P.serializeCompressed E)).mixKey P
        (ecdh P E b.localStatic)).nonce = 0 := rfl
    have hd : ((b.tosymmetricState.mixHash P (P.serializeCompressed E)).mixKey P
        (ecdh P E b.localStatic)).handshakeDigest =
        (b.tosymmetricState.mixHash P (P.serializeCompressed E)).handshakeDigest := rfl
    rw [hk, hn, hd]
    cases P.aeadOpen (hkdfBytes P (ecdh P E b.localStatic) b.chainingKey [] 32 32)
        (aeadNonce 0) (act.drop 34)
        (b.tosymmetricState.mixHash P (P.serializeCompressed E)).handshakeDigest with
    | error err => rfl
    | ok x => rfl

theorem recvActOne_version (P : Primitives Priv Pub) (b : Machine Priv Pub) (act : Bytes)
    (h : byteAt act 0 ≠ 0) :
    b.RecvActOne P act = (b, some (Error.invalidVersion "Act One" (byteAt act 0) act)) := by
  simp [Machine.RecvActOne, HandshakeVersion, h]

/-- The three payloads of a lock-step handshake. -/
theorem lockStep_acts (P : Primitives Priv Pub) (hser : P.SerializeSize)
    (hseal : P.SealOverhead) (hopen : P.OpenInvertsSeal) (hparse : P.ParseSerialize)
    (hecdh : P.EcdhSymmetric) (mi mr : Machine Priv Pub) (ei er : Priv)
    (hig : mi.ephemeralGen = .ok ei) (hrg : mr.ephemeralGen = .ok er)
    (hrs : mi.remoteStatic = some (P.pubKey mr.localStatic))
    (hsym : mi.tosymmetricState = mr.tosymmetricState)
    (t : LockStep Priv Pub) (ht : lockStep P mi mr = some t) :
    t.actOne = 0 :: (P.serializeCompressed (P.pubKey ei) ++
      (((mr.tosymmetricState.mixHash P (P.serializeCompressed (P.pubKey ei))).mixKey P
        (ecdh P (P.pubKey ei) mr.localStatic)).EncryptAndHash P []).2) ∧
    t.actTwo = 0 :: (P.serializeCompressed (P.pubKey er) ++
      ((((symAfterActOne P mi.tosymmetricState ei mr.localStatic).mixHash P
        (P.serializeCompressed (P.pubKey er))).mixKey P
        (ecdh P (P.pubKey er) ei)).EncryptAndHash P []).2) ∧
    t.actThree = 0 :: (((symAfterActTwo P mi.tosymmetricState ei mr.localStatic er).EncryptAndHash
        P (P.serializeCompressed (P.pubKey mi.localStatic))).2 ++
      ((((symAfterActTwo P mi.tosymmetricState ei mr.localStatic er).EncryptAndHash
        P (P.serializeCompressed (P.pubKey mi.localStatic))).1.mixKey P
        (ecdh P (P.pubKey mi.localStatic) er)).EncryptAndHash P []).2) := by
  unfold lockStep at ht
  rw [genActOne_eq P hser hseal mi ei _ hig hrs] at ht
  simp only [] at ht
  rw [recvActOne_eq P hser hseal hopen hparse mr _ (P.pubKey ei)] at ht
  case hact => rfl
  case hs => rw [hsym, ecdh_symm P hecdh ei mr.localStatic]
  simp only [] at ht
  rw [genActTwo_eq P hser hseal _ er (P.pubKey ei)] at ht
  case hgen => exact hrg
  case hre => rfl
  simp only [] at ht
  rw [recvActTwo_eq P hser hseal hopen hparse _ _ (P.pubKey er) ei] at ht
  case hact => rfl
  case hle => rfl
  case hs => simp only [withSymmetric_sym]; rw [ecdh_symm P hecdh er ei]
  simp only [] at ht
  rw [genActThree_eq P hser hseal _ (P.pubKey er)] at ht
  rotate_left
  · rfl
  simp only [] at ht
  rw [recvActThree_eq P hser hseal hopen hparse _ _ (P.pubKey mi.localStatic) er] at ht
  case hact => rfl
  case hle => rfl
  case hs => simp only [withSymmetric_sym]; rw [ecdh_symm P hecdh mi.localStatic er]; rfl
  simp only [Option.some.injEq] at ht
  subst ht
  refine ⟨?_, ?_, ?_⟩
  · show 0 :: (_ ++ _) = _
    rw [hsym, ecdh_symm P hecdh mr.localStatic ei]
  · show 0 :: (_ ++ _) = _
    simp only [withSymmetric_sym]
    rw [ecdh_symm P hecdh ei er]
    rfl
  · show 0 :: (_ ++ _) = _
    simp only [withSymmetric_sym, withSymmetric_localStatic]
    rw [ecdh_symm P hecdh er mi.localStatic]
    rfl

/-- The built-in `copy` does not change the length of the destination. -/
theorem copy_length (dst src : Bytes) : (copy dst src).length = dst.length := by
  simp only [copy, List.length_append, List.length_take, List.length_drop]
  omega

/-- With a send cipher installed `WriteMessage` returns. -/
theorem writeMessage_returns {σ : Type} (P : Primitives Priv Pub) (b : Machine Priv Pub)
    (write : σ → Bytes → σ × Option Error) (w : σ) (p : Bytes) (c : cipherState)
    (hc : b.sendCipher = some c) :
    ∃ b1 w1 e, b.WriteMessage P write w p = some (b1, w1, e) := by
  simp only [Machine.WriteMessage, hc]
  split
  · exact ⟨_, _, _, rfl⟩
  · split <;> exact ⟨_, _, _, rfl⟩

/-- With a receive cipher installed `ReadMessage` returns: the decrypted header of an
18-byte ciphertext has two bytes. -/
theorem readMessage_returns {ρ : Type} (P : Primitives Priv Pub) (hov : P.OpenOverhead)
    (b : Machine Priv Pub) (readFull : ρ → Nat → ρ × Bytes × Option Error) (r : ρ)
    (c : cipherState) (hc : b.recvCipher = some c) :
    ∃ b1 r1 res, b.ReadMessage P readFull r = some (b1, r1, res) := by
  simp only [Machine.ReadMessage, hc]
  split
  · exact ⟨_, _, _, rfl⟩
  · split
    · exact ⟨_, _, _, rfl⟩
    · rename_i pktLenBytes hd
      have h2 : pktLenBytes.length = 2 := by
        simp only [cipherState.Decrypt] at hd
        split at hd
        · rename_i opened ho
          have := hov _ _ _ _ _ ho
          rw [copy_length] at this
          simp only [macSize, lengthHeaderSize, List.length_replicate] at this
          simp only [Except.ok.injEq, List.nil_append] at hd
          subst hd
          omega
        · cases hd
      obtain ⟨L, hL, hL2, -⟩ := uint16BE_of_length_two pktLenBytes h2
      have hlen : ¬ (L + macSize) % 2 ^ 32 > ReadSize := by
        simp only [ReadSize, MaxUint16, macSize]
        omega
      simp only [hL, hlen, ↓reduceIte]
      split <;> exact ⟨_, _, _, rfl⟩

/-- The plaintext `Decrypt` returns for an 18-byte header has two bytes. -/
theorem decrypt_header_length (P : Primitives Priv Pub) (hov : P.OpenOverhead)
    (c : cipherState) (src lenBytes : Bytes)
    (hd : (c.Decrypt P [] [] (copy (List.replicate (lengthHeaderSize + macSize) 0) src)).2
      = .ok lenBytes) : lenBytes.length = 2 := by
  simp only [cipherState.Decrypt] at hd
  split at hd
  · rename_i opened ho
    have := hov _ _ _ _ _ ho
    rw [copy_length] at this
    simp only [macSize, lengthHeaderSize, List.length_replicate] at this
    simp only [Except.ok.injEq, List.nil_append] at hd
    subst hd
    omega
  · cases hd

/-- `split` installs a send cipher. -/
@[simp] theorem split_sendCipher_isSome (P : Primitives Priv Pub) (b : Machine Priv Pub) :
    (b.split P).sendCipher.isSome = true := by
  unfold Machine.split; split <;> rfl

/-- `split` installs a receive cipher. -/
@[simp] theorem split_recvCipher_isSome (P : Primitives Priv Pub) (b : Machine Priv Pub) :
    (b.split P).recvCipher.isSome = true := by
  unfold Machine.split; split <;> rfl

/-- The header operation of message `j` after the installation: the counter goes from
`2 * (j % 500)` to the next odd number and the key stays. -/
theorem deferred_header (P : Primitives Priv Pub) (c0 : cipherState) (j : Nat) :
    ({ rotations P c0 (j / 500) with nonce := 2 * (j % 500) } : cipherState).deferred P =
      { rotations P c0 (j / 500) with nonce := 2 * (j % 500) + 1 } := by
  rw [deferred_epoch P c0 _ _ (by omega)]
  have hk : (1000 * (j / 500) + 2 * (j % 500) + 1) / 1000 = j / 500 := by omega
  have hm : (2 * (j % 500) + 1) % 1000 = 2 * (j % 500) + 1 := by omega
  rw [hk, hm]

/-- The body operation of message `j`: the counter reaches the start of message `j + 1`,
with a rotation when `j + 1` is a multiple of 500. -/
theorem deferred_body (P : Primitives Priv Pub) (c0 : cipherState) (j : Nat) :
    ({ rotations P c0 (j / 500) with nonce := 2 * (j % 500) + 1 } : cipherState).deferred P =
      { rotations P c0 ((j + 1) / 500) with nonce := 2 * ((j + 1) % 500) } := by
  rw [deferred_epoch P c0 _ _ (by omega)]
  have hk : (1000 * (j / 500) + (2 * (j % 500) + 1) + 1) / 1000 = (j + 1) / 500 := by omega
  have hm : (2 * (j % 500) + 1 + 1) % 1000 = 2 * ((j + 1) % 500) := by omega
  rw [hk, hm]

/-- The number of rotations grows by one exactly at a multiple of 500 messages. -/
theorem rotations_step (P : Primitives Priv Pub) (c0 : cipherState) (j : Nat) :
    rotations P c0 ((j + 1) / 500) =
      if (j + 1) % 500 = 0 then (rotations P c0 (j / 500)).rotateKey P
      else rotations P c0 (j / 500) := by
  by_cases h : (j + 1) % 500 = 0
  · have hk : (j + 1) / 500 = j / 500 + 1 := by omega
    rw [if_pos h, hk]; rfl
  · have hk : (j + 1) / 500 = j / 500 := by omega
    rw [if_neg h, hk]

/-- The send cipher after `ps.length` more messages, from the start of message `j`. -/
theorem writeMessages_epoch (P : Primitives Priv Pub) (c0 : cipherState) (ps : List Bytes)
    (hps : ∀ p ∈ ps, p.length ≤ 65535) :
    ∀ (b : Machine Priv Pub) (w : Bytes) (j : Nat),
      b.sendCipher = some { rotations P c0 (j / 500) with nonce := 2 * (j % 500) } →
      ∃ b1 w1, writeMessages P b w ps = some (b1, w1, none) ∧
        b1.sendCipher = some { rotations P c0 ((j + ps.length) / 500) with
          nonce := 2 * ((j + ps.length) % 500) } ∧
        b1.recvCipher = b.recvCipher ∧ b1.tohandshakeState = b.tohandshakeState ∧
        b1.ephemeralGen = b.ephemeralGen := by
  induction ps with
  | nil =>
    intro b w j hb
    exact ⟨b, w, rfl, by simpa using hb, rfl, rfl, rfl⟩
  | cons p ps ih =>
    intro b w j hb
    have hp : p.length ≤ 65535 := hps p (List.mem_cons_self _ _)
    have hw := writeMessage_buffer P b _ w p hb hp
    rw [deferred_header, deferred_body] at hw
    obtain ⟨b1, w1, h1, h2, h3, h4, h5⟩ := ih (fun q hq => hps q (List.mem_cons_of_mem _ hq))
      { b with sendCipher := some { rotations P c0 ((j + 1) / 500) with
          nonce := 2 * ((j + 1) % 500) } } _ (j + 1) rfl
    refine ⟨b1, w1, ?_, ?_, h3, h4, h5⟩
    · simp only [writeMessages, hw]
      exact h1
    · rw [h2, List.length_cons]
      have : j + 1 + ps.length = j + (ps.length + 1) := by omega
      rw [this]

/-- What `split` installs as send cipher has nonce 0. -/
theorem split_sendCipher_nonce (P : Primitives Priv Pub) (b : Machine Priv Pub) :
    ∃ c0, (b.split P).sendCipher = some c0 ∧ c0.nonce = 0 := by
  cases h : b.initiator with
  | true => exact ⟨_, (split_initiator P b h).1, rfl⟩
  | false => exact ⟨_, (split_responder P b h).2, rfl⟩

/-- The cipher of the symmetric state after Act Two: one operation after `mixKey`. -/
theorem symAfterActTwo_cipher (P : Primitives Priv Pub) (s0 : symmetricState)
    (iEph rStatic rEph : Priv) :
    (symAfterActTwo P s0 iEph rStatic rEph).nonce = 1 ∧
    (symAfterActTwo P s0 iEph rStatic rEph).secretKey =
      (((symAfterActOne P s0 iEph rStatic).mixHash P
        (P.serializeCompressed (P.pubKey rEph))).mixKey P (ecdh P (P.pubKey iEph) rEph)).tempKey ∧
    (symAfterActTwo P s0 iEph rStatic rEph).tempKey =
      (symAfterActTwo P s0 iEph rStatic rEph).secretKey := by
  refine ⟨?_, rfl, rfl⟩
  simp [symAfterActTwo, symmetricState.EncryptAndHash, cipherState.Encrypt,
    symmetricState.mixKey, cipherState.InitializeKey, cipherState.deferred,
    symmetricState.mixHash, keyRotationInterval]

end Lemmas

/-! ## Claims -/

section Claims

variable {Priv Pub : Type}

/-- C1: handshake round trip.  For all static keys and all ephemeral keys, with an
initiator created with the responder's static public key, the six acts run in lock-step
return no error, and afterwards the initiator's send cipher equals the responder's
receive cipher and the initiator's receive cipher equals the responder's send cipher
(key, salt and nonce).  Assumed of the libraries: ECDH is symmetric, AEAD open inverts
seal, the tag has 16 bytes, a compressed key has 33 bytes and parses back to itself. -/
theorem handshake_round_trip (P : Primitives Priv Pub) (hser : P.SerializeSize)
    (hseal : P.SealOverhead) (hopen : P.OpenInvertsSeal) (hparse : P.ParseSerialize)
    (hecdh : P.EcdhSymmetric) (iStatic rStatic iEph rEph : Priv) :
    ∃ mi mr t,
      NewBrontideMachine P (.ok iEph) true iStatic (some (P.pubKey rStatic)) [] = some mi ∧
      NewBrontideMachine P (.ok rEph) false rStatic none [] = some mr ∧
      lockStep P mi mr = some t ∧
      t.errors = [none, none, none, none, none, none] ∧
      ∃ k1 k2, t.initiator3.sendCipher = some k1 ∧ t.responder3.recvCipher = some k1 ∧
        t.initiator3.recvCipher = some k2 ∧ t.responder3.sendCipher = some k2 := by
  obtain ⟨mi, hmi, hig, hirs, hii, -, hisym⟩ :=
    newMachine_initiator P (.ok iEph) iStatic (P.pubKey rStatic)
  obtain ⟨mr, hmr, hrg, -, hri, hrl, hrsym⟩ := newMachine_responder P (.ok rEph) rStatic none
  obtain ⟨t, ht, herr, -, -, -, -, hi3, hr3⟩ :=
    lockStep_spec P hser hseal hopen hparse hecdh mi mr iEph rEph hig hrg
      (by rw [hirs, hrl]) (by rw [hisym, hrsym])
  refine ⟨mi, mr, t, hmi, hmr, ht, herr, ?_⟩
  rw [hi3, hr3]
  have h1 := split_initiator P (Machine.withSymmetric
        { mi with localEphemeral := some iEph, remoteEphemeral := some (P.pubKey rEph) }
        (symAfterActThree P mi.tosymmetricState mi.localStatic iEph mr.localStatic rEph)) hii
  have h2 := split_responder P (Machine.withSymmetric
        { mr with remoteEphemeral := some (P.pubKey iEph), localEphemeral := some rEph,
                  remoteStatic := some (P.pubKey mi.localStatic) }
        (symAfterActThree P mi.tosymmetricState mi.localStatic iEph mr.localStatic rEph)) hri
  exact ⟨_, _, h1.1, h2.1, h1.2, h2.2⟩

/-- Witness of C1 on the toy instance: static keys 3 and 5, ephemeral keys 7 and 11. -/
theorem handshake_round_trip_witness :
    ∃ mi mr t,
      NewBrontideMachine toy (.ok 7) true 3 (some (toy.pubKey 5)) [] = some mi ∧
      NewBrontideMachine toy (.ok 11) false 5 none [] = some mr ∧
      lockStep toy mi mr = some t ∧
      t.errors = [none, none, none, none, none, none] ∧
      ∃ k1 k2, t.initiator3.sendCipher = some k1 ∧ t.responder3.recvCipher = some k1 ∧
        t.initiator3.recvCipher = some k2 ∧ t.responder3.sendCipher = some k2 :=
  handshake_round_trip toy toy_serializeSize toy_sealOverhead toy_openInvertsSeal
    toy_parseSerialize toy_ecdhSymmetric 3 5 7 11

/-- C2 (what the code does): when the tag verification of `Decrypt` fails, the error is
returned and the deferred closure still runs: the stored nonce changes, and at nonce
999 the key and the salt are rotated. -/
theorem decrypt_failure_advances_nonce (P : Primitives Priv Pub) (c : cipherState)
    (ad buf ct : Bytes) (err : Error) (hn : c.nonce < 2 ^ 64)
    (hfail : P.aeadOpen c.secretKey (aeadNonce c.nonce) ct ad = .error err) :
    (c.Decrypt P ad buf ct).2 = .error err ∧
    (c.Decrypt P ad buf ct).1.nonce ≠ c.nonce ∧
    (c.nonce + 1 < 1000 → (c.Decrypt P ad buf ct).1 = { c with nonce := c.nonce + 1 }) ∧
    (c.nonce = 999 → (c.Decrypt P ad buf ct).1 = c.rotateKey P) := by
  refine ⟨?_, deferred_nonce_ne P c hn, ?_, ?_⟩
  · simp [cipherState.Decrypt, hfail]
  · intro h
    have h64 : (c.nonce + 1) % 2 ^ 64 = c.nonce + 1 := Nat.mod_eq_of_lt (by norm_num; omega)
    simp only [cipherState.Decrypt, deferred_eq, h64]
    rw [if_neg (by omega)]
  · intro h
    simp only [cipherState.Decrypt, deferred_eq, h]
    rfl

/-- Witness of C2 on the toy instance: a fresh cipher state and an empty ciphertext,
which is shorter than a tag. -/
theorem decrypt_failure_advances_nonce_witness :
    (cipherState.zero.Decrypt toy [] [] []).2 = .error (Error.collaborator 0) ∧
    (cipherState.zero.Decrypt toy [] [] []).1.nonce ≠ cipherState.zero.nonce ∧
    (cipherState.zero.nonce + 1 < 1000 → (cipherState.zero.Decrypt toy [] [] []).1 =
      { cipherState.zero with nonce := cipherState.zero.nonce + 1 }) ∧
    (cipherState.zero.nonce = 999 →
      (cipherState.zero.Decrypt toy [] [] []).1 = cipherState.zero.rotateKey toy) :=
  decrypt_failure_advances_nonce toy cipherState.zero [] [] [] (Error.collaborator 0)
    (by decide) (by decide)

/-- C3: version gate.  For every act payload whose first byte is not 0, `RecvActOne`,
`RecvActTwo` and `RecvActThree` return the version error and the machine they return is the
machine they were called on: digest, chaining key, temp key, cipher key, nonce and remote
keys are unchanged. -/
theorem version_gate (P : Primitives Priv Pub) (b : Machine Priv Pub)
    (actOne actTwo actThree : Bytes)
    (h1 : byteAt actOne 0 ≠ 0) (h2 : byteAt actTwo 0 ≠ 0) (h3 : byteAt actThree 0 ≠ 0) :
    b.RecvActOne P actOne =
      (b, some (Error.invalidVersion "Act One" (byteAt actOne 0) actOne)) ∧
    b.RecvActTwo P actTwo =
      some (b, some (Error.invalidVersion "Act Two" (byteAt actTwo 0) actTwo)) ∧
    b.RecvActThree P actThree =
      some (b, some (Error.invalidVersion "Act Three" (byteAt actThree 0) actThree)) := by
  simp [Machine.RecvActOne, Machine.RecvActTwo, Machine.RecvActThree, HandshakeVersion,
    h1, h2, h3]

/-- Witness of C3 on the toy instance: version byte 1 in each act. -/
theorem version_gate_witness :
    toyPeer.RecvActOne toy (1 :: List.replicate 49 0) =
      (toyPeer, some (Error.invalidVersion "Act One"
        (byteAt (1 :: List.replicate 49 0) 0) (1 :: List.replicate 49 0))) ∧
    toyPeer.RecvActTwo toy (1 :: List.replicate 49 0) =
      some (toyPeer, some (Error.invalidVersion "Act Two"
        (byteAt (1 :: List.replicate 49 0) 0) (1 :: List.replicate 49 0))) ∧
    toyPeer.RecvActThree toy (1 :: List.replicate 65 0) =
      some (toyPeer, some (Error.invalidVersion "Act Three"
        (byteAt (1 :: List.replicate 65 0) 0) (1 :: List.replicate 65 0))) :=
  version_gate toy toyPeer (1 :: List.replicate 49 0) (1 :: List.replicate 49 0)
    (1 :: List.replicate 65 0) (by decide) (by decide) (by decide)

/-- C4: length bound.  A payload of 65536 bytes or more makes `WriteMessage` return
`ErrMaxMessageLengthExceeded` with the machine (so `sendCipher`) and the writer as they
were: nothing is written.  A payload of at most 65535 bytes, on a machine whose send
cipher is installed and a writer that does not fail, returns no error. -/
theorem write_length_bound {σ : Type} (P : Primitives Priv Pub) (b : Machine Priv Pub)
    (write : σ → Bytes → σ × Option Error) (w : σ) (p : Bytes) :
    (65536 ≤ p.length →
      b.WriteMessage P write w p = some (b, w, some Error.ErrMaxMessageLengthExceeded)) ∧
    (p.length ≤ 65535 → (∃ c, b.sendCipher = some c) → (∀ s x, (write s x).2 = none) →
      ∃ b1 w1, b.WriteMessage P write w p = some (b1, w1, none)) := by
  constructor
  · intro h
    have : p.length > MaxUint16 := by simp [MaxUint16]; omega
    simp [Machine.WriteMessage, this]
  · rintro h ⟨c, hc⟩ hw
    have : ¬ p.length > MaxUint16 := by simp [MaxUint16]; omega
    simp [Machine.WriteMessage, this, hc, hw]

/-- Witness of C4 on the toy instance at the boundary: 65536 bytes are rejected, 65535
bytes are written. -/
theorem write_length_bound_witness :
    toyMachine.WriteMessage toy bufferWrite [] (List.replicate 65536 0) =
      some (toyMachine, [], some Error.ErrMaxMessageLengthExceeded) ∧
    ∃ b1 w1, toyMachine.WriteMessage toy bufferWrite [] (List.replicate 65535 0) =
      some (b1, w1, none) :=
  ⟨(write_length_bound toy toyMachine bufferWrite [] (List.replicate 65536 0)).1
      (List.length_replicate 65536 0).ge,
    (write_length_bound toy toyMachine bufferWrite [] (List.replicate 65535 0)).2
      (List.length_replicate 65535 0).le ⟨_, rfl⟩ (fun _ _ => rfl)⟩

/-- C5: record round trip under rotation.  For a writer whose send cipher and a reader
whose receive cipher hold the same key and salt and nonce 0, and every list of payloads
of at most 65535 bytes each (of any length, so across key rotations), writing the
payloads in order into a byte stream and reading as many messages back returns no error
and exactly the payloads, and consumes the stream.  Assumed of the AEAD: open inverts
seal and the tag has 16 bytes. -/
theorem record_round_trip (P : Primitives Priv Pub) (hseal : P.SealOverhead)
    (hopen : P.OpenInvertsSeal) (writer reader : Machine Priv Pub) (key salt : Bytes)
    (hw : writer.sendCipher = some { nonce := 0, secretKey := key, salt := salt })
    (hr : reader.recvCipher = some { nonce := 0, secretKey := key, salt := salt })
    (payloads : List Bytes) (hlen : ∀ p ∈ payloads, p.length ≤ 65535) :
    ∃ writer1 reader1 stream,
      writeMessages P writer [] payloads = some (writer1, stream, none) ∧
      readMessages P reader stream payloads.length = some (reader1, [], .ok payloads) := by
  obtain ⟨bw1, br1, stream, h1, h2, -⟩ :=
    write_read_messages P hseal hopen payloads hlen writer reader _ [] [] hw hr
  refine ⟨bw1, br1, stream, ?_, ?_⟩
  · simpa using h1
  · simpa using h2

/-- Witness of C5 on the toy instance: 1001 messages, more than two rotations of the
key. -/
theorem record_round_trip_witness :
    ∃ writer1 reader1 stream,
      writeMessages toy toyMachine [] (List.replicate 1001 [1, 2, 3]) =
        some (writer1, stream, none) ∧
      readMessages toy toyPeer stream (List.replicate 1001 [1, 2, 3]).length =
        some (reader1, [], .ok (List.replicate 1001 [1, 2, 3])) :=
  record_round_trip toy toy_sealOverhead toy_openInvertsSeal toyMachine toyPeer _ _ rfl rfl
    (List.replicate 1001 [1, 2, 3])
    (fun p hp => by rw [List.eq_of_mem_replicate hp]; decide)

/-- C6: nonce advance and rotation threshold.  `Encrypt` seals, and a successful
`Decrypt` opens, with the current key and the nonce `n` of the state; both leave the same
state: with `n + 1` taken in `uint64`, nonce `n + 1` and key and salt unchanged when
`n + 1` is not 1000, and the state `rotateKey` produces from the old key and salt, with
nonce 0, when `n + 1` is 1000. -/
theorem nonce_advance_and_rotation (P : Primitives Priv Pub) (c : cipherState)
    (ad buf text : Bytes) :
    (c.Encrypt P ad buf text).2 = buf ++ P.aeadSeal c.secretKey (aeadNonce c.nonce) text ad ∧
    (∀ opened, P.aeadOpen c.secretKey (aeadNonce c.nonce) text ad = .ok opened →
      (c.Decrypt P ad buf text).2 = .ok (buf ++ opened)) ∧
    (c.Decrypt P ad buf text).1 = (c.Encrypt P ad buf text).1 ∧
    ((c.nonce + 1) % 2 ^ 64 ≠ 1000 →
      (c.Encrypt P ad buf text).1 = { c with nonce := (c.nonce + 1) % 2 ^ 64 }) ∧
    ((c.nonce + 1) % 2 ^ 64 = 1000 →
      (c.Encrypt P ad buf text).1 = c.rotateKey P ∧ (c.rotateKey P).nonce = 0) ∧
    (c.nonce + 1 < 2 ^ 64 → (c.nonce + 1) % 2 ^ 64 = c.nonce + 1) := by
  refine ⟨rfl, ?_, rfl, ?_, ?_, ?_⟩
  · intro opened h
    simp [cipherState.Decrypt, h]
  · intro h
    simp only [cipherState.Encrypt, deferred_eq, if_neg h]
  · intro h
    simp only [cipherState.Encrypt, deferred_eq, if_pos h, rotateKey_eq, and_self]
  · intro h
    exact Nat.mod_eq_of_lt h

/-- C7: the nonce never repeats under one installed key.  From a cipher state fresh out
of `InitializeKey`, after any `j` operations (`Encrypt` or `Decrypt`, failed ones too) the
stored nonce is `j % 1000`, below 1000, and key and salt are those after `j / 1000`
rotations; so operation number `j` seals or opens with the key of installation `j / 1000`
and nonce `j % 1000`, and two operations under the same installation use different
nonces. -/
theorem nonce_never_repeats (P : Primitives Priv Pub) (c : cipherState) (key : Bytes)
    (ops : List CipherOp) :
    (∀ j, j ≤ ops.length →
      (runOps P (c.InitializeKey key) (ops.take j)).nonce = j % 1000 ∧
      (runOps P (c.InitializeKey key) (ops.take j)).nonce < 1000 ∧
      (runOps P (c.InitializeKey key) (ops.take j)).secretKey =
        (rotations P (c.InitializeKey key) (j / 1000)).secretKey ∧
      (runOps P (c.InitializeKey key) (ops.take j)).salt =
        (rotations P (c.InitializeKey key) (j / 1000)).salt ∧
      (∀ ad buf text, ((runOps P (c.InitializeKey key) (ops.take j)).Encrypt P ad buf text).2 =
        buf ++ P.aeadSeal (rotations P (c.InitializeKey key) (j / 1000)).secretKey
          (aeadNonce (j % 1000)) text ad)) ∧
    (∀ i j, i < j → j ≤ ops.length → i / 1000 = j / 1000 →
      (runOps P (c.InitializeKey key) (ops.take i)).nonce ≠
        (runOps P (c.InitializeKey key) (ops.take j)).nonce) := by
  have hst : ∀ j, j ≤ ops.length →
      runOps P (c.InitializeKey key) (ops.take j) =
        { rotations P (c.InitializeKey key) (j / 1000) with nonce := j % 1000 } := by
    intro j hj
    have := runOps_fresh P (c.InitializeKey key) rfl (ops.take j)
    rwa [List.length_take, Nat.min_eq_left hj] at this
  constructor
  · intro j hj
    rw [hst j hj]
    exact ⟨rfl, Nat.mod_lt _ (by norm_num), rfl, rfl, fun _ _ _ => rfl⟩
  · intro i j hij hj hq
    rw [hst j hj, hst i (by omega)]
    simp only [ne_eq]
    omega

/-- C8: AEAD nonce layout.  For every counter value `n` the nonce `Encrypt` and
`Decrypt` pass to the AEAD has 12 bytes: 4 zero bytes followed by the 8-byte little-endian
encoding of `n`; byte 4 is the least significant byte of `n` and the last 8 bytes decode
to `n` (its low 64 bits). -/
theorem aead_nonce_layout (n : Nat) :
    (aeadNonce n).length = 12 ∧
    (aeadNonce n).take 4 = [0, 0, 0, 0] ∧
    (aeadNonce n).drop 4 = littleEndian 8 n ∧
    byteAt (aeadNonce n) 4 = n % 256 ∧
    littleEndianValue ((aeadNonce n).drop 4) = n % 2 ^ 64 ∧
    (∀ (P : Primitives Priv Pub) (c : cipherState) (ad buf text : Bytes),
      (c.Encrypt P ad buf text).2 = buf ++ P.aeadSeal c.secretKey (aeadNonce c.nonce) text ad ∧
      (c.Decrypt P ad buf text).2 =
        match P.aeadOpen c.secretKey (aeadNonce c.nonce) text ad with
        | .ok opened => .ok (buf ++ opened)
        | .error err => .error err) := by
  have h : aeadNonce n = [0, 0, 0, 0] ++ littleEndian 8 n := by
    simp only [aeadNonce]
    rw [show List.drop 4 (List.replicate 12 0) = List.replicate 8 0 from by decide, putUint64_eq]
    rfl
  refine ⟨?_, ?_, ?_, ?_, ?_, ?_⟩
  · rw [h]; simp [littleEndian]
  · rw [h]; simp
  · rw [h]; simp
  · rw [h]; simp [byteAt, littleEndian]
  · rw [h, show List.drop 4 ([0, 0, 0, 0] ++ littleEndian 8 n) = littleEndian 8 n from rfl,
      littleEndianValue_littleEndian]
    norm_num
  · intro P c ad buf text
    exact ⟨rfl, rfl⟩

/-- C9: key rotation derivation.  `rotateKey` on key `k` and salt `s` yields as salt
bytes 0..31 and as key bytes 32..63 of the HKDF-SHA256 stream with input keying material
`k`, salt `s` and empty info; the nonce is 0 and the next seal runs under the new key. -/
theorem rotateKey_derivation (P : Primitives Priv Pub) (c : cipherState) :
    (c.rotateKey P).salt = hkdfBytes P c.secretKey c.salt [] 0 32 ∧
    (c.rotateKey P).secretKey = hkdfBytes P c.secretKey c.salt [] 32 32 ∧
    (c.rotateKey P).nonce = 0 ∧
    (c.rotateKey P).salt.length = 32 ∧ (c.rotateKey P).secretKey.length = 32 ∧
    (∀ i, i < 32 → byteAt (c.rotateKey P).salt i = P.hkdf c.secretKey c.salt [] i ∧
      byteAt (c.rotateKey P).secretKey i = P.hkdf c.secretKey c.salt [] (32 + i)) ∧
    (∀ ad buf text, ((c.rotateKey P).Encrypt P ad buf text).2 =
      buf ++ P.aeadSeal (hkdfBytes P c.secretKey c.salt [] 32 32) (aeadNonce 0) text ad) := by
  rw [rotateKey_eq]
  refine ⟨rfl, rfl, rfl, ?_, ?_, ?_, ?_⟩
  · simp [hkdfBytes]
  · simp [hkdfBytes]
  · intro i hi
    simp [byteAt, hkdfBytes, List.getD_eq_getElem?_getD, List.getElem?_map, List.getElem?_range', hi]
  · intro ad buf text
    rfl

/-- C10: `mixKey` ratchet.  `mixKey(d)` on chaining key `ck` sets `chainingKey` to bytes
0..31 and `tempKey` to bytes 32..63 of HKDF-SHA256 with input keying material `d`, salt
`ck` and empty info, installs `tempKey` as the cipher key with nonce 0 and leaves
`handshakeDigest` and the cipher salt unchanged. -/
theorem mixKey_ratchet (P : Primitives Priv Pub) (s : symmetricState) (d : Bytes) :
    (s.mixKey P d).chainingKey = hkdfBytes P d s.chainingKey [] 0 32 ∧
    (s.mixKey P d).tempKey = hkdfBytes P d s.chainingKey [] 32 32 ∧
    (s.mixKey P d).secretKey = (s.mixKey P d).tempKey ∧
    (s.mixKey P d).nonce = 0 ∧
    (s.mixKey P d).handshakeDigest = s.handshakeDigest ∧
    (s.mixKey P d).salt = s.salt ∧
    (∀ i, i < 32 → byteAt (s.mixKey P d).chainingKey i = P.hkdf d s.chainingKey [] i ∧
      byteAt (s.mixKey P d).tempKey i = P.hkdf d s.chainingKey [] (32 + i)) := by
  refine ⟨rfl, rfl, rfl, rfl, rfl, rfl, ?_⟩
  intro i hi
  simp [symmetricState.mixKey, hkdfNew, hkdfReader.Read, byteAt, List.getD_eq_getElem?_getD,
    List.getElem?_map, List.getElem?_range', hi]

/-- C11: `mixHash` definition and frame.  For every symmetric state with (32-byte) digest
`h` and every `data`, `mixHash(data)` sets `handshakeDigest` to SHA-256(`h || data`) and
leaves `chainingKey`, `tempKey` and the cipher's key, salt and nonce unchanged. -/
theorem mixHash_definition_and_frame (P : Primitives Priv Pub) (hsha : P.DigestSize)
    (s : symmetricState) (data : Bytes) (hd : s.handshakeDigest.length = 32) :
    (s.mixHash P data).handshakeDigest = P.sha256 (s.handshakeDigest ++ data) ∧
    (s.mixHash P data).chainingKey = s.chainingKey ∧
    (s.mixHash P data).tempKey = s.tempKey ∧
    (s.mixHash P data).secretKey = s.secretKey ∧
    (s.mixHash P data).salt = s.salt ∧
    (s.mixHash P data).nonce = s.nonce := by
  rw [mixHash_eq P hsha s data hd]
  exact ⟨rfl, rfl, rfl, rfl, rfl, rfl⟩

/-- Witness of C11 on the toy instance: the zero symmetric state and data `[1, 2]`. -/
theorem mixHash_definition_and_frame_witness :
    (symmetricState.zero.mixHash toy [1, 2]).handshakeDigest =
      toy.sha256 (symmetricState.zero.handshakeDigest ++ [1, 2]) ∧
    (symmetricState.zero.mixHash toy [1, 2]).chainingKey = symmetricState.zero.chainingKey ∧
    (symmetricState.zero.mixHash toy [1, 2]).tempKey = symmetricState.zero.tempKey ∧
    (symmetricState.zero.mixHash toy [1, 2]).secretKey = symmetricState.zero.secretKey ∧
    (symmetricState.zero.mixHash toy [1, 2]).salt = symmetricState.zero.salt ∧
    (symmetricState.zero.mixHash toy [1, 2]).nonce = symmetricState.zero.nonce :=
  mixHash_definition_and_frame toy toy_digestSize symmetricState.zero [1, 2] (by decide)

/-- C12: `EncryptAndHash`.  For digest `h`, key `k`, nonce `n` and plaintext `p` the
result is `c` = seal(`k`, `n`, `p`, associated data `h`) with `h` the digest before the
call, and afterwards `handshakeDigest` is SHA-256(`h || c`). -/
theorem encryptAndHash_spec (P : Primitives Priv Pub) (hsha : P.DigestSize)
    (s : symmetricState) (p : Bytes) (hd : s.handshakeDigest.length = 32) :
    (s.EncryptAndHash P p).2 =
      P.aeadSeal s.secretKey (aeadNonce s.nonce) p s.handshakeDigest ∧
    (s.EncryptAndHash P p).1.handshakeDigest =
      P.sha256 (s.handshakeDigest ++ (s.EncryptAndHash P p).2) := by
  constructor
  · simp [symmetricState.EncryptAndHash, cipherState.Encrypt]
  · simp only [symmetricState.EncryptAndHash]
    rw [mixHash_eq P hsha]
    exact hd

/-- Witness of C12 on the toy instance: the zero symmetric state and plaintext `[7]`. -/
theorem encryptAndHash_spec_witness :
    (symmetricState.zero.EncryptAndHash toy [7]).2 =
      toy.aeadSeal symmetricState.zero.secretKey (aeadNonce symmetricState.zero.nonce) [7]
        symmetricState.zero.handshakeDigest ∧
    (symmetricState.zero.EncryptAndHash toy [7]).1.handshakeDigest =
      toy.sha256 (symmetricState.zero.handshakeDigest ++
        (symmetricState.zero.EncryptAndHash toy [7]).2) :=
  encryptAndHash_spec toy toy_digestSize symmetricState.zero [7] (by decide)

/-- C13: `DecryptAndHash` mirror.  The ciphertext `c` is opened with the digest `h` as
associated data; when the tag verifies the plaintext is returned and the digest becomes
SHA-256(`h || c`); when it does not, the error is returned and the digest remains `h`. -/
theorem decryptAndHash_mirror (P : Primitives Priv Pub) (hsha : P.DigestSize)
    (s : symmetricState) (c : Bytes) (hd : s.handshakeDigest.length = 32) :
    (∀ p, P.aeadOpen s.secretKey (aeadNonce s.nonce) c s.handshakeDigest = .ok p →
      (s.DecryptAndHash P c).2 = .ok p ∧
      (s.DecryptAndHash P c).1.handshakeDigest = P.sha256 (s.handshakeDigest ++ c)) ∧
    (∀ err, P.aeadOpen s.secretKey (aeadNonce s.nonce) c s.handshakeDigest = .error err →
      (s.DecryptAndHash P c).2 = .error err ∧
      (s.DecryptAndHash P c).1.handshakeDigest = s.handshakeDigest) := by
  constructor
  · intro p h
    simp only [symmetricState.DecryptAndHash, cipherState.Decrypt, h, List.nil_append]
    rw [mixHash_eq P hsha]
    · exact ⟨trivial, rfl⟩
    · exact hd
  · intro err h
    simp only [symmetricState.DecryptAndHash, cipherState.Decrypt, h, and_self]

/-- Witness of C13 on the toy instance: the zero symmetric state and the 16-byte
ciphertext that seals the empty payload. -/
theorem decryptAndHash_mirror_witness :
    (∀ p, toy.aeadOpen symmetricState.zero.secretKey (aeadNonce symmetricState.zero.nonce)
        (symmetricState.zero.EncryptAndHash toy []).2 symmetricState.zero.handshakeDigest
          = .ok p →
      (symmetricState.zero.DecryptAndHash toy (symmetricState.zero.EncryptAndHash toy []).2).2
          = .ok p ∧
      (symmetricState.zero.DecryptAndHash toy
          (symmetricState.zero.EncryptAndHash toy []).2).1.handshakeDigest =
        toy.sha256 (symmetricState.zero.handshakeDigest ++
          (symmetricState.zero.EncryptAndHash toy []).2)) ∧
    (∀ err, toy.aeadOpen symmetricState.zero.secretKey (aeadNonce symmetricState.zero.nonce)
        (symmetricState.zero.EncryptAndHash toy []).2 symmetricState.zero.handshakeDigest
          = .error err →
      (symmetricState.zero.DecryptAndHash toy (symmetricState.zero.EncryptAndHash toy []).2).2
          = .error err ∧
      (symmetricState.zero.DecryptAndHash toy
          (symmetricState.zero.EncryptAndHash toy []).2).1.handshakeDigest =
        symmetricState.zero.handshakeDigest) :=
  decryptAndHash_mirror toy toy_digestSize symmetricState.zero
    (symmetricState.zero.EncryptAndHash toy []).2 (by decide)

/-- C14: handshake initialisation.  For every responder static key `R`, the initiator
created with `remotePub = pub(R)` and the responder created with local key `R` start
with equal symmetric states: chaining key SHA-256(protocolName), cipher key 32 zero
bytes, nonce 0 and digest
SHA-256(SHA-256(SHA-256(protocolName) || "lightning") || compressed(pub(R))). -/
theorem handshake_initialisation (P : Primitives Priv Pub) (hsha : P.DigestSize)
    (gi gr : Except Error Priv) (iStatic rStatic : Priv) :
    ∃ mi mr,
      NewBrontideMachine P gi true iStatic (some (P.pubKey rStatic)) [] = some mi ∧
      NewBrontideMachine P gr false rStatic none [] = some mr ∧
      mi.tosymmetricState = mr.tosymmetricState ∧
      mi.chainingKey = P.sha256 protocolName ∧
      mi.secretKey = List.replicate 32 0 ∧
      mi.nonce = 0 ∧
      mi.handshakeDigest =
        P.sha256 (P.sha256 (P.sha256 protocolName ++ asciiBytes "lightning") ++
          P.serializeCompressed (P.pubKey rStatic)) := by
  obtain ⟨mi, hmi, -, -, -, -, hisym⟩ := newMachine_initiator P gi iStatic (P.pubKey rStatic)
  obtain ⟨mr, hmr, -, -, -, -, hrsym⟩ := newMachine_responder P gr rStatic none
  rw [initial_symmetric P hsha] at hisym hrsym
  refine ⟨mi, mr, hmi, hmr, by rw [hisym, hrsym], ?_, ?_, ?_, ?_⟩
  · show mi.tosymmetricState.chainingKey = _
    rw [hisym]
  · show mi.tosymmetricState.secretKey = _
    rw [hisym]
  · show mi.tosymmetricState.nonce = _
    rw [hisym]
  · show mi.tosymmetricState.handshakeDigest = _
    rw [hisym]; rfl

/-- Witness of C14 on the toy instance: initiator key 3, responder key 5. -/
theorem handshake_initialisation_witness :
    ∃ mi mr,
      NewBrontideMachine toy (.ok 7) true 3 (some (toy.pubKey 5)) [] = some mi ∧
      NewBrontideMachine toy (.ok 11) false 5 none [] = some mr ∧
      mi.tosymmetricState = mr.tosymmetricState ∧
      mi.chainingKey = toy.sha256 protocolName ∧
      mi.secretKey = List.replicate 32 0 ∧
      mi.nonce = 0 ∧
      mi.handshakeDigest =
        toy.sha256 (toy.sha256 (toy.sha256 protocolName ++ asciiBytes "lightning") ++
          toy.serializeCompressed (toy.pubKey 5)) :=
  handshake_initialisation toy toy_digestSize (.ok 7) (.ok 11) 3 5

/-- C15: split key assignment.  With `K1` bytes 0..31 and `K2` bytes 32..63 of
HKDF-SHA256(ikm = empty, salt = chaining key, info = empty), `split` gives the initiator
send key `K1` and receive key `K2`, and the responder receive key `K1` and send key `K2`;
both ciphers have the chaining key as salt and nonce 0, and the handshake state is not
changed. -/
theorem split_key_assignment (P : Primitives Priv Pub) (b : Machine Priv Pub) :
    (b.initiator = true →
      (b.split P).sendCipher = some
        { nonce := 0, secretKey := hkdfBytes P [] b.chainingKey [] 0 32,
          salt := b.chainingKey } ∧
      (b.split P).recvCipher = some
        { nonce := 0, secretKey := hkdfBytes P [] b.chainingKey [] 32 32,
          salt := b.chainingKey }) ∧
    (b.initiator = false →
      (b.split P).recvCipher = some
        { nonce := 0, secretKey := hkdfBytes P [] b.chainingKey [] 0 32,
          salt := b.chainingKey } ∧
      (b.split P).sendCipher = some
        { nonce := 0, secretKey := hkdfBytes P [] b.chainingKey [] 32 32,
          salt := b.chainingKey }) ∧
    (hkdfBytes P [] b.chainingKey [] 0 32).length = 32 ∧
    (hkdfBytes P [] b.chainingKey [] 32 32).length = 32 ∧
    (∀ i, i < 32 →
      byteAt (hkdfBytes P [] b.chainingKey [] 0 32) i = P.hkdf [] b.chainingKey [] i ∧
      byteAt (hkdfBytes P [] b.chainingKey [] 32 32) i = P.hkdf [] b.chainingKey [] (32 + i)) ∧
    (b.split P).tohandshakeState = b.tohandshakeState := by
  refine ⟨split_initiator P b, split_responder P b, ?_, ?_, ?_, ?_⟩
  · simp [hkdfBytes]
  · simp [hkdfBytes]
  · intro i hi
    simp [byteAt, hkdfBytes, List.getD_eq_getElem?_getD, List.getElem?_map,
      List.getElem?_range', hi]
  · unfold Machine.split
    split <;> rfl

/-- C16: Act One / Act Two wire layout.  Every `GenActOne` or `GenActTwo` call that
returns no error returns 50 bytes: byte 0 is 0, bytes 1..33 are the 33-byte compressed
serialization of the public key of the freshly generated local ephemeral key, bytes
34..49 are the 16-byte seal of the empty payload under the new temp key, nonce 0, with
the digest after hashing that key as associated data. -/
theorem act_one_two_layout (P : Primitives Priv Pub) (hser : P.SerializeSize)
    (hseal : P.SealOverhead) (b b1 : Machine Priv Pub) (act : Bytes) :
    (b.GenActOne P = some (b1, act, none) →
      act.length = 50 ∧ byteAt act 0 = 0 ∧
      ∃ e, b.ephemeralGen = .ok e ∧ b1.localEphemeral = some e ∧
        (act.take 34).drop 1 = P.serializeCompressed (P.pubKey e) ∧
        (P.serializeCompressed (P.pubKey e)).length = 33 ∧
        act.drop 34 = P.aeadSeal b1.tempKey (aeadNonce 0) []
          (b.tosymmetricState.mixHash P (P.serializeCompressed (P.pubKey e))).handshakeDigest ∧
        (act.drop 34).length = 16) ∧
    (b.GenActTwo P = some (b1, act, none) →
      act.length = 50 ∧ byteAt act 0 = 0 ∧
      ∃ e, b.ephemeralGen = .ok e ∧ b1.localEphemeral = some e ∧
        (act.take 34).drop 1 = P.serializeCompressed (P.pubKey e) ∧
        (P.serializeCompressed (P.pubKey e)).length = 33 ∧
        act.drop 34 = P.aeadSeal b1.tempKey (aeadNonce 0) []
          (b.tosymmetricState.mixHash P (P.serializeCompressed (P.pubKey e))).handshakeDigest ∧
        (act.drop 34).length = 16) := by
  constructor
  · intro h
    cases hg : b.ephemeralGen with
    | error err => simp [Machine.GenActOne, hg] at h
    | ok e =>
      cases hr : b.remoteStatic with
      | none => simp [Machine.GenActOne, hg, hr] at h
      | some rs =>
        rw [genActOne_eq P hser hseal b e rs hg hr] at h
        simp only [Option.some.injEq, Prod.mk.injEq, and_true] at h
        obtain ⟨hb, ha⟩ := h
        have hf := act_fields 33 (P.serializeCompressed (P.pubKey e))
          (((b.tosymmetricState.mixHash P (P.serializeCompressed (P.pubKey e))).mixKey P
            (ecdh P rs e)).EncryptAndHash P []).2 (hser _)
        have hl := encryptAndHash_length P hseal
          ((b.tosymmetricState.mixHash P (P.serializeCompressed (P.pubKey e))).mixKey P
            (ecdh P rs e)) []
        subst ha hb
        refine ⟨?_, rfl, e, rfl, rfl, hf.1, hser _, ?_, ?_⟩
        · rw [act_length 33 _ _ (hser _) _ hl]; rfl
        · rw [hf.2, encryptAndHash_after_mixKey]; rfl
        · rw [hf.2, hl]; rfl
  · intro h
    cases hg : b.ephemeralGen with
    | error err => simp [Machine.GenActTwo, hg] at h
    | ok e =>
      cases hr : b.remoteEphemeral with
      | none => simp [Machine.GenActTwo, hg, hr] at h
      | some re =>
        rw [genActTwo_eq P hser hseal b e re hg hr] at h
        simp only [Option.some.injEq, Prod.mk.injEq, and_true] at h
        obtain ⟨hb, ha⟩ := h
        have hf := act_fields 33 (P.serializeCompressed (P.pubKey e))
          (((b.tosymmetricState.mixHash P (P.serializeCompressed (P.pubKey e))).mixKey P
            (ecdh P re e)).EncryptAndHash P []).2 (hser _)
        have hl := encryptAndHash_length P hseal
          ((b.tosymmetricState.mixHash P (P.serializeCompressed (P.pubKey e))).mixKey P
            (ecdh P re e)) []
        subst ha hb
        refine ⟨?_, rfl, e, rfl, rfl, hf.1, hser _, ?_, ?_⟩
        · rw [act_length 33 _ _ (hser _) _ hl]; rfl
        · rw [hf.2, encryptAndHash_after_mixKey]; rfl
        · rw [hf.2, hl]; rfl

/-- Witness of C16 on the toy instance: `GenActOne` of `toyInitiator` returns no error
and the layout holds for what it returns. -/
theorem act_one_two_layout_witness :
    ∃ b1 act, toyInitiator.GenActOne toy = some (b1, act, none) ∧
      act.length = 50 ∧ byteAt act 0 = 0 ∧
      ∃ e, toyInitiator.ephemeralGen = .ok e ∧ b1.localEphemeral = some e ∧
        (act.take 34).drop 1 = toy.serializeCompressed (toy.pubKey e) ∧
        (toy.serializeCompressed (toy.pubKey e)).length = 33 ∧
        act.drop 34 = toy.aeadSeal b1.tempKey (aeadNonce 0) []
          (toyInitiator.tosymmetricState.mixHash toy
            (toy.serializeCompressed (toy.pubKey e))).handshakeDigest ∧
        (act.drop 34).length = 16 :=
  ⟨_, _, rfl, (act_one_two_layout toy toy_serializeSize toy_sealOverhead toyInitiator _ _).1 rfl⟩

/-- C17: Act Three wire layout.  Every `GenActThree` call that returns, returns no error
and 66 bytes: byte 0 is 0, bytes 1..49 are the 49-byte seal of the initiator's 33-byte
compressed static public key under the current key, nonce and digest, bytes 50..65 are
the 16-byte seal of the empty payload under the temp key of the final (`se`) `mixKey`,
nonce 0. -/
theorem act_three_layout (P : Primitives Priv Pub) (hser : P.SerializeSize)
    (hseal : P.SealOverhead) (b b1 : Machine Priv Pub) (act : Bytes) (err : Option Error)
    (h : b.GenActThree P = some (b1, act, err)) :
    err = none ∧ act.length = 66 ∧ byteAt act 0 = 0 ∧
    (act.take 50).drop 1 =
      P.aeadSeal b.secretKey (aeadNonce b.nonce)
        (P.serializeCompressed (P.pubKey b.localStatic)) b.handshakeDigest ∧
    ((act.take 50).drop 1).length = 49 ∧
    (∃ re, b.remoteEphemeral = some re ∧
      b1.tempKey = hkdfBytes P (ecdh P re b.localStatic) b.chainingKey [] 32 32) ∧
    act.drop 50 = P.aeadSeal b1.tempKey (aeadNonce 0) []
      (b.tosymmetricState.EncryptAndHash P
        (P.serializeCompressed (P.pubKey b.localStatic))).1.handshakeDigest ∧
    (act.drop 50).length = 16 := by
  cases hr : b.remoteEphemeral with
  | none => simp [Machine.GenActThree, hr] at h
  | some re =>
    rw [genActThree_eq P hser hseal b re hr] at h
    simp only [Option.some.injEq, Prod.mk.injEq] at h
    obtain ⟨hb, ha, he⟩ := h
    have hc : (b.tosymmetricState.EncryptAndHash P
        (P.serializeCompressed (P.pubKey b.localStatic))).2.length = 49 := by
      rw [encryptAndHash_length P hseal, hser]
    have hf := act_fields 49 _
      (((b.tosymmetricState.EncryptAndHash P
        (P.serializeCompressed (P.pubKey b.localStatic))).1.mixKey P
          (ecdh P re b.localStatic)).EncryptAndHash P []).2 hc
    have hl := encryptAndHash_length P hseal
      ((b.tosymmetricState.EncryptAndHash P
        (P.serializeCompressed (P.pubKey b.localStatic))).1.mixKey P
          (ecdh P re b.localStatic)) []
    subst ha hb he
    refine ⟨rfl, ?_, rfl, ?_, ?_, ⟨re, rfl, ?_⟩, ?_, ?_⟩
    · rw [act_length 49 _ _ hc _ hl]; rfl
    · rw [hf.1, encryptAndHash_ciphertext]
    · rw [hf.1, hc]
    · unfold Machine.split
      split <;> rfl
    · rw [hf.2, encryptAndHash_after_mixKey]
      unfold Machine.split
      split <;> rfl
    · rw [hf.2, hl]; rfl

/-- Witness of C17 on the toy instance: `GenActThree` of `toyInitiatorTwo`. -/
theorem act_three_layout_witness :
    ∃ b1 act err, toyInitiatorTwo.GenActThree toy = some (b1, act, err) ∧
      err = none ∧ act.length = 66 ∧ byteAt act 0 = 0 ∧
      (act.take 50).drop 1 =
        toy.aeadSeal toyInitiatorTwo.secretKey (aeadNonce toyInitiatorTwo.nonce)
          (toy.serializeCompressed (toy.pubKey toyInitiatorTwo.localStatic))
          toyInitiatorTwo.handshakeDigest ∧
      ((act.take 50).drop 1).length = 49 ∧
      (∃ re, toyInitiatorTwo.remoteEphemeral = some re ∧
        b1.tempKey = hkdfBytes toy (ecdh toy re toyInitiatorTwo.localStatic)
          toyInitiatorTwo.chainingKey [] 32 32) ∧
      act.drop 50 = toy.aeadSeal b1.tempKey (aeadNonce 0) []
        (toyInitiatorTwo.tosymmetricState.EncryptAndHash toy
          (toy.serializeCompressed (toy.pubKey toyInitiatorTwo.localStatic))).1.handshakeDigest ∧
      (act.drop 50).length = 16 :=
  ⟨_, _, _, rfl,
    act_three_layout toy toy_serializeSize toy_sealOverhead toyInitiatorTwo _ _ _ rfl⟩

/-- C18: record wire format.  For a payload `p` of at most 65535 bytes, on a machine
whose send cipher is installed and a writer that does not fail, `WriteMessage` writes
first the seal, with empty associated data, of the 2-byte big-endian encoding of `len(p)`
(18 bytes) and then the seal, with empty associated data, of `p` (`len(p) + 16` bytes),
in two consecutive operations of the send cipher: 18 + `len(p)` + 16 bytes in all.  The
two length bytes decode back to `len(p)`. -/
theorem record_wire_format {σ : Type} (P : Primitives Priv Pub) (hseal : P.SealOverhead)
    (b : Machine Priv Pub) (c : cipherState) (write : σ → Bytes → σ × Option Error) (w : σ)
    (stream p : Bytes) (hc : b.sendCipher = some c) (hp : p.length ≤ 65535)
    (hw : ∀ s x, (write s x).2 = none) :
    b.WriteMessage P write w p =
      some ({ b with sendCipher := some ((c.deferred P).deferred P) },
        (write (write w (P.aeadSeal c.secretKey (aeadNonce c.nonce)
            [p.length / 256, p.length % 256] [])).1
          (P.aeadSeal (c.Encrypt P [] [] [p.length / 256, p.length % 256]).1.secretKey
            (aeadNonce (c.Encrypt P [] [] [p.length / 256, p.length % 256]).1.nonce) p [])).1,
        none) ∧
    b.WriteMessage P bufferWrite stream p =
      some ({ b with sendCipher := some ((c.deferred P).deferred P) },
        stream ++ P.aeadSeal c.secretKey (aeadNonce c.nonce)
            [p.length / 256, p.length % 256] [] ++
          P.aeadSeal (c.deferred P).secretKey (aeadNonce (c.deferred P).nonce) p [],
        none) ∧
    (P.aeadSeal c.secretKey (aeadNonce c.nonce) [p.length / 256, p.length % 256] []).length
      = 18 ∧
    (P.aeadSeal (c.deferred P).secretKey (aeadNonce (c.deferred P).nonce) p []).length
      = p.length + 16 ∧
    (P.aeadSeal c.secretKey (aeadNonce c.nonce) [p.length / 256, p.length % 256] [] ++
      P.aeadSeal (c.deferred P).secretKey (aeadNonce (c.deferred P).nonce) p []).length
      = 18 + p.length + 16 ∧
    PutUint16BE (List.replicate 2 0) (p.length % 2 ^ 16) = [p.length / 256, p.length % 256] ∧
    Uint16BE [p.length / 256, p.length % 256] = some p.length := by
  have hput := putUint16_bytes p.length hp
  have hh : (P.aeadSeal c.secretKey (aeadNonce c.nonce)
      [p.length / 256, p.length % 256] []).length = 18 := by
    rw [hseal]; rfl
  have hb : (P.aeadSeal (c.deferred P).secretKey (aeadNonce (c.deferred P).nonce) p []).length
      = p.length + 16 := by
    rw [hseal]; rfl
  refine ⟨?_, ?_, hh, hb, ?_, hput, ?_⟩
  · rw [writeMessage_eq P b c write w p hc hp hw, hput]
    rfl
  · rw [writeMessage_buffer P b c stream p hc hp, hput]
  · rw [List.length_append, hh, hb]; omega
  · rw [← hput]; exact uint16_round_trip p.length hp

/-- Witness of C18 on the toy instance: `toyMachine` writes the payload `[1, 2, 3]`. -/
theorem record_wire_format_witness :
    toyMachine.WriteMessage toy bufferWrite [] [1, 2, 3] =
      some ({ toyMachine with sendCipher := some ((toyCipher.deferred toy).deferred toy) },
        (bufferWrite (bufferWrite [] (toy.aeadSeal toyCipher.secretKey (aeadNonce toyCipher.nonce)
            [[1, 2, 3].length / 256, [1, 2, 3].length % 256] [])).1
          (toy.aeadSeal
            (toyCipher.Encrypt toy [] [] [[1, 2, 3].length / 256, [1, 2, 3].length % 256]).1.secretKey
            (aeadNonce
              (toyCipher.Encrypt toy [] [] [[1, 2, 3].length / 256, [1, 2, 3].length % 256]).1.nonce)
            [1, 2, 3] [])).1,
        none) ∧
    toyMachine.WriteMessage toy bufferWrite [] [1, 2, 3] =
      some ({ toyMachine with sendCipher := some ((toyCipher.deferred toy).deferred toy) },
        [] ++ toy.aeadSeal toyCipher.secretKey (aeadNonce toyCipher.nonce)
            [[1, 2, 3].length / 256, [1, 2, 3].length % 256] [] ++
          toy.aeadSeal (toyCipher.deferred toy).secretKey
            (aeadNonce (toyCipher.deferred toy).nonce) [1, 2, 3] [],
        none) ∧
    (toy.aeadSeal toyCipher.secretKey (aeadNonce toyCipher.nonce)
      [[1, 2, 3].length / 256, [1, 2, 3].length % 256] []).length = 18 ∧
    (toy.aeadSeal (toyCipher.deferred toy).secretKey
      (aeadNonce (toyCipher.deferred toy).nonce) [1, 2, 3] []).length = [1, 2, 3].length + 16 ∧
    (toy.aeadSeal toyCipher.secretKey (aeadNonce toyCipher.nonce)
        [[1, 2, 3].length / 256, [1, 2, 3].length % 256] [] ++
      toy.aeadSeal (toyCipher.deferred toy).secretKey
        (aeadNonce (toyCipher.deferred toy).nonce) [1, 2, 3] []).length
      = 18 + [1, 2, 3].length + 16 ∧
    PutUint16BE (List.replicate 2 0) ([1, 2, 3].length % 2 ^ 16) =
      [[1, 2, 3].length / 256, [1, 2, 3].length % 256] ∧
    Uint16BE [[1, 2, 3].length / 256, [1, 2, 3].length % 256] = some [1, 2, 3].length :=
  record_wire_format toy toy_sealOverhead toyMachine toyCipher bufferWrite [] [] [1, 2, 3]
    rfl (by decide) (fun _ _ => rfl)

/-- C19 (what the code does): the body of a record is sealed by `WriteMessage` and
opened by `ReadMessage` with empty associated data; the encrypted length prefix is not
the associated data of the body. -/
theorem body_associated_data_is_empty (P : Primitives Priv Pub) (bw br : Machine Priv Pub)
    (cw cr : cipherState) (w p hdr body rest lenBytes : Bytes) (L : Nat)
    (hcw : bw.sendCipher = some cw) (hp : p.length ≤ 65535)
    (hcr : br.recvCipher = some cr) (hh : hdr.length = 18)
    (ho : P.aeadOpen cr.secretKey (aeadNonce cr.nonce) hdr [] = .ok lenBytes)
    (hL : Uint16BE lenBytes = some L) (hL2 : L ≤ 65535) (hb : body.length = L + 16) :
    bw.WriteMessage P bufferWrite w p =
      some ({ bw with sendCipher := some ((cw.deferred P).deferred P) },
        w ++ P.aeadSeal cw.secretKey (aeadNonce cw.nonce)
            (PutUint16BE (List.replicate 2 0) (p.length % 2 ^ 16)) [] ++
          P.aeadSeal (cw.deferred P).secretKey (aeadNonce (cw.deferred P).nonce) p [],
        none) ∧
    br.ReadMessage P bufferReadFull (hdr ++ (body ++ rest)) =
      some ({ br with recvCipher := some ((cr.deferred P).deferred P) }, rest,
        match P.aeadOpen (cr.deferred P).secretKey (aeadNonce (cr.deferred P).nonce) body [] with
        | .ok opened => .ok opened
        | .error err => .error err) := by
  refine ⟨writeMessage_buffer P bw cw w p hcw hp, ?_⟩
  rw [readMessage_body P br cr hdr body rest lenBytes L hcr hh ho hL hL2 hb]
  simp only [cipherState.Decrypt, List.nil_append]

/-- Witness of C19 on the toy instance: `toyMachine` writes `[1, 2, 3]`, `toyPeer` reads
header and body with empty associated data; the body written is not the body sealed with
the header as associated data, and `WriteMessage` differs from the documented writer. -/
theorem body_associated_data_is_empty_witness :
    (toyMachine.WriteMessage toy bufferWrite [] [1, 2, 3] =
      some ({ toyMachine with sendCipher := some ((toyCipher.deferred toy).deferred toy) },
        [] ++ toy.aeadSeal toyCipher.secretKey (aeadNonce toyCipher.nonce)
            (PutUint16BE (List.replicate 2 0) ([1, 2, 3].length % 2 ^ 16)) [] ++
          toy.aeadSeal (toyCipher.deferred toy).secretKey
            (aeadNonce (toyCipher.deferred toy).nonce) [1, 2, 3] [],
        none) ∧
    toyPeer.ReadMessage toy bufferReadFull (toyHeader ++ (toyBody ++ [])) =
      some ({ toyPeer with recvCipher := some ((toyCipher.deferred toy).deferred toy) }, [],
        match toy.aeadOpen (toyCipher.deferred toy).secretKey
          (aeadNonce (toyCipher.deferred toy).nonce) toyBody [] with
        | .ok opened => .ok opened
        | .error err => .error err)) ∧
    toyBody ≠ toy.aeadSeal toyCipher.secretKey (aeadNonce 1) [1, 2, 3] toyHeader ∧
    toyMachine.WriteMessage toy bufferWrite [] [1, 2, 3] ≠
      toyMachine.WriteMessageDocumented toy bufferWrite [] [1, 2, 3] :=
  ⟨body_associated_data_is_empty toy toyMachine toyPeer toyCipher toyCipher [] [1, 2, 3]
      toyHeader toyBody [] [0, 3] 3 rfl (by decide) rfl (by decide) (by decide) rfl
      (by decide) (by decide),
    by decide, by decide⟩

/-- C20: `ReadMessage` framing.  On a stream that starts with 18 bytes `hdr`, read by a
machine whose receive cipher is installed: the 18 bytes are opened as the length header;
when that fails the error is returned and the stream is left just after the 18 bytes;
otherwise the two opened bytes decode big-endian to `L`, and when the stream goes on with
`L + 16` bytes `body` the result is the opening of `body`, or its error, and the stream is
left just after `body`.  Assumed of the AEAD: an opened text is 16 bytes shorter than the
ciphertext. -/
theorem readMessage_framing (P : Primitives Priv Pub) (hov : P.OpenOverhead)
    (b : Machine Priv Pub) (c : cipherState) (hdr rest : Bytes)
    (hc : b.recvCipher = some c) (hh : hdr.length = 18) :
    (∀ err, P.aeadOpen c.secretKey (aeadNonce c.nonce) hdr [] = .error err →
      b.ReadMessage P bufferReadFull (hdr ++ rest) =
        some ({ b with recvCipher := some (c.deferred P) }, rest, .error err)) ∧
    (∀ lenBytes, P.aeadOpen c.secretKey (aeadNonce c.nonce) hdr [] = .ok lenBytes →
      ∃ L, Uint16BE lenBytes = some L ∧
        L = byteAt lenBytes 1 % 256 + byteAt lenBytes 0 % 256 * 256 ∧
        ∀ body rest1, rest = body ++ rest1 → body.length = L + 16 →
          b.ReadMessage P bufferReadFull (hdr ++ rest) =
            some ({ b with recvCipher := some ((c.deferred P).deferred P) }, rest1,
              match P.aeadOpen (c.deferred P).secretKey
                (aeadNonce (c.deferred P).nonce) body [] with
              | .ok opened => .ok opened
              | .error err => .error err)) := by
  constructor
  · intro err ho
    exact readMessage_header_error P b c hdr rest err hc hh ho
  · intro lenBytes ho
    have h2 : lenBytes.length = 2 := by
      have := hov _ _ _ _ _ ho
      simp only [macSize] at this
      omega
    obtain ⟨L, hL, hL2, hLe⟩ := uint16BE_of_length_two lenBytes h2
    refine ⟨L, hL, hLe, ?_⟩
    intro body rest1 hr hb
    subst hr
    rw [readMessage_body P b c hdr body rest1 lenBytes L hc hh ho hL hL2 hb]
    simp only [cipherState.Decrypt, List.nil_append]

/-- Witness of C20 on the toy instance: `toyPeer` reads the header and the body that
`toyMachine` writes for `[1, 2, 3]`, followed by one more byte. -/
theorem readMessage_framing_witness :
    ((∀ err, toy.aeadOpen toyCipher.secretKey (aeadNonce toyCipher.nonce) toyHeader []
        = .error err →
      toyPeer.ReadMessage toy bufferReadFull (toyHeader ++ (toyBody ++ [9])) =
        some ({ toyPeer with recvCipher := some (toyCipher.deferred toy) }, toyBody ++ [9],
          .error err)) ∧
    (∀ lenBytes, toy.aeadOpen toyCipher.secretKey (aeadNonce toyCipher.nonce) toyHeader []
        = .ok lenBytes →
      ∃ L, Uint16BE lenBytes = some L ∧
        L = byteAt lenBytes 1 % 256 + byteAt lenBytes 0 % 256 * 256 ∧
        ∀ body rest1, toyBody ++ [9] = body ++ rest1 → body.length = L + 16 →
          toyPeer.ReadMessage toy bufferReadFull (toyHeader ++ (toyBody ++ [9])) =
            some ({ toyPeer with recvCipher := some ((toyCipher.deferred toy).deferred toy) },
              rest1,
              match toy.aeadOpen (toyCipher.deferred toy).secretKey
                (aeadNonce (toyCipher.deferred toy).nonce) body [] with
              | .ok opened => .ok opened
              | .error err => .error err))) ∧
    toyPeer.ReadMessage toy bufferReadFull (toyHeader ++ (toyBody ++ [9])) =
      some ({ toyPeer with recvCipher := some ((toyCipher.deferred toy).deferred toy) },
        [9], .ok [1, 2, 3]) :=
  ⟨readMessage_framing toy toy_openOverhead toyPeer toyCipher toyHeader (toyBody ++ [9])
    rfl (by decide), by decide⟩

/-- C21: the responder learns the initiator's identity.  In every lock-step handshake
(initiator and responder with equal symmetric states, the initiator knowing the
responder's static key) `RecvActThree` returns no error on the bytes of `GenActThree` and
the responder's `remoteStatic` afterwards is the initiator's static public key. -/
theorem responder_learns_identity (P : Primitives Priv Pub) (hser : P.SerializeSize)
    (hseal : P.SealOverhead) (hopen : P.OpenInvertsSeal) (hparse : P.ParseSerialize)
    (hecdh : P.EcdhSymmetric) (mi mr : Machine Priv Pub) (ei er : Priv)
    (hig : mi.ephemeralGen = .ok ei) (hrg : mr.ephemeralGen = .ok er)
    (hrs : mi.remoteStatic = some (P.pubKey mr.localStatic))
    (hsym : mi.tosymmetricState = mr.tosymmetricState) :
    ∃ t, lockStep P mi mr = some t ∧
      t.errors = [none, none, none, none, none, none] ∧
      t.responder3.remoteStatic = some (P.pubKey mi.localStatic) := by
  obtain ⟨t, ht, herr, -, -, -, -, -, hr3⟩ :=
    lockStep_spec P hser hseal hopen hparse hecdh mi mr ei er hig hrg hrs hsym
  refine ⟨t, ht, herr, ?_⟩
  rw [hr3]
  show (Machine.split P _).tohandshakeState.remoteStatic = _
  rw [split_handshakeState]
  rfl

/-- Witness of C21 on the toy instance. -/
theorem responder_learns_identity_witness :
    ∃ t, lockStep toy toyInitiator toyResponder = some t ∧
      t.errors = [none, none, none, none, none, none] ∧
      t.responder3.remoteStatic = some (toy.pubKey toyInitiator.localStatic) :=
  responder_learns_identity toy toy_serializeSize toy_sealOverhead toy_openInvertsSeal
    toy_parseSerialize toy_ecdhSymmetric toyInitiator toyResponder 7 11 rfl rfl rfl rfl

/-- C22: send and receive ciphers are independent.  For every machine, writer and
reader, `WriteMessage` returns when a send cipher is installed and whatever it returns
it leaves `recvCipher` and the handshake state unchanged; `ReadMessage` returns when a
receive cipher is installed (the AEAD opening to 16 bytes less than its input) and
whatever it returns it leaves `sendCipher` and the handshake state unchanged. -/
theorem send_recv_independent {σ ρ : Type} (P : Primitives Priv Pub) (b : Machine Priv Pub)
    (write : σ → Bytes → σ × Option Error) (w : σ) (p : Bytes)
    (readFull : ρ → Nat → ρ × Bytes × Option Error) (r : ρ) :
    (∀ c, b.sendCipher = some c →
      ∃ b1 w1 e, b.WriteMessage P write w p = some (b1, w1, e)) ∧
    (∀ b1 w1 e, b.WriteMessage P write w p = some (b1, w1, e) →
      b1.recvCipher = b.recvCipher ∧ b1.tohandshakeState = b.tohandshakeState ∧
      b1.ephemeralGen = b.ephemeralGen) ∧
    (P.OpenOverhead → ∀ c, b.recvCipher = some c →
      ∃ b1 r1 res, b.ReadMessage P readFull r = some (b1, r1, res)) ∧
    (∀ b1 r1 res, b.ReadMessage P readFull r = some (b1, r1, res) →
      b1.sendCipher = b.sendCipher ∧ b1.tohandshakeState = b.tohandshakeState ∧
      b1.ephemeralGen = b.ephemeralGen) := by
  refine ⟨fun c hc => writeMessage_returns P b write w p c hc, ?_,
    fun hov c hc => readMessage_returns P hov b readFull r c hc, ?_⟩
  · intro b1 w1 e h
    unfold Machine.WriteMessage at h
    split at h
    · simp only [Option.some.injEq, Prod.mk.injEq] at h
      obtain ⟨rfl, -, -⟩ := h
      exact ⟨rfl, rfl, rfl⟩
    · split at h
      · cases h
      · simp only at h
        split at h
        · simp only [Option.some.injEq, Prod.mk.injEq] at h
          obtain ⟨rfl, -, -⟩ := h
          exact ⟨rfl, rfl, rfl⟩
        · simp only [Option.some.injEq, Prod.mk.injEq] at h
          obtain ⟨rfl, -, -⟩ := h
          exact ⟨rfl, rfl, rfl⟩
  · intro b1 r1 res h
    unfold Machine.ReadMessage at h
    simp only at h
    split at h
    · simp only [Option.some.injEq, Prod.mk.injEq] at h
      obtain ⟨rfl, -, -⟩ := h
      exact ⟨rfl, rfl, rfl⟩
    · split at h
      · cases h
      · split at h
        · simp only [Option.some.injEq, Prod.mk.injEq] at h
          obtain ⟨rfl, -, -⟩ := h
          exact ⟨rfl, rfl, rfl⟩
        · split at h
          · cases h
          · split at h
            · cases h
            · split at h
              · simp only [Option.some.injEq, Prod.mk.injEq] at h
                obtain ⟨rfl, -, -⟩ := h
                exact ⟨rfl, rfl, rfl⟩
              · simp only [Option.some.injEq, Prod.mk.injEq] at h
                obtain ⟨rfl, -, -⟩ := h
                exact ⟨rfl, rfl, rfl⟩

/-- Witness of C22 on the toy instance: `toyMachine` writes `[1, 2, 3]`, `toyPeer` reads it. -/
theorem send_recv_independent_witness :
    (∃ b1 w1 e, toyMachine.WriteMessage toy bufferWrite [] [1, 2, 3] = some (b1, w1, e) ∧
      b1.recvCipher = toyMachine.recvCipher ∧
      b1.tohandshakeState = toyMachine.tohandshakeState ∧
      b1.ephemeralGen = toyMachine.ephemeralGen) ∧
    (∃ b1 r1 res, toyPeer.ReadMessage toy bufferReadFull (toyHeader ++ toyBody)
        = some (b1, r1, res) ∧
      b1.sendCipher = toyPeer.sendCipher ∧ b1.tohandshakeState = toyPeer.tohandshakeState ∧
      b1.ephemeralGen = toyPeer.ephemeralGen) :=
  ⟨⟨_, _, _, rfl,
      (send_recv_independent toy toyMachine bufferWrite [] [1, 2, 3] bufferReadFull []).2.1
        _ _ _ rfl⟩,
    ⟨_, _, _, rfl,
      (send_recv_independent toy toyPeer bufferWrite [] [1, 2, 3] bufferReadFull
        (toyHeader ++ toyBody)).2.2.2 _ _ _ rfl⟩⟩

/-- C24: determinism with fixed ephemeral keys.  Two runs whose machines agree on the
static keys, the initial symmetric state and the outcome of the ephemeral generator
return byte-for-byte the same Act One and, after `RecvActOne` of the same Act One, the
same Act Two; with the generator option the machine `NewBrontideMachine` returns does
not depend on the default generator. -/
theorem deterministic_with_fixed_ephemerals (P : Primitives Priv Pub)
    (i1 i2 r1 r2 : Machine Priv Pub) (actOne : Bytes)
    (his : i1.tosymmetricState = i2.tosymmetricState)
    (hir : i1.remoteStatic = i2.remoteStatic)
    (hig : i1.ephemeralGen = i2.ephemeralGen)
    (hrs : r1.tosymmetricState = r2.tosymmetricState)
    (hrl : r1.localStatic = r2.localStatic)
    (hre : r1.remoteEphemeral = r2.remoteEphemeral)
    (hrg : r1.ephemeralGen = r2.ephemeralGen) :
    (i1.GenActOne P).map (fun x => x.2) = (i2.GenActOne P).map (fun x => x.2) ∧
    (r1.RecvActOne P actOne).2 = (r2.RecvActOne P actOne).2 ∧
    ((r1.RecvActOne P actOne).1.GenActTwo P).map (fun x => x.2) =
      ((r2.RecvActOne P actOne).1.GenActTwo P).map (fun x => x.2) ∧
    (∀ (g1 g2 gen : Except Error Priv) (initiator : Bool) (localPub : Priv) (rp : Option Pub),
      NewBrontideMachine P g1 initiator localPub rp [EphemeralGenerator gen] =
        NewBrontideMachine P g2 initiator localPub rp [EphemeralGenerator gen]) := by
  have h1 := genActOne_congr P i1 i2 his hir hig
  obtain ⟨he, hs, hr, hg⟩ := recvActOne_congr P r1 r2 actOne hrs hrl hre hrg
  have h2 := genActTwo_congr P _ _ hs hr hg
  refine ⟨?_, he, ?_, ?_⟩
  · have := congrArg (Option.map (fun x : symmetricState × Bytes × Option Error => x.2)) h1
    simpa [Option.map_map, Function.comp] using this
  · have := congrArg (Option.map (fun x : symmetricState × Bytes × Option Error => x.2)) h2
    simpa [Option.map_map, Function.comp] using this
  · intro g1 g2 gen initiator localPub rp
    simp only [NewBrontideMachine]
    cases newHandshakeState P initiator lightningPrologue localPub rp <;> rfl

/-- Witness of C24 on the toy instance: the second run differs in fields the acts do not
read. -/
theorem deterministic_with_fixed_ephemerals_witness :
    (toyInitiator.GenActOne toy).map (fun x => x.2) =
      (({ toyInitiator with localStatic := 9, localEphemeral := some 1 } :
        Machine Nat (Fin 251)).GenActOne toy).map (fun x => x.2) ∧
    (toyPeer.RecvActOne toy (1 :: List.replicate 49 0)).2 =
      (({ toyPeer with remoteStatic := some 1 } : Machine Nat (Fin 251)).RecvActOne toy
        (1 :: List.replicate 49 0)).2 ∧
    ((toyPeer.RecvActOne toy (1 :: List.replicate 49 0)).1.GenActTwo toy).map (fun x => x.2) =
      ((({ toyPeer with remoteStatic := some 1 } : Machine Nat (Fin 251)).RecvActOne toy
        (1 :: List.replicate 49 0)).1.GenActTwo toy).map (fun x => x.2) ∧
    (∀ (g1 g2 gen : Except Error Nat) (initiator : Bool) (localPub : Nat)
        (rp : Option (Fin 251)),
      NewBrontideMachine toy g1 initiator localPub rp [EphemeralGenerator gen] =
        NewBrontideMachine toy g2 initiator localPub rp [EphemeralGenerator gen]) :=
  deterministic_with_fixed_ephemerals toy toyInitiator
    { toyInitiator with localStatic := 9, localEphemeral := some 1 } toyPeer
    { toyPeer with remoteStatic := some 1 } (1 :: List.replicate 49 0)
    rfl rfl rfl rfl rfl rfl rfl

/-- C27: triple-DH chain.  For machines made by `NewBrontideMachine`, after the lock-step
handshake the chaining key of the initiator, from which `split` derives the transport
keys (it is the salt of all four ciphers and the HKDF salt of their keys), is the
chaining key after three `mixKey` steps on the state `InitializeSymmetric` leaves, whose
chaining key is SHA-256 of the protocol name, with inputs `ecdh(responder static,
initiator ephemeral)`, `ecdh(responder ephemeral, initiator ephemeral)` and
`ecdh(responder ephemeral, initiator static)` in that order; the responder has the same
chaining key. -/
theorem triple_dh_chain (P : Primitives Priv Pub) (hser : P.SerializeSize)
    (hseal : P.SealOverhead) (hopen : P.OpenInvertsSeal) (hparse : P.ParseSerialize)
    (hecdh : P.EcdhSymmetric) (iStatic rStatic iEph rEph : Priv) :
    ∃ mi mr t,
      NewBrontideMachine P (.ok iEph) true iStatic (some (P.pubKey rStatic)) [] = some mi ∧
      NewBrontideMachine P (.ok rEph) false rStatic none [] = some mr ∧
      lockStep P mi mr = some t ∧
      t.initiator3.chainingKey =
        ((((symmetricState.zero.InitializeSymmetric P protocolName).mixKey P
          (ecdh P (P.pubKey rStatic) iEph)).mixKey P
          (ecdh P (P.pubKey rEph) iEph)).mixKey P
          (ecdh P (P.pubKey rEph) iStatic)).chainingKey ∧
      t.responder3.chainingKey = t.initiator3.chainingKey ∧
      (symmetricState.zero.InitializeSymmetric P protocolName).chainingKey =
        P.sha256 protocolName ∧
      t.initiator3.sendCipher.map (fun c => c.salt) = some t.initiator3.chainingKey ∧
      t.initiator3.recvCipher.map (fun c => c.salt) = some t.initiator3.chainingKey ∧
      t.responder3.sendCipher.map (fun c => c.salt) = some t.initiator3.chainingKey ∧
      t.responder3.recvCipher.map (fun c => c.salt) = some t.initiator3.chainingKey ∧
      t.initiator3.sendCipher.map (fun c => c.secretKey) =
        some (hkdfBytes P [] t.initiator3.chainingKey [] 0 32) ∧
      t.initiator3.recvCipher.map (fun c => c.secretKey) =
        some (hkdfBytes P [] t.initiator3.chainingKey [] 32 32) := by
  obtain ⟨mi, hmi, hig, hirs, hii, hil, hisym⟩ :=
    newMachine_initiator P (.ok iEph) iStatic (P.pubKey rStatic)
  obtain ⟨mr, hmr, hrg, -, hri, hrl, hrsym⟩ := newMachine_responder P (.ok rEph) rStatic none
  obtain ⟨t, ht, -, -, -, -, -, hi3, hr3⟩ :=
    lockStep_spec P hser hseal hopen hparse hecdh mi mr iEph rEph hig hrg
      (by rw [hirs, hrl]) (by rw [hisym, hrsym])
  have hck : ∀ m : Machine Priv Pub, m.chainingKey = m.tohandshakeState.tosymmetricState.chainingKey :=
    fun _ => rfl
  have hci : t.initiator3.chainingKey =
      (symAfterActThree P mi.tosymmetricState mi.localStatic iEph mr.localStatic rEph).chainingKey := by
    rw [hck, hi3, split_handshakeState]; rfl
  have hcr : t.responder3.chainingKey =
      (symAfterActThree P mi.tosymmetricState mi.localStatic iEph mr.localStatic rEph).chainingKey := by
    rw [hck, hr3, split_handshakeState]; rfl
  have h1 := split_initiator P (Machine.withSymmetric
        { mi with localEphemeral := some iEph, remoteEphemeral := some (P.pubKey rEph) }
        (symAfterActThree P mi.tosymmetricState mi.localStatic iEph mr.localStatic rEph)) hii
  have h2 := split_responder P (Machine.withSymmetric
        { mr with remoteEphemeral := some (P.pubKey iEph), localEphemeral := some rEph,
                  remoteStatic := some (P.pubKey mi.localStatic) }
        (symAfterActThree P mi.tosymmetricState mi.localStatic iEph mr.localStatic rEph)) hri
  rw [← hi3] at h1
  rw [← hr3] at h2
  refine ⟨mi, mr, t, hmi, hmr, ht, ?_, by rw [hcr, hci], rfl, ?_, ?_, ?_, ?_, ?_, ?_⟩
  · rw [hci, symAfterActThree_chainingKey, hisym, hil, hrl, ecdh_symm P hecdh iEph rEph]
    rfl
  · rw [h1.1, hci]; rfl
  · rw [h1.2, hci]; rfl
  · rw [h2.2, hci]; rfl
  · rw [h2.1, hci]; rfl
  · rw [h1.1, hci]; rfl
  · rw [h1.2, hci]; rfl

/-- Witness of C27 on the toy instance. -/
theorem triple_dh_chain_witness :
    ∃ toyInitiator toyResponder t,
      NewBrontideMachine toy (.ok 7) true 3 (some (toy.pubKey 5)) [] = some toyInitiator ∧
      NewBrontideMachine toy (.ok 11) false 5 none [] = some toyResponder ∧
      lockStep toy toyInitiator toyResponder = some t ∧
      t.initiator3.chainingKey =
        ((((symmetricState.zero.InitializeSymmetric toy protocolName).mixKey toy
          (ecdh toy (toy.pubKey 5) 7)).mixKey toy
          (ecdh toy (toy.pubKey 11) 7)).mixKey toy
          (ecdh toy (toy.pubKey 11) 3)).chainingKey ∧
      t.responder3.chainingKey = t.initiator3.chainingKey ∧
      (symmetricState.zero.InitializeSymmetric toy protocolName).chainingKey =
        toy.sha256 protocolName ∧
      t.initiator3.sendCipher.map (fun c => c.salt) = some t.initiator3.chainingKey ∧
      t.initiator3.recvCipher.map (fun c => c.salt) = some t.initiator3.chainingKey ∧
      t.responder3.sendCipher.map (fun c => c.salt) = some t.initiator3.chainingKey ∧
      t.responder3.recvCipher.map (fun c => c.salt) = some t.initiator3.chainingKey ∧
      t.initiator3.sendCipher.map (fun c => c.secretKey) =
        some (hkdfBytes toy [] t.initiator3.chainingKey [] 0 32) ∧
      t.initiator3.recvCipher.map (fun c => c.secretKey) =
        some (hkdfBytes toy [] t.initiator3.chainingKey [] 32 32) :=
  triple_dh_chain toy toy_serializeSize toy_sealOverhead toy_openInvertsSeal
    toy_parseSerialize toy_ecdhSymmetric 3 5 7 11

/-- C28: transcript synchronisation.  In a lock-step handshake every act is received
without error and, after Act One, after Act Two and after Act Three, the initiator's and
the responder's symmetric states are equal: `handshakeDigest`, `chainingKey`, `tempKey`
and the cipher's key, salt and nonce. -/
theorem transcript_synchronisation (P : Primitives Priv Pub) (hser : P.SerializeSize)
    (hseal : P.SealOverhead) (hopen : P.OpenInvertsSeal) (hparse : P.ParseSerialize)
    (hecdh : P.EcdhSymmetric) (mi mr : Machine Priv Pub) (ei er : Priv)
    (hig : mi.ephemeralGen = .ok ei) (hrg : mr.ephemeralGen = .ok er)
    (hrs : mi.remoteStatic = some (P.pubKey mr.localStatic))
    (hsym : mi.tosymmetricState = mr.tosymmetricState) :
    ∃ t, lockStep P mi mr = some t ∧
      t.errors = [none, none, none, none, none, none] ∧
      t.initiator1.tosymmetricState = t.responder1.tosymmetricState ∧
      t.initiator2.tosymmetricState = t.responder2.tosymmetricState ∧
      t.initiator3.tosymmetricState = t.responder3.tosymmetricState := by
  obtain ⟨t, ht, herr, hi1, hr1, hr2, hi2, hi3, hr3⟩ :=
    lockStep_spec P hser hseal hopen hparse hecdh mi mr ei er hig hrg hrs hsym
  refine ⟨t, ht, herr, by rw [hi1, hr1]; rfl, by rw [hi2, hr2]; rfl, ?_⟩
  show t.initiator3.tohandshakeState.tosymmetricState = t.responder3.tohandshakeState.tosymmetricState
  rw [hi3, hr3, split_handshakeState, split_handshakeState]
  rfl

/-- Witness of C28 on the toy instance. -/
theorem transcript_synchronisation_witness :
    ∃ t, lockStep toy toyInitiator toyResponder = some t ∧
      t.errors = [none, none, none, none, none, none] ∧
      t.initiator1.tosymmetricState = t.responder1.tosymmetricState ∧
      t.initiator2.tosymmetricState = t.responder2.tosymmetricState ∧
      t.initiator3.tosymmetricState = t.responder3.tosymmetricState :=
  transcript_synchronisation toy toy_serializeSize toy_sealOverhead toy_openInvertsSeal
    toy_parseSerialize toy_ecdhSymmetric toyInitiator toyResponder 7 11 rfl rfl rfl rfl

/-- C29: Act One transcript.  For an initiator with a 32-byte digest `h0`, after a
`GenActOne` that returns `actOne` without error the digest is
`SHA-256(SHA-256(h0 || actOne[1..33]) || actOne[34..49])`, and `actOne[34..49]` is the
AEAD seal of the empty plaintext under the new temp key, nonce 0 and associated data
`SHA-256(h0 || actOne[1..33])`; the two fields are 33 and 16 bytes long. -/
theorem act_one_transcript (P : Primitives Priv Pub) (hsha : P.DigestSize)
    (hser : P.SerializeSize) (hseal : P.SealOverhead) (b b1 : Machine Priv Pub)
    (actOne : Bytes) (hd : b.handshakeDigest.length = 32)
    (h : b.GenActOne P = some (b1, actOne, none)) :
    b1.handshakeDigest =
      P.sha256 (P.sha256 (b.handshakeDigest ++ (actOne.take 34).drop 1) ++ actOne.drop 34) ∧
    actOne.drop 34 = P.aeadSeal b1.tempKey (aeadNonce 0) []
      (P.sha256 (b.handshakeDigest ++ (actOne.take 34).drop 1)) ∧
    b1.secretKey = b1.tempKey ∧
    ((actOne.take 34).drop 1).length = 33 ∧ (actOne.drop 34).length = 16 := by
  cases hg : b.ephemeralGen with
  | error err => simp [Machine.GenActOne, hg] at h
  | ok e =>
    cases hr : b.remoteStatic with
    | none => simp [Machine.GenActOne, hg, hr] at h
    | some rs =>
      rw [genActOne_eq P hser hseal b e rs hg hr] at h
      simp only [Option.some.injEq, Prod.mk.injEq, and_true] at h
      obtain ⟨hb, ha⟩ := h
      have hf := act_fields 33 (P.serializeCompressed (P.pubKey e))
        (((b.tosymmetricState.mixHash P (P.serializeCompressed (P.pubKey e))).mixKey P
          (ecdh P rs e)).EncryptAndHash P []).2 (hser _)
      have hl := encryptAndHash_length P hseal
        ((b.tosymmetricState.mixHash P (P.serializeCompressed (P.pubKey e))).mixKey P
          (ecdh P rs e)) []
      have hm := mixHash_eq P hsha b.tosymmetricState (P.serializeCompressed (P.pubKey e)) hd
      have hd1 : ((b.tosymmetricState.mixHash P (P.serializeCompressed (P.pubKey e))).mixKey P
          (ecdh P rs e)).handshakeDigest.length = 32 := by
        show (b.tosymmetricState.mixHash P _).handshakeDigest.length = 32
        rw [hm]; exact hsha _
      have hspec := encryptAndHash_digest P hsha
        ((b.tosymmetricState.mixHash P (P.serializeCompressed (P.pubKey e))).mixKey P
          (ecdh P rs e)) [] hd1
      have hdig : ((b.tosymmetricState.mixHash P (P.serializeCompressed (P.pubKey e))).mixKey P
          (ecdh P rs e)).handshakeDigest =
          P.sha256 (b.handshakeDigest ++ P.serializeCompressed (P.pubKey e)) := by
        show (b.tosymmetricState.mixHash P _).handshakeDigest = _
        rw [hm]
      subst ha hb
      rw [hf.1, hf.2]
      refine ⟨?_, ?_, rfl, hser _, ?_⟩
      · show (((b.tosymmetricState.mixHash P _).mixKey P _).EncryptAndHash P []).1.handshakeDigest = _
        rw [hspec, hdig]
      · rw [encryptAndHash_after_mixKey, hm]; rfl
      · rw [hl]; rfl

/-- Witness of C29 on the toy instance. -/
theorem act_one_transcript_witness :
    ∃ b1 actOne, toyInitiator.GenActOne toy = some (b1, actOne, none) ∧
      b1.handshakeDigest =
        toy.sha256 (toy.sha256 (toyInitiator.handshakeDigest ++ (actOne.take 34).drop 1) ++
          actOne.drop 34) ∧
      actOne.drop 34 = toy.aeadSeal b1.tempKey (aeadNonce 0) []
        (toy.sha256 (toyInitiator.handshakeDigest ++ (actOne.take 34).drop 1)) ∧
      b1.secretKey = b1.tempKey ∧
      ((actOne.take 34).drop 1).length = 33 ∧ (actOne.drop 34).length = 16 :=
  ⟨_, _, rfl, act_one_transcript toy toy_digestSize toy_serializeSize toy_sealOverhead
    toyInitiator _ _ rfl rfl⟩

/-- C30: `RecvActOne` fails exactly on format or authentication problems.  For a
responder with a 32-byte digest `h0` and a 50-byte `actOne`, `RecvActOne` returns no
error if and only if `actOne[0]` is 0, `actOne[1..33]` parses as a public key `E`, and
the AEAD opens `actOne[34..49]` to the empty plaintext under the temp key of
`mixKey(ecdh(E, local static))`, nonce 0 and associated data
`SHA-256(h0 || compressed(E))`. -/
theorem recvActOne_accepts_iff (P : Primitives Priv Pub) (hsha : P.DigestSize)
    (hov : P.OpenOverhead) (b : Machine Priv Pub) (actOne : Bytes)
    (hlen : actOne.length = 50) (hd : b.handshakeDigest.length = 32) :
    (b.RecvActOne P actOne).2 = none ↔
      byteAt actOne 0 = 0 ∧
      ∃ E, P.parsePubKey ((actOne.take 34).drop 1) = .ok E ∧
        P.aeadOpen (b.tosymmetricState.mixKey P (ecdh P E b.localStatic)).tempKey (aeadNonce 0)
          (actOne.drop 34) (P.sha256 (b.handshakeDigest ++ P.serializeCompressed E)) = .ok [] := by
  have hdig : ∀ E, (b.tosymmetricState.mixHash P (P.serializeCompressed E)).handshakeDigest =
      P.sha256 (b.handshakeDigest ++ P.serializeCompressed E) := by
    intro E
    rw [mixHash_eq P hsha _ _ hd]
  have hkey : ∀ E, (b.tosymmetricState.mixKey P (ecdh P E b.localStatic)).tempKey =
      hkdfBytes P (ecdh P E b.localStatic) b.chainingKey [] 32 32 := fun _ => rfl
  have hs := slice_lengths actOne 33 16 hlen
  by_cases hv : byteAt actOne 0 = 0
  · rw [recvActOne_error P b actOne hlen hv]
    simp only [hv, true_and, hdig, hkey]
    cases hp : P.parsePubKey ((actOne.take 34).drop 1) with
    | error err => simp
    | ok E =>
      simp only [Except.ok.injEq, exists_eq_left']
      cases ho : P.aeadOpen (hkdfBytes P (ecdh P E b.localStatic) b.chainingKey [] 32 32)
          (aeadNonce 0) (actOne.drop 34)
          (P.sha256 (b.handshakeDigest ++ P.serializeCompressed E)) with
      | error err => simp
      | ok p =>
        have := hov _ _ _ _ _ ho
        rw [hs.2] at this
        simp only [macSize] at this
        have hp0 : p = [] := List.length_eq_zero.mp (by omega)
        simp [hp0]
  · rw [recvActOne_version P b actOne hv]
    simp [hv]

/-- Witness of C30 on the toy instance: `toyResponder` accepts the Act One of
`toyInitiator`, so both sides of the equivalence hold there. -/
theorem recvActOne_accepts_iff_witness :
    (toyResponder.RecvActOne toy toyActOne).2 = none ∧
    ((toyResponder.RecvActOne toy toyActOne).2 = none ↔
      byteAt toyActOne 0 = 0 ∧
      ∃ E, toy.parsePubKey ((toyActOne.take 34).drop 1) = .ok E ∧
        toy.aeadOpen (toyResponder.tosymmetricState.mixKey toy
            (ecdh toy E toyResponder.localStatic)).tempKey (aeadNonce 0)
          (toyActOne.drop 34)
          (toy.sha256 (toyResponder.handshakeDigest ++ toy.serializeCompressed E)) = .ok []) :=
  ⟨rfl, recvActOne_accepts_iff toy toy_digestSize toy_openOverhead toyResponder toyActOne
    rfl rfl⟩

/-- C31: `ReadMessage` buffer bound.  When the header has been read and `Decrypt` returns
the length bytes without error, these are two bytes, the body length `ReadMessage`
computes from them, `uint32(Uint16(pktLenBytes)) + macSize`, is the decoded length plus
16 without wrap-around, at least 16 and at most 65535 + 16 = 65551, which is the size
`ReadSize` of the read buffer, and `ReadMessage` returns after asking the reader for
exactly that many bytes (it does not panic on the slice `nextCipherText[:pktLen]`). -/
theorem readMessage_buffer_bound {ρ : Type} (P : Primitives Priv Pub) (hov : P.OpenOverhead)
    (b : Machine Priv Pub) (readFull : ρ → Nat → ρ × Bytes × Option Error) (r : ρ)
    (c : cipherState) (lenBytes : Bytes) (hc : b.recvCipher = some c)
    (hr : (readFull r (lengthHeaderSize + macSize)).2.2 = none)
    (hd : (c.Decrypt P [] [] (copy (List.replicate (lengthHeaderSize + macSize) 0)
      (readFull r (lengthHeaderSize + macSize)).2.1)).2 = .ok lenBytes) :
    lenBytes.length = 2 ∧
    ∃ L, Uint16BE lenBytes = some L ∧
      (L + macSize) % 2 ^ 32 = L + 16 ∧
      16 ≤ (L + macSize) % 2 ^ 32 ∧
      (L + macSize) % 2 ^ 32 ≤ 65535 + 16 ∧
      (L + macSize) % 2 ^ 32 ≤ ReadSize ∧
      ReadSize = 65551 ∧
      ∃ b1 res, b.ReadMessage P readFull r =
        some (b1, (readFull (readFull r (lengthHeaderSize + macSize)).1 (L + 16)).1, res) := by
  have h2 := decrypt_header_length P hov c _ lenBytes hd
  obtain ⟨L, hL, hL2, -⟩ := uint16BE_of_length_two lenBytes h2
  have hmod : (L + macSize) % 2 ^ 32 = L + 16 := by simp only [macSize]; omega
  have hlen : ¬ L + 16 > ReadSize := by
    simp only [ReadSize, MaxUint16, macSize]
    omega
  refine ⟨h2, L, hL, hmod, ?_, ?_, ?_, rfl, ?_⟩
  · rw [hmod]; omega
  · rw [hmod]; omega
  · rw [hmod]; omega
  · simp only [Machine.ReadMessage, hr, hc, hd, hL, hmod, hlen, ↓reduceIte]
    split <;> exact ⟨_, _, rfl⟩

/-- Witness of C31 on the toy instance: `toyPeer` reads the header of a three-byte
message; the bounds 16 and 65551 are reached by the headers `[0, 0]` and `[255, 255]`. -/
theorem readMessage_buffer_bound_witness :
    ([0, 3] : Bytes).length = 2 ∧
    (∃ L, Uint16BE [0, 3] = some L ∧
      (L + macSize) % 2 ^ 32 = L + 16 ∧
      16 ≤ (L + macSize) % 2 ^ 32 ∧
      (L + macSize) % 2 ^ 32 ≤ 65535 + 16 ∧
      (L + macSize) % 2 ^ 32 ≤ ReadSize ∧
      ReadSize = 65551 ∧
      ∃ b1 res, toyPeer.ReadMessage toy bufferReadFull (toyHeader ++ toyBody) =
        some (b1, (bufferReadFull (bufferReadFull (toyHeader ++ toyBody)
          (lengthHeaderSize + macSize)).1 (L + 16)).1, res)) ∧
    Uint16BE [0, 0] = some 0 ∧ Uint16BE [255, 255] = some 65535 :=
  ⟨(readMessage_buffer_bound toy toy_openOverhead toyPeer bufferReadFull
      (toyHeader ++ toyBody) toyCipher [0, 3] rfl rfl (by decide)).1,
    (readMessage_buffer_bound toy toy_openOverhead toyPeer bufferReadFull
      (toyHeader ++ toyBody) toyCipher [0, 3] rfl rfl (by decide)).2, rfl, rfl⟩

/-- C32: transport keys are installed only after authentication.  For every machine and
every `actThree`: when `RecvActThree` returns an error, `sendCipher` and `recvCipher` are
the ones before the call; when it returns no error, both are installed; and it returns
whenever the local ephemeral key is set. -/
theorem transport_keys_after_authentication (P : Primitives Priv Pub)
    (b : Machine Priv Pub) (actThree : Bytes) :
    (∀ b1 err, b.RecvActThree P actThree = some (b1, some err) →
      b1.sendCipher = b.sendCipher ∧ b1.recvCipher = b.recvCipher) ∧
    (∀ b1, b.RecvActThree P actThree = some (b1, none) →
      b1.sendCipher.isSome = true ∧ b1.recvCipher.isSome = true) ∧
    (∀ le, b.localEphemeral = some le →
      ∃ b1 e, b.RecvActThree P actThree = some (b1, e)) := by
  refine ⟨?_, ?_, ?_⟩
  · intro b1 err h
    unfold Machine.RecvActThree at h
    split at h
    · simp only [Option.some.injEq, Prod.mk.injEq] at h
      obtain ⟨rfl, -⟩ := h
      exact ⟨rfl, rfl⟩
    · simp only at h
      split at h
      · simp only [Option.some.injEq, Prod.mk.injEq] at h
        obtain ⟨rfl, -⟩ := h
        exact ⟨rfl, rfl⟩
      · split at h
        · simp only [Option.some.injEq, Prod.mk.injEq] at h
          obtain ⟨rfl, -⟩ := h
          exact ⟨rfl, rfl⟩
        · split at h
          · cases h
          · split at h
            · simp only [Option.some.injEq, Prod.mk.injEq] at h
              obtain ⟨rfl, -⟩ := h
              exact ⟨rfl, rfl⟩
            · simp only [Option.some.injEq, Prod.mk.injEq] at h
              exact absurd h.2 (by simp)
  · intro b1 h
    unfold Machine.RecvActThree at h
    split at h
    · simp only [Option.some.injEq, Prod.mk.injEq] at h
      exact absurd h.2 (by simp)
    · simp only at h
      split at h
      · simp only [Option.some.injEq, Prod.mk.injEq] at h
        exact absurd h.2 (by simp)
      · split at h
        · simp only [Option.some.injEq, Prod.mk.injEq] at h
          exact absurd h.2 (by simp)
        · split at h
          · cases h
          · split at h
            · simp only [Option.some.injEq, Prod.mk.injEq] at h
              exact absurd h.2 (by simp)
            · simp only [Option.some.injEq, Prod.mk.injEq] at h
              obtain ⟨rfl, -⟩ := h
              exact ⟨split_sendCipher_isSome P _, split_recvCipher_isSome P _⟩
  · intro le hle
    unfold Machine.RecvActThree
    split
    · exact ⟨_, _, rfl⟩
    · simp only
      split
      · exact ⟨_, _, rfl⟩
      · split
        · exact ⟨_, _, rfl⟩
        · simp only [withSymmetric_localEphemeral, hle]
          split <;> exact ⟨_, _, rfl⟩

/-- Witness of C32 on the toy instance: a wrong version byte and a ciphertext that does
not authenticate both leave `toyResponder` without transport ciphers. -/
theorem transport_keys_after_authentication_witness :
    (∃ b1 err, toyResponder.RecvActThree toy (1 :: List.replicate 65 0) = some (b1, some err) ∧
      b1.sendCipher = toyResponder.sendCipher ∧ b1.recvCipher = toyResponder.recvCipher) ∧
    (∃ b1 err, ({ toyResponder with localEphemeral := some 11 } : Machine Nat (Fin 251)).RecvActThree
        toy (List.replicate 66 0) = some (b1, some err) ∧
      b1.sendCipher = none ∧ b1.recvCipher = none) :=
  ⟨⟨_, _, rfl, (transport_keys_after_authentication toy toyResponder
      (1 :: List.replicate 65 0)).1 _ _ rfl⟩,
    ⟨_, _, rfl, (transport_keys_after_authentication toy
      { toyResponder with localEphemeral := some 11 } (List.replicate 66 0)).1 _ _ rfl⟩⟩

/-- C33: a message is never split across a key rotation.  Let `c0` be the send cipher
`split` installs; its nonce is 0.  After `n` messages of at most 65535 bytes written
with `WriteMessage` to a writer that does not fail, the send cipher is `c0` rotated
`n / 500` times with nonce `2 * (n % 500)`, which is even and less than 1000.  The next
`WriteMessage`, to any writer that does not fail, seals the length header with nonce
`2 * (n % 500)` and the body with nonce `2 * (n % 500) + 1` under that one key, hands the
two to the writer, and leaves the state of `n + 1` messages: the key has rotated once
more exactly when `n + 1` is a multiple of 500. -/
theorem message_within_one_key {σ : Type} (P : Primitives Priv Pub) (b0 : Machine Priv Pub)
    (ps : List Bytes) (w : Bytes) (write : σ → Bytes → σ × Option Error) (w2 : σ) (p : Bytes)
    (hps : ∀ q ∈ ps, q.length ≤ 65535) (hw : ∀ s x, (write s x).2 = none)
    (hp : p.length ≤ 65535) :
    ∃ c0 b1 w1, (b0.split P).sendCipher = some c0 ∧ c0.nonce = 0 ∧
      writeMessages P (b0.split P) w ps = some (b1, w1, none) ∧
      b1.sendCipher = some { rotations P c0 (ps.length / 500) with
        nonce := 2 * (ps.length % 500) } ∧
      2 * (ps.length % 500) < 1000 ∧
      b1.WriteMessage P write w2 p =
        some ({ b1 with sendCipher := some { rotations P c0 ((ps.length + 1) / 500) with
            nonce := 2 * ((ps.length + 1) % 500) } },
          (write (write w2 (P.aeadSeal (rotations P c0 (ps.length / 500)).secretKey
              (aeadNonce (2 * (ps.length % 500)))
              (PutUint16BE (List.replicate 2 0) (p.length % 2 ^ 16)) [])).1
            (P.aeadSeal (rotations P c0 (ps.length / 500)).secretKey
              (aeadNonce (2 * (ps.length % 500) + 1)) p [])).1,
          none) ∧
      rotations P c0 ((ps.length + 1) / 500) =
        (if (ps.length + 1) % 500 = 0 then (rotations P c0 (ps.length / 500)).rotateKey P
         else rotations P c0 (ps.length / 500)) := by
  obtain ⟨c0, hc0, hn0⟩ := split_sendCipher_nonce P b0
  have hstart : (b0.split P).sendCipher =
      some { rotations P c0 (0 / 500) with nonce := 2 * (0 % 500) } := by
    rw [hc0]
    cases c0
    simp only [rotations] at *
    simp_all
  obtain ⟨b1, w1, h1, h2, -⟩ := writeMessages_epoch P c0 ps hps (b0.split P) w 0 hstart
  rw [Nat.zero_add] at h2
  have hwm := writeMessage_eq P b1 _ write w2 p h2 hp hw
  rw [deferred_header, deferred_body] at hwm
  exact ⟨c0, b1, w1, hc0, hn0, h1, h2, by omega, hwm, rotations_step P c0 ps.length⟩

set_option maxRecDepth 100000 in
/-- Witness of C33 on the toy instance: the 500th message. -/
theorem message_within_one_key_witness :
    ∃ c0 b1 w1, (toyMachine.split toy).sendCipher = some c0 ∧ c0.nonce = 0 ∧
      writeMessages toy (toyMachine.split toy) [] (List.replicate 499 [1, 2, 3])
        = some (b1, w1, none) ∧
      b1.sendCipher = some { rotations toy c0 ((List.replicate 499 [1, 2, 3]).length / 500) with
        nonce := 2 * ((List.replicate 499 [1, 2, 3]).length % 500) } ∧
      2 * ((List.replicate 499 [1, 2, 3]).length % 500) < 1000 ∧
      b1.WriteMessage toy bufferWrite [] [4, 5] =
        some ({ b1 with sendCipher := some {
            rotations toy c0 (((List.replicate 499 [1, 2, 3]).length + 1) / 500) with
              nonce := 2 * (((List.replicate 499 [1, 2, 3]).length + 1) % 500) } },
          (bufferWrite (bufferWrite []
              (toy.aeadSeal
                (rotations toy c0 ((List.replicate 499 [1, 2, 3]).length / 500)).secretKey
                (aeadNonce (2 * ((List.replicate 499 [1, 2, 3]).length % 500)))
                (PutUint16BE (List.replicate 2 0) (([4, 5] : Bytes).length % 2 ^ 16)) [])).1
            (toy.aeadSeal
              (rotations toy c0 ((List.replicate 499 [1, 2, 3]).length / 500)).secretKey
              (aeadNonce (2 * ((List.replicate 499 [1, 2, 3]).length % 500) + 1)) [4, 5] [])).1,
          none) ∧
      rotations toy c0 (((List.replicate 499 [1, 2, 3]).length + 1) / 500) =
        (if ((List.replicate 499 [1, 2, 3]).length + 1) % 500 = 0 then
          (rotations toy c0 ((List.replicate 499 [1, 2, 3]).length / 500)).rotateKey toy
         else rotations toy c0 ((List.replicate 499 [1, 2, 3]).length / 500)) :=
  message_within_one_key toy toyMachine (List.replicate 499 [1, 2, 3]) [] bufferWrite []
    [4, 5] (fun q hq => by rw [List.eq_of_mem_replicate hq]; decide) (fun _ _ => rfl)
    (by decide)

/-- C34: cipher-state lockstep.  For two cipher states with equal key, salt and nonce,
every associated data and plaintext: `Decrypt` on the second of
what `Encrypt` on the first returns gives the plaintext and no error, and afterwards
the two states again have equal key, salt and nonce; at nonce 999 both have rotated:
nonce 0, and the key and salt `rotateKey` derives. -/
theorem cipher_lockstep (P : Primitives Priv Pub) (hopen : P.OpenInvertsSeal)
    (c1 c2 : cipherState) (ad p : Bytes)
    (hk : c1.secretKey = c2.secretKey) (hs : c1.salt = c2.salt) (hn : c1.nonce = c2.nonce) :
    (c2.Decrypt P ad [] (c1.Encrypt P ad [] p).2).2 = .ok p ∧
    (c1.Encrypt P ad [] p).1.secretKey
      = (c2.Decrypt P ad [] (c1.Encrypt P ad [] p).2).1.secretKey ∧
    (c1.Encrypt P ad [] p).1.salt = (c2.Decrypt P ad [] (c1.Encrypt P ad [] p).2).1.salt ∧
    (c1.Encrypt P ad [] p).1.nonce = (c2.Decrypt P ad [] (c1.Encrypt P ad [] p).2).1.nonce ∧
    (c1.nonce = 999 →
      (c1.Encrypt P ad [] p).1 = c1.rotateKey P ∧
      (c2.Decrypt P ad [] (c1.Encrypt P ad [] p).2).1 = c2.rotateKey P ∧
      (c1.Encrypt P ad [] p).1.nonce = 0 ∧
      (c1.Encrypt P ad [] p).1.secretKey = hkdfBytes P c1.secretKey c1.salt [] 32 32 ∧
      (c1.Encrypt P ad [] p).1.salt = hkdfBytes P c1.secretKey c1.salt [] 0 32) := by
  have he : c1 = c2 := by
    cases c1; cases c2; simp_all
  subst he
  refine ⟨?_, rfl, rfl, rfl, ?_⟩
  · simp [cipherState.Decrypt, cipherState.Encrypt, hopen _ _ _ _]
  · intro h9
    have hd : c1.deferred P = c1.rotateKey P := by
      rw [deferred_eq, h9]; rfl
    have h1 : (c1.Encrypt P ad [] p).1 = c1.rotateKey P := hd
    have h2 : (c1.Decrypt P ad [] (c1.Encrypt P ad [] p).2).1 = c1.rotateKey P := hd
    refine ⟨h1, h2, ?_, ?_, ?_⟩ <;> rw [h1, rotateKey_eq]

/-- Witness of C34 on the toy instance, at the rotation threshold. -/
theorem cipher_lockstep_witness :
    (({ toyCipher with nonce := 999 } : cipherState).Decrypt toy [7] []
      (({ toyCipher with nonce := 999 } : cipherState).Encrypt toy [7] [] [1, 2, 3]).2).2
        = .ok [1, 2, 3] ∧
    (({ toyCipher with nonce := 999 } : cipherState).Encrypt toy [7] [] [1, 2, 3]).1.nonce = 0 :=
  ⟨(cipher_lockstep toy toy_openInvertsSeal { toyCipher with nonce := 999 }
      { toyCipher with nonce := 999 } [7] [1, 2, 3] rfl rfl rfl).1,
    ((cipher_lockstep toy toy_openInvertsSeal { toyCipher with nonce := 999 }
      { toyCipher with nonce := 999 } [7] [1, 2, 3] rfl rfl rfl).2.2.2.2 rfl).2.2.1⟩

/-- C35: Act Three nonce schedule.  In a lock-step handshake, after `RecvActTwo` the
nonce of the initiator's handshake cipher is 1 and its key is the temp key of the `ee`
`mixKey` of Act Two.  Act Three is the version byte, the static public key sealed under
that key with nonce 1, and the empty payload sealed with nonce 0 under the temp key of
the `se` `mixKey`.  The tags of Act One and Act Two are the empty payload sealed with
nonce 0 under the temp keys of the `es` and the `ee` `mixKey`. -/
theorem act_three_nonce_schedule (P : Primitives Priv Pub) (hser : P.SerializeSize)
    (hseal : P.SealOverhead) (hopen : P.OpenInvertsSeal) (hparse : P.ParseSerialize)
    (hecdh : P.EcdhSymmetric) (mi mr : Machine Priv Pub) (ei er : Priv)
    (hig : mi.ephemeralGen = .ok ei) (hrg : mr.ephemeralGen = .ok er)
    (hrs : mi.remoteStatic = some (P.pubKey mr.localStatic))
    (hsym : mi.tosymmetricState = mr.tosymmetricState) :
    ∃ t, lockStep P mi mr = some t ∧
      t.errors = [none, none, none, none, none, none] ∧
      t.initiator2.nonce = 1 ∧
      t.initiator2.secretKey =
        ((t.initiator1.tosymmetricState.mixHash P
          (P.serializeCompressed (P.pubKey er))).mixKey P (ecdh P (P.pubKey er) ei)).tempKey ∧
      t.actThree = 0 :: (P.aeadSeal t.initiator2.secretKey (aeadNonce 1)
          (P.serializeCompressed (P.pubKey mi.localStatic)) t.initiator2.handshakeDigest ++
        P.aeadSeal
          ((t.initiator2.tosymmetricState.EncryptAndHash P
            (P.serializeCompressed (P.pubKey mi.localStatic))).1.mixKey P
              (ecdh P (P.pubKey er) mi.localStatic)).tempKey
          (aeadNonce 0) []
          (t.initiator2.tosymmetricState.EncryptAndHash P
            (P.serializeCompressed (P.pubKey mi.localStatic))).1.handshakeDigest) ∧
      t.actOne = 0 :: (P.serializeCompressed (P.pubKey ei) ++
        P.aeadSeal
          ((mi.tosymmetricState.mixHash P (P.serializeCompressed (P.pubKey ei))).mixKey P
            (ecdh P (P.pubKey mr.localStatic) ei)).tempKey
          (aeadNonce 0) []
          (mi.tosymmetricState.mixHash P
            (P.serializeCompressed (P.pubKey ei))).handshakeDigest) ∧
      t.actTwo = 0 :: (P.serializeCompressed (P.pubKey er) ++
        P.aeadSeal
          ((t.responder1.tosymmetricState.mixHash P
            (P.serializeCompressed (P.pubKey er))).mixKey P (ecdh P (P.pubKey ei) er)).tempKey
          (aeadNonce 0) []
          (t.responder1.tosymmetricState.mixHash P
            (P.serializeCompressed (P.pubKey er))).handshakeDigest) := by
  obtain ⟨t, ht, herr, hi1, hr1, -, hi2, -, -⟩ :=
    lockStep_spec P hser hseal hopen hparse hecdh mi mr ei er hig hrg hrs hsym
  obtain ⟨ha1, ha2, ha3⟩ :=
    lockStep_acts P hser hseal hopen hparse hecdh mi mr ei er hig hrg hrs hsym t ht
  have hs1 : t.initiator1.tosymmetricState =
      symAfterActOne P mi.tosymmetricState ei mr.localStatic := by
    rw [hi1]; rfl
  have hs1r : t.responder1.tosymmetricState =
      symAfterActOne P mi.tosymmetricState ei mr.localStatic := by
    rw [hr1]; rfl
  have hs2 : t.initiator2.tosymmetricState =
      symAfterActTwo P mi.tosymmetricState ei mr.localStatic er := by
    rw [hi2]; rfl
  obtain ⟨hn, hk, -⟩ := symAfterActTwo_cipher P mi.tosymmetricState ei mr.localStatic er
  have hn2 : t.initiator2.nonce = 1 := by
    show t.initiator2.tosymmetricState.nonce = 1
    rw [hs2]; exact hn
  refine ⟨t, ht, herr, hn2, ?_, ?_, ?_, ?_⟩
  · show t.initiator2.tosymmetricState.secretKey = _
    rw [hs2, hk, hs1, ecdh_symm P hecdh er ei]
  · rw [ha3, encryptAndHash_after_mixKey, encryptAndHash_ciphertext, ← hs2,
      ecdh_symm P hecdh mi.localStatic er]
    have hn3 : t.initiator2.tosymmetricState.nonce = 1 := hn2
    rw [hn3]
  · rw [ha1, encryptAndHash_after_mixKey, ← hsym, ecdh_symm P hecdh ei mr.localStatic]
  · rw [ha2, encryptAndHash_after_mixKey, hs1r, ecdh_symm P hecdh er ei]

/-- Witness of C35 on the toy instance. -/
theorem act_three_nonce_schedule_witness :
    ∃ t, lockStep toy toyInitiator toyResponder = some t ∧
      t.errors = [none, none, none, none, none, none] ∧
      t.initiator2.nonce = 1 ∧
      t.initiator2.secretKey =
        ((t.initiator1.tosymmetricState.mixHash toy
          (toy.serializeCompressed (toy.pubKey 11))).mixKey toy
            (ecdh toy (toy.pubKey 11) 7)).tempKey ∧
      t.actThree = 0 :: (toy.aeadSeal t.initiator2.secretKey (aeadNonce 1)
          (toy.serializeCompressed (toy.pubKey toyInitiator.localStatic))
          t.initiator2.handshakeDigest ++
        toy.aeadSeal
          ((t.initiator2.tosymmetricState.EncryptAndHash toy
            (toy.serializeCompressed (toy.pubKey toyInitiator.localStatic))).1.mixKey toy
              (ecdh toy (toy.pubKey 11) toyInitiator.localStatic)).tempKey
          (aeadNonce 0) []
          (t.initiator2.tosymmetricState.EncryptAndHash toy
            (toy.serializeCompressed (toy.pubKey toyInitiator.localStatic))).1.handshakeDigest) ∧
      t.actOne = 0 :: (toy.serializeCompressed (toy.pubKey 7) ++
        toy.aeadSeal
          ((toyInitiator.tosymmetricState.mixHash toy
            (toy.serializeCompressed (toy.pubKey 7))).mixKey toy
            (ecdh toy (toy.pubKey toyResponder.localStatic) 7)).tempKey
          (aeadNonce 0) []
          (toyInitiator.tosymmetricState.mixHash toy
            (toy.serializeCompressed (toy.pubKey 7))).handshakeDigest) ∧
      t.actTwo = 0 :: (toy.serializeCompressed (toy.pubKey 11) ++
        toy.aeadSeal
          ((t.responder1.tosymmetricState.mixHash toy
            (toy.serializeCompressed (toy.pubKey 11))).mixKey toy
              (ecdh toy (toy.pubKey 7) 11)).tempKey
          (aeadNonce 0) []
          (t.responder1.tosymmetricState.mixHash toy
            (toy.serializeCompressed (toy.pubKey 11))).handshakeDigest) :=
  act_three_nonce_schedule toy toy_serializeSize toy_sealOverhead toy_openInvertsSeal
    toy_parseSerialize toy_ecdhSymmetric toyInitiator toyResponder 7 11 rfl rfl rfl rfl

/-- C36: Act One does not depend on the initiator's identity.  Two initiator machines
made by `NewBrontideMachine` with the same responder static key and the same outcome of
the ephemeral generator, and any two local static keys, return from `GenActOne` the same
array and error and the same symmetric state; when the generator returns a key, the
array has 50 bytes and there is no error.  The same holds of any two machines with equal
symmetric state, remote static key and generator outcome. -/
theorem act_one_identity_independent (P : Primitives Priv Pub) (hser : P.SerializeSize)
    (hseal : P.SealOverhead) (gen : Except Error Priv) (l1 l2 : Priv) (rs : Pub) :
    (∃ m1 m2, NewBrontideMachine P gen true l1 (some rs) [] = some m1 ∧
      NewBrontideMachine P gen true l2 (some rs) [] = some m2 ∧
      m1.localStatic = l1 ∧ m2.localStatic = l2 ∧
      (m1.GenActOne P).map (fun x => (x.1.tosymmetricState, x.2)) =
        (m2.GenActOne P).map (fun x => (x.1.tosymmetricState, x.2)) ∧
      ∀ e, gen = .ok e → ∃ b1 b2 actOne,
        m1.GenActOne P = some (b1, actOne, none) ∧
        m2.GenActOne P = some (b2, actOne, none) ∧
        actOne.length = 50 ∧ b1.tosymmetricState = b2.tosymmetricState) ∧
    (∀ m1 m2 : Machine Priv Pub, m1.tosymmetricState = m2.tosymmetricState →
      m1.remoteStatic = m2.remoteStatic → m1.ephemeralGen = m2.ephemeralGen →
      (m1.GenActOne P).map (fun x => (x.1.tosymmetricState, x.2)) =
        (m2.GenActOne P).map (fun x => (x.1.tosymmetricState, x.2))) := by
  refine ⟨?_, fun m1 m2 hs hr hg => genActOne_congr P m1 m2 hs hr hg⟩
  obtain ⟨m1, hm1, hg1, hr1, -, hl1, hs1⟩ := newMachine_initiator P gen l1 rs
  obtain ⟨m2, hm2, hg2, hr2, -, hl2, hs2⟩ := newMachine_initiator P gen l2 rs
  have hss : m1.tosymmetricState = m2.tosymmetricState := by rw [hs1, hs2]
  refine ⟨m1, m2, hm1, hm2, hl1, hl2,
    genActOne_congr P m1 m2 hss (by rw [hr1, hr2]) (by rw [hg1, hg2]), ?_⟩
  intro e he
  subst he
  have h1 := genActOne_eq P hser hseal m1 e rs hg1 hr1
  have h2 := genActOne_eq P hser hseal m2 e rs hg2 hr2
  rw [← hss] at h2
  refine ⟨_, _, _, h1, h2, ?_, rfl⟩
  exact act_length 33 _ _ (hser _) 16 (by rw [encryptAndHash_length P hseal]; rfl)

/-- Witness of C36 on the toy instance: local static keys 3 and 9, responder key
`pubKey 5`, ephemeral key 7. -/
theorem act_one_identity_independent_witness :
    ∃ m1 m2, NewBrontideMachine toy (.ok 7) true 3 (some (toy.pubKey 5)) [] = some m1 ∧
      NewBrontideMachine toy (.ok 7) true 9 (some (toy.pubKey 5)) [] = some m2 ∧
      m1.localStatic = 3 ∧ m2.localStatic = 9 ∧
      (m1.GenActOne toy).map (fun x => (x.1.tosymmetricState, x.2)) =
        (m2.GenActOne toy).map (fun x => (x.1.tosymmetricState, x.2)) ∧
      ∀ e, (.ok 7 : Except Error Nat) = .ok e → ∃ b1 b2 actOne,
        m1.GenActOne toy = some (b1, actOne, none) ∧
        m2.GenActOne toy = some (b2, actOne, none) ∧
        actOne.length = 50 ∧ b1.tosymmetricState = b2.tosymmetricState :=
  (act_one_identity_independent toy toy_serializeSize toy_sealOverhead (.ok 7) 3 9
    (toy.pubKey 5)).1

end Claims

end Brontide

namespace Chainfee

/-- A value in the range of `int64` is stored unchanged. -/
theorem wrapInt64_of_fits (x : Int) (h1 : -2 ^ 63 ≤ x) (h2 : x < 2 ^ 63) : wrapInt64 x = x := by
  unfold wrapInt64
  rw [Int.emod_eq_of_lt (by omega) (by omega)]
  omega

/-- On a product that is not negative `FeeForWeight` is the floor of `s * wu / 1000`. -/
theorem feeForWeight_floor_of_nonneg (s wu : Int) (h1 : -2 ^ 63 ≤ s * wu)
    (h2 : s * wu < 2 ^ 63) (h0 : 0 ≤ s * wu) :
    FeeForWeight s wu = ⌊((s * wu : ℤ) : ℚ) / 1000⌋ := by
  have hf : ⌊((s * wu : ℤ) : ℚ) / 1000⌋ = (s * wu) / 1000 := by
    have := Rat.floor_intCast_div_natCast (s * wu) 1000
    simpa using this
  unfold FeeForWeight
  rw [wrapInt64_of_fits _ h1 h2, hf, Int.tdiv_eq_ediv h0 (by norm_num)]

/-- C26 (what the code does): `FeeForWeight` does not round down a negative product.
When `s * wu` fits in a signed 64-bit integer, is negative and is not a multiple of
1000, the result is the quotient of `s * wu` by 1000 truncated toward zero, which is the
floor of `s * wu / 1000` plus one and so not the floor; the comment in the function says
the fee is rounded down. -/
theorem feeForWeight_negative_not_floor (s wu : Int) (h1 : -2 ^ 63 ≤ s * wu)
    (h2 : s * wu < 2 ^ 63) (hneg : s * wu < 0) (hdiv : ¬ (1000 : ℤ) ∣ s * wu) :
    FeeForWeight s wu = Int.tdiv (s * wu) 1000 ∧
    FeeForWeight s wu = ⌊((s * wu : ℤ) : ℚ) / 1000⌋ + 1 ∧
    FeeForWeight s wu ≠ ⌊((s * wu : ℤ) : ℚ) / 1000⌋ := by
  have hf : ⌊((s * wu : ℤ) : ℚ) / 1000⌋ = (s * wu) / 1000 := by
    have := Rat.floor_intCast_div_natCast (s * wu) 1000
    simpa using this
  have hw : FeeForWeight s wu = Int.tdiv (s * wu) 1000 := by
    unfold FeeForWeight
    rw [wrapInt64_of_fits _ h1 h2]
  have h3 : Int.tdiv (s * wu) 1000 = -((-(s * wu)) / 1000) := by
    rw [← Int.tdiv_eq_ediv (by omega) (by norm_num), Int.neg_tdiv, neg_neg]
  have h4 : (s * wu) % 1000 ≠ 0 := fun h => hdiv (Int.dvd_of_emod_eq_zero h)
  have h5 : FeeForWeight s wu = ⌊((s * wu : ℤ) : ℚ) / 1000⌋ + 1 := by
    rw [hw, hf, h3]
    omega
  refine ⟨hw, h5, ?_⟩
  rw [h5]
  omega

/-- Witness of C26: the fee rate -1 sat/kw and the weight 1.  The product -1 fits in an
`int64`, `FeeForWeight` returns 0 and the floor of `-1 / 1000` is -1. -/
theorem feeForWeight_negative_not_floor_witness :
    (FeeForWeight (-1) 1 = Int.tdiv ((-1) * 1) 1000 ∧
      FeeForWeight (-1) 1 = ⌊(((-1) * 1 : ℤ) : ℚ) / 1000⌋ + 1 ∧
      FeeForWeight (-1) 1 ≠ ⌊(((-1) * 1 : ℤ) : ℚ) / 1000⌋) ∧
    FeeForWeight (-1) 1 = 0 ∧ ⌊(((-1) * 1 : ℤ) : ℚ) / 1000⌋ = -1 :=
  ⟨feeForWeight_negative_not_floor (-1) 1 (by decide) (by decide) (by decide) (by decide),
    by decide, by rw [Int.floor_eq_iff]; norm_num⟩

/-- C37: fee-rate unit round trip.  For a sat/kw rate `s` whose product with 4 fits in a
signed 64-bit integer, `FeePerKWeight (FeePerKVByte s)` is `s`; for a sat/kb rate `r`
that is not negative (and is an `int64`), `FeePerKVByte (FeePerKWeight r)` is
`r - r % 4`, which is at most `r` and greater than `r - 4`. -/
theorem fee_rate_round_trip (s r : Int) (hs1 : -2 ^ 63 ≤ 4 * s) (hs2 : 4 * s < 2 ^ 63)
    (hr0 : 0 ≤ r) (hr1 : r < 2 ^ 63) :
    FeePerKWeight (FeePerKVByte s) = s ∧
    FeePerKVByte (FeePerKWeight r) = r - r % 4 ∧
    FeePerKVByte (FeePerKWeight r) ≤ r ∧
    r - 4 < FeePerKVByte (FeePerKWeight r) := by
  have h1 : FeePerKVByte s = s * 4 := by
    unfold FeePerKVByte WitnessScaleFactor
    rw [wrapInt64_of_fits _ (by omega) (by omega)]
  have h2 : FeePerKWeight r = r / 4 := by
    unfold FeePerKWeight WitnessScaleFactor
    rw [Int.tdiv_eq_ediv hr0 (by norm_num)]
  have h3 : FeePerKVByte (r / 4) = r / 4 * 4 := by
    unfold FeePerKVByte WitnessScaleFactor
    rw [wrapInt64_of_fits _ (by omega) (by omega)]
  refine ⟨?_, ?_, ?_, ?_⟩
  · rw [h1]
    unfold FeePerKWeight WitnessScaleFactor
    exact Int.mul_tdiv_cancel s (by norm_num)
  · rw [h2, h3]; omega
  · rw [h2, h3]; omega
  · rw [h2, h3]; omega

/-- Witness of C37: the fee floor 253 sat/kw and the rate 1013 sat/kb. -/
theorem fee_rate_round_trip_witness :
    FeePerKWeight (FeePerKVByte 253) = 253 ∧
    FeePerKVByte (FeePerKWeight 1013) = 1013 - 1013 % 4 ∧
    FeePerKVByte (FeePerKWeight 1013) ≤ 1013 ∧
    (1013 : Int) - 4 < FeePerKVByte (FeePerKWeight 1013) :=
  fee_rate_round_trip 253 1013 (by decide) (by decide) (by decide) (by decide)

end Chainfee
